import Mathlib

/-!
LLog: ordered lists and normalisation of imported data.

A shallow embedding of the list-reordering operations of `src/app/script.js`
(`reorderListByCheck`, `insertItemInOrder`, `moveToTop`, `moveToBottom`, the
move-up / move-down / delete menu actions, `addTask`, `addTopic`) and of the
normaliser of imported data (`processImportedDataStructure` in `script.js`,
`processImportData` in `server.js`), of the persistence gateway (`saveData`,
`loadData`, `checkLocalServer`) and of the autosave scheduler (`performSave`,
`saveEditContent`, `saveNewContent`, `resetAutoSaveTimer`, `clearEditor`,
`saveBeforeSwitch`), of the session switch (`loadIntoEditor`, the click
handler of a list entry), of `deleteCurrentEditItem` and `processImportedData`,
and of the data and backup files of `src/app/server.js` (`readDataFile`,
`writeDataFile`, `createBackup`, `cleanOldBackups`, the handlers of
`POST /api/data` and `GET /api/data`, the names in the backup list).

Modelling conventions.

* A JavaScript value stored in a field is a `JVal`: a primitive, or a
  reference to a compound value (array / object) identified by a tag.  Numbers
  are modelled on the integers.  `===` on such values is equality.
* An item (task, topic, event) is an object: an association list from keys to
  values.  Reading an absent key yields `undefined`; assigning a key replaces
  the value in place when the key exists and appends the key otherwise.
* Arrays are lists.  `splice`, `findIndex`, `filter`, `push`, `unshift` are the
  list functions below.
* The operations mutate the global `state` and then call `saveData()` and
  `renderAll()`.  `renderAll` reads `state` and rebuilds the topic select (which
  matters only where the editor fields are modelled); a call of `saveData` is
  recorded in the `saves` counter of the outcome.
* The outcome of an input / output operation (the `localStorage` write, a
  request to the remote service, the health probe) is an argument of the
  function that performs it.
* A file is represented by the document its JSON text denotes, a directory by
  the list of its file names; `localeCompare` is a host comparator.
* The page is single-threaded: other handlers run only while a call is
  suspended on a request to the remote service.  `performSave` is therefore
  given in two parts, up to that suspension and after it; `performSave` itself
  is the two run back to back.
-/

namespace LLog

/-! ## Values and objects -/

/-- A JavaScript value held in a field of an item. -/
inductive JVal where
  | undefined
  | null
  | bool (b : Bool)
  | num (n : Int)
  | str (s : String)
  | ref (tag : Nat)
  deriving DecidableEq, Repr

/-- Truthiness (`ToBoolean`): `undefined`, `null`, `false`, `0` and `""` are
falsy, every other value is truthy. -/
def JVal.truthy : JVal → Bool
  | .undefined => false
  | .null => false
  | .bool b => b
  | .num n => n != 0
  | .str s => s != ""
  | .ref _ => true

/-- An object: its own enumerable properties, in order. -/
abbrev Obj := List (String × JVal)

/-- Property read `o.k`; `undefined` when the key is absent. -/
def Obj.get : Obj → String → JVal
  | [], _ => .undefined
  | (k, v) :: rest, key => if k = key then v else Obj.get rest key

/-- Property write `o.k = v`: overwrite in place, or append a new key. -/
def Obj.set : Obj → String → JVal → Obj
  | [], key, v => [(key, v)]
  | (k, w) :: rest, key, v =>
    if k = key then (k, v) :: rest else (k, w) :: Obj.set rest key v

/-- The test `x.done` used as a condition. -/
def isDone (x : Obj) : Bool := (x.get "done").truthy

/-- The assignment `item.done = !!item.done`. -/
def coerceDone (item : Obj) : Obj := item.set "done" (.bool (item.get "done").truthy)

/-! ## Array primitives -/

/-- The call `arr.findIndex(p)`; `none` stands for `-1`. -/
def findIndex (p : Obj → Bool) : List Obj → Option Nat
  | [] => none
  | x :: xs => if p x then some 0 else (findIndex p xs).map (· + 1)

/-- The call `arr.splice(i, 0, item)`: insert `item` at index `i` (clamped to the length). -/
def spliceInsert (arr : List Obj) (i : Nat) (item : Obj) : List Obj :=
  arr.take i ++ item :: arr.drop i

/-- The call `arr.splice(i, 1)`: remove the element at index `i`. -/
def spliceRemove (arr : List Obj) (i : Nat) : List Obj :=
  arr.eraseIdx i

/-! ## State -/

/-- The global `state` object. -/
structure State where
  events : List Obj
  topics : List Obj
  tasks : List Obj
  deriving DecidableEq, Repr

/-- The list names passed to the reorder operations. -/
inductive ListName where
  | tasks
  | topics
  deriving DecidableEq, Repr

/-- The array `state[listName]`. -/
def State.list (st : State) : ListName → List Obj
  | .tasks => st.tasks
  | .topics => st.topics

/-- The state after the array `state[listName]` has been mutated to `arr`. -/
def State.setList (st : State) : ListName → List Obj → State
  | .tasks, arr => { st with tasks := arr }
  | .topics, arr => { st with topics := arr }

/-- What an operation leaves behind: the state and the number of `saveData()`
calls it issued. -/
structure Outcome where
  state : State
  saves : Nat
  deriving DecidableEq, Repr

/-! ## Reordering (script.js 448-506) -/

/-- The function `insertItemInOrder(arr, item)`: a done item goes to the index
that counts the undone items, an undone item in front of the first done item. -/
def insertItemInOrder (arr : List Obj) (item : Obj) : List Obj :=
  if isDone item then
    let countUnchecked := (arr.filter (fun x => !isDone x)).length
    spliceInsert arr countUnchecked item
  else
    let insertIndex :=
      match findIndex isDone arr with
      | none => arr.length
      | some firstChecked => firstChecked
    spliceInsert arr insertIndex item

/-- The array part of `reorderListByCheck`: `none` when the id is not found
(the early `return`), otherwise the array after the splice and re-insertion. -/
def reorderArr (arr : List Obj) (id : JVal) (checked : JVal) : Option (List Obj) :=
  match findIndex (fun x => decide (x.get "id" = id)) arr with
  | none => none
  | some idx =>
    match arr.get? idx with
    | none => none
    | some item0 =>
      let arr1 := spliceRemove arr idx
      let item := item0.set "done" (.bool checked.truthy)
      some (insertItemInOrder arr1 item)

/-- The function `reorderListByCheck(listName, id, checked)`. -/
def reorderListByCheck (st : State) (listName : ListName) (id : JVal) (checked : JVal) :
    Outcome :=
  match reorderArr (st.list listName) id checked with
  | none => { state := st, saves := 0 }
  | some arr => { state := st.setList listName arr, saves := 1 }

/-- The array part of `moveToTop`. -/
def moveToTopArr (arr : List Obj) (id : JVal) : Option (List Obj) :=
  match findIndex (fun x => decide (x.get "id" = id)) arr with
  | none => none
  | some idx =>
    match arr.get? idx with
    | none => none
    | some item0 =>
      let arr1 := spliceRemove arr idx
      let item := coerceDone item0
      some (insertItemInOrder arr1 item)

/-- The function `moveToTop(listName, id)`. -/
def moveToTop (st : State) (listName : ListName) (id : JVal) : Outcome :=
  match moveToTopArr (st.list listName) id with
  | none => { state := st, saves := 0 }
  | some arr => { state := st.setList listName arr, saves := 1 }

/-- The array part of `moveToBottom`. -/
def moveToBottomArr (arr : List Obj) (id : JVal) : Option (List Obj) :=
  match findIndex (fun x => decide (x.get "id" = id)) arr with
  | none => none
  | some idx =>
    match arr.get? idx with
    | none => none
    | some item0 =>
      let arr1 := spliceRemove arr idx
      let item := coerceDone item0
      if isDone item then
        some (arr1 ++ [item])
      else
        let insertIndex :=
          match findIndex isDone arr1 with
          | none => arr1.length
          | some firstChecked => firstChecked
        some (spliceInsert arr1 insertIndex item)

/-- The function `moveToBottom(listName, id)`. -/
def moveToBottom (st : State) (listName : ListName) (id : JVal) : Outcome :=
  match moveToBottomArr (st.list listName) id with
  | none => { state := st, saves := 0 }
  | some arr => { state := st.setList listName arr, saves := 1 }

/-! ## Menu actions (script.js 562-605, 669-716) -/

/-- The move-up menu action of the item rendered at index `idx`, `t` being the
item captured by the closure. -/
def moveUpAction (st : State) (listName : ListName) (idx : Nat) (t : Obj) : Outcome :=
  if idx > 0 then
    let arr1 := spliceRemove (st.list listName) idx
    { state := st.setList listName (spliceInsert arr1 (idx - 1) t), saves := 1 }
  else
    { state := st, saves := 0 }

/-- The move-down menu action of the item rendered at index `idx`. -/
def moveDownAction (st : State) (listName : ListName) (idx : Nat) (t : Obj) : Outcome :=
  if idx + 1 < (st.list listName).length then
    let arr1 := spliceRemove (st.list listName) idx
    { state := st.setList listName (spliceInsert arr1 (idx + 1) t), saves := 1 }
  else
    { state := st, saves := 0 }

/-- The delete menu action of a task; `confirmed` is the answer to `confirm`. -/
def deleteTaskAction (st : State) (id : JVal) (confirmed : Bool) : Outcome :=
  if confirmed then
    { state := { st with tasks := st.tasks.filter (fun x => !decide (x.get "id" = id)) },
      saves := 1 }
  else
    { state := st, saves := 0 }

/-- The delete menu action of a topic: the topic is filtered out and every
event that referenced it is de-linked. -/
def deleteTopicAction (st : State) (id : JVal) (confirmed : Bool) : Outcome :=
  if confirmed then
    { state :=
        { st with
          topics := st.topics.filter (fun x => !decide (x.get "id" = id))
          events := st.events.map (fun ev =>
            if ev.get "topic" = id then ev.set "topic" .null else ev) },
      saves := 1 }
  else
    { state := st, saves := 0 }

/-! ## Host environment -/

/-- The host functions the program calls: the string built-ins `trim` and
`toLowerCase`, the results of the successive calls of `uid()` and of
`new Date().toISOString()` (indexed by call number), and the time value of
`new Date(v)` (`none` for an invalid date). -/
structure Host where
  trim : String → String
  toLowerCase : String → String
  uid : Nat → String
  nowISO : Nat → String
  dateMs : JVal → Option Int

/-! ## Adding items (script.js 816-844) -/

/-- The function `addTask(text)`; `n` is the number of the `uid()` / `nowISO()` call. -/
def addTask (h : Host) (n : Nat) (st : State) (text : String) : State :=
  let task : Obj :=
    [("id", .str (h.uid n)), ("text", .str text), ("done", .bool false),
     ("notes", .str ""), ("createdAt", .str (h.nowISO n))]
  { st with tasks := task :: st.tasks }

/-- The result of the `find` of `addTopic`: the first topic whose trimmed,
lower-cased name equals that of `name`.  Calling `.trim()` on a name that is not
a string throws a `TypeError` (`none`). -/
def findTopicByName (h : Host) (name : String) : List Obj → Option (Option Obj)
  | [] => some none
  | t :: ts =>
    match t.get "name" with
    | .str s =>
      if h.toLowerCase (h.trim s) = h.toLowerCase (h.trim name) then some (some t)
      else findTopicByName h name ts
    | _ => none

/-- What `addTopic` returns, or that it threw. -/
inductive AddTopicResult where
  | ok (t : Obj)
  | fail (msg : String)
  | typeError
  deriving DecidableEq, Repr

/-- The function `addTopic(name)`: the state afterwards and the result. -/
def addTopic (h : Host) (n : Nat) (st : State) (name : String) : State × AddTopicResult :=
  if name = "" then (st, .fail "名称为空")
  else
    match findTopicByName h name st.topics with
    | none => (st, .typeError)
    | some (some _) => (st, .fail "主题已存在")
    | some none =>
      let t : Obj :=
        [("id", .str (h.uid n)), ("name", .str (h.trim name)), ("notes", .str ""),
         ("done", .bool false), ("createdAt", .str (h.nowISO n))]
      ({ st with topics := t :: st.topics }, .ok t)

/-! ## The partition invariant -/

/-- Every undone item precedes every done item: no done item is followed,
anywhere later in the list, by an undone one. -/
def partitioned (arr : List Obj) : Prop :=
  arr.Pairwise (fun a b => isDone a = true → isDone b = true)

instance (arr : List Obj) : Decidable (partitioned arr) := by
  unfold partitioned; infer_instance

/-- A reorder call of the list manager. -/
inductive ReorderOp where
  | toggleDone (id : JVal) (checked : JVal)
  | top (id : JVal)
  | bottom (id : JVal)
  deriving DecidableEq, Repr

/-- Perform one reorder call on the named list. -/
def applyOp (st : State) : ListName × ReorderOp → State
  | (listName, .toggleDone id checked) => (reorderListByCheck st listName id checked).state
  | (listName, .top id) => (moveToTop st listName id).state
  | (listName, .bottom id) => (moveToBottom st listName id).state

/-- Perform a sequence of reorder calls, first call first. -/
def runOps (st : State) (ops : List (ListName × ReorderOp)) : State :=
  ops.foldl applyOp st

/-! ## Import normalisation (script.js 962-1003, server.js 153-192) -/

/-- The value handed to the normaliser.  A collection field is `none` when the
property is absent or is not an array (`Array.isArray` fails).  An array element
is `none` when it is `null`, on which a property read throws a `TypeError`;
every other element is represented by the object of its own enumerable
properties, which is what the spread `{...x}` copies (the properties `id`, `ts`
and `createdAt` are not inherited by any JSON value). -/
structure Bundle where
  events : Option (List (Option Obj))
  topics : Option (List (Option Obj))
  tasks : Option (List (Option Obj))
  deriving DecidableEq, Repr

/-- The expression `Array.isArray(x) ? [...x] : []`. -/
def arrayOrEmpty : Option (List (Option Obj)) → List (Option Obj)
  | none => []
  | some xs => xs

/-- The object literal `{ ...item, id: item.id || uid(), [tsKey]: item[tsKey] ||
new Date().toISOString() }`, with `n` counting the calls of the generators. -/
def fillItem (h : Host) (tsKey : String) (item : Obj) (n : Nat) : Obj × Nat :=
  let idn : JVal × Nat :=
    if (item.get "id").truthy then (item.get "id", n) else (.str (h.uid n), n + 1)
  let tsn : JVal × Nat :=
    if (item.get tsKey).truthy then (item.get tsKey, idn.2)
    else (.str (h.nowISO idn.2), idn.2 + 1)
  ((item.set "id" idn.1).set tsKey tsn.1, tsn.2)

/-- The `map` over one collection; `none` when an element is `null` and the
callback throws. -/
def fillItems (h : Host) (tsKey : String) : List (Option Obj) → Nat → Option (List Obj × Nat)
  | [], n => some ([], n)
  | none :: _, _ => none
  | some item :: rest, n =>
    let r := fillItem h tsKey item n
    match fillItems h tsKey rest r.2 with
    | none => none
    | some (out, m) => some (r.1 :: out, m)

/-- The comparator `new Date(a.ts) - new Date(b.ts)`; `none` is `NaN`. -/
def compareTs (h : Host) (a b : Obj) : Option Int :=
  match h.dateMs (a.get "ts"), h.dateMs (b.get "ts") with
  | some x, some y => some (x - y)
  | _, _ => none

/-- Whether `sort` may leave `a` before `b`: the comparator's result is not
positive (`NaN` counts as `0`). -/
def notAfter (h : Host) (a b : Obj) : Bool :=
  match compareTs h a b with
  | some d => decide (d ≤ 0)
  | none => true

/-- Insert `x` in front of a sorted tail of elements that followed it. -/
def insertSorted (h : Host) (x : Obj) : List Obj → List Obj
  | [] => [x]
  | y :: ys => if notAfter h x y then x :: y :: ys else y :: insertSorted h x ys

/-- The call `events.sort((a, b) => new Date(a.ts) - new Date(b.ts))`.
`Array.prototype.sort` is stable, so with a comparator that orders the elements
consistently its result is the stable sort, computed here by insertion.  When a
timestamp is invalid the comparator yields `NaN` and the language leaves the
order to the implementation. -/
def sortEvents (h : Host) : List Obj → List Obj
  | [] => []
  | x :: xs => insertSorted h x (sortEvents h xs)

/-- The function `processImportedDataStructure(imported)` of `script.js`; `none` when it
throws.  `n` counts the generator calls made before the call. -/
def processImportedDataStructure (h : Host) (n : Nat) (imported : Bundle) : Option State :=
  match fillItems h "ts" (arrayOrEmpty imported.events) n with
  | none => none
  | some (events, n1) =>
    match fillItems h "createdAt" (arrayOrEmpty imported.topics) n1 with
    | none => none
    | some (topics, n2) =>
      match fillItems h "createdAt" (arrayOrEmpty imported.tasks) n2 with
      | none => none
      | some (tasks, _) =>
        some { events := sortEvents h events, topics := topics, tasks := tasks }

/-- The function `processImportData(data)` of `server.js`. -/
def processImportData (h : Host) (n : Nat) (data : Bundle) : Option State :=
  match fillItems h "ts" (arrayOrEmpty data.events) n with
  | none => none
  | some (events, n1) =>
    match fillItems h "createdAt" (arrayOrEmpty data.topics) n1 with
    | none => none
    | some (topics, n2) =>
      match fillItems h "createdAt" (arrayOrEmpty data.tasks) n2 with
      | none => none
      | some (tasks, _) =>
        some { events := sortEvents h events, topics := topics, tasks := tasks }

/-- A concrete host for the worked examples: `trim` and `toLowerCase` leave
their argument alone (the examples use trimmed lower-case names), the k-th
generated id is `u` repeated k+1 times, the clock reads the epoch, and the time
value of `new Date(v)` is `v` for a number and 0, 1, 2 for the ISO strings of the
epoch and of the two milliseconds after it, the only strings the examples use. -/
def demoHost : Host where
  trim := fun s => s
  toLowerCase := fun s => s
  uid := fun k => String.mk (List.replicate (k + 1) 'u')
  nowISO := fun _ => "1970-01-01T00:00:00.000Z"
  dateMs := fun v =>
    match v with
    | .num n => some n
    | .str s =>
      if s = "1970-01-01T00:00:00.000Z" then some 0
      else if s = "1970-01-01T00:00:00.001Z" then some 1
      else if s = "1970-01-01T00:00:00.002Z" then some 2
      else none
    | _ => none

/-- An item with the given id and `done` flag. -/
def mkItem (id : String) (done : Bool) : Obj :=
  [("id", .str id), ("done", .bool done)]

/-- The list `[U1, U2, U3, D1]` of scenario A as the task list of a state. -/
def scenarioA : State :=
  { events := [], topics := [],
    tasks := [mkItem "U1" false, mkItem "U2" false, mkItem "U3" false, mkItem "D1" true] }

/-- The list `[U1, D1, D2]` of scenario B as the task list of a state. -/
def scenarioB : State :=
  { events := [], topics := [],
    tasks := [mkItem "U1" false, mkItem "D1" true, mkItem "D2" true] }

/-- A partitioned task list `[U1, U2, D1]`. -/
def beforeManualMove : State :=
  { events := [], topics := [],
    tasks := [mkItem "U1" false, mkItem "U2" false, mkItem "D1" true] }

/-- The task list `[D1, U1, U2]`, which two move-up actions on `D1` produce
from `[U1, U2, D1]`. -/
def afterManualMove : State :=
  { events := [], topics := [],
    tasks := [mkItem "D1" true, mkItem "U1" false, mkItem "U2" false] }

/-! ## Specification vocabulary for the import normaliser -/

/-- The time value of an event's timestamp, `new Date(e.ts)`. -/
def tsMs (h : Host) (e : Obj) : Option Int := h.dateMs (e.get "ts")

/-- The object `o` is `item` with only its missing parts filled in: every field
other than `id` and `tsKey` reads the same; a truthy `id` is kept and otherwise
`id` is a generated id; a truthy `tsKey` is kept and otherwise `tsKey` is a
reading of the clock. -/
def FilledFrom (h : Host) (tsKey : String) (item o : Obj) : Prop :=
  (∀ key, key ≠ "id" → key ≠ tsKey → o.get key = item.get key) ∧
  (if (item.get "id").truthy then o.get "id" = item.get "id"
   else ∃ m, o.get "id" = .str (h.uid m)) ∧
  (if (item.get tsKey).truthy then o.get tsKey = item.get tsKey
   else ∃ m, o.get tsKey = .str (h.nowISO m))

/-- The event carries a valid timestamp once filled: its own `ts` when that is
truthy, and otherwise whatever the clock reads. -/
def ValidTs (h : Host) (item : Obj) : Prop :=
  if (item.get "ts").truthy then (h.dateMs (item.get "ts")).isSome = true
  else ∀ m, (h.dateMs (.str (h.nowISO m))).isSome = true

/-- Event `a` is not later than event `b`, both timestamps being valid. -/
def tsLe (h : Host) (a b : Obj) : Prop :=
  ∃ x y, tsMs h a = some x ∧ tsMs h b = some y ∧ x ≤ y

/-- An event with the given id and timestamp string. -/
def mkEvent (id : String) (ts : String) : Obj :=
  [("id", .str id), ("ts", .str ts)]

/-- A bundle whose two events are in descending timestamp order. -/
def unsortedBundle : Bundle :=
  { events := some [some (mkEvent "a" "1970-01-01T00:00:00.002Z"),
                    some (mkEvent "b" "1970-01-01T00:00:00.001Z")],
    topics := some [], tasks := some [] }

/-- The bundle parsed from `{"tasks":[null]}`. -/
def nullItemBundle : Bundle :=
  { events := none, topics := none, tasks := some [none] }

/-- No array element of the bundle is `null`. -/
def NoNull (b : Bundle) : Prop :=
  (∀ x ∈ arrayOrEmpty b.events, x ≠ none) ∧ (∀ x ∈ arrayOrEmpty b.topics, x ≠ none) ∧
  (∀ x ∈ arrayOrEmpty b.tasks, x ≠ none)

instance (b : Bundle) : Decidable (NoNull b) := by
  unfold NoNull; infer_instance

/-- A bundle with an extra field, a missing id, a missing timestamp and a topic
field that is not an array. -/
def sampleBundle : Bundle :=
  { events := some [some [("ts", .str "1970-01-01T00:00:00.002Z"), ("extra", .num 7)],
                    some (mkEvent "b" "1970-01-01T00:00:00.001Z"),
                    some [("id", .str "c"), ("ts", .str "1970-01-01T00:00:00.001Z")]],
    topics := none,
    tasks := some [some [("id", .str "t"), ("text", .str "x")]] }

/-- What the normaliser returns for `sampleBundle` on the demo host. -/
def sampleResult : State :=
  { events := [mkEvent "b" "1970-01-01T00:00:00.001Z",
               [("id", .str "c"), ("ts", .str "1970-01-01T00:00:00.001Z")],
               [("ts", .str "1970-01-01T00:00:00.002Z"), ("extra", .num 7), ("id", .str "u")]],
    topics := [],
    tasks := [[("id", .str "t"), ("text", .str "x"),
               ("createdAt", .str "1970-01-01T00:00:00.000Z")]] }

/-! ## JSON text and the two stores (script.js 8-135) -/

/-- What `JSON.stringify` keeps of an object, `seen` being the keys already met:
a key is written once, with the value that a read of it yields, and a property
whose value is `undefined` is left out.  A compound value is taken to be
JSON-representable and is kept as it is. -/
def jsonOfObjFrom (seen : List String) : Obj → Obj
  | [] => []
  | (k, v) :: rest =>
    if k ∈ seen then jsonOfObjFrom seen rest
    else if v = JVal.undefined then jsonOfObjFrom (k :: seen) rest
    else (k, v) :: jsonOfObjFrom (k :: seen) rest

/-- The object that `JSON.parse(JSON.stringify(o))` yields. -/
def jsonOfObj (o : Obj) : Obj := jsonOfObjFrom [] o

/-- The value that a JSON text denotes when it is read for its three
collections.  A collection is `none` when the property is absent or falsy, and
otherwise an array of objects. -/
structure StoredDoc where
  events : Option (List Obj)
  topics : Option (List Obj)
  tasks : Option (List Obj)
  deriving DecidableEq, Repr

/-- The text `JSON.stringify(state)`, represented by the value it denotes. -/
def jsonOfState (st : State) : StoredDoc :=
  { events := some (st.events.map jsonOfObj),
    topics := some (st.topics.map jsonOfObj),
    tasks := some (st.tasks.map jsonOfObj) }

/-- The state `{ events: d.events || [], topics: d.topics || [], tasks: d.tasks || [] }`. -/
def stateOfDoc (d : StoredDoc) : State :=
  { events := d.events.getD [], topics := d.topics.getD [], tasks := d.tasks.getD [] }

/-- The bundle that `JSON.parse` of a text hands to the normaliser. -/
def bundleOfDoc (d : StoredDoc) : Bundle :=
  { events := d.events.map (fun xs => xs.map some),
    topics := d.topics.map (fun xs => xs.map some),
    tasks := d.tasks.map (fun xs => xs.map some) }

/-- The entry of `localStorage` under `STORAGE_KEY`: no entry (or an empty
string), a text on which `JSON.parse` throws or that denotes `null`, or a text
that denotes a document. -/
inductive MirrorContent where
  | absent
  | corrupt
  | doc (d : StoredDoc)
  deriving DecidableEq, Repr

/-- The two storage locations as the browser sees them: the local mirror, the
bodies of the `POST /api/data` requests issued so far (oldest first), the number
of `GET /api/data` requests issued, and the number of `console.warn` calls. -/
structure Store where
  mirror : MirrorContent
  posted : List StoredDoc
  gets : Nat
  warnings : Nat
  deriving DecidableEq, Repr

/-- How the health probe of `checkLocalServer` ends. -/
inductive ProbeOutcome where
  | ok
  | notOk
  | failed
  | timedOut
  deriving DecidableEq, Repr

/-- The function `checkLocalServer()`: the value it stores in `hasLocalServer`. -/
def checkLocalServer : ProbeOutcome → Bool
  | .ok => true
  | .notOk => false
  | .failed => false
  | .timedOut => false

/-- Whether `saveData` resolved or rejected. -/
inductive SaveResult where
  | resolved
  | rejected
  deriving DecidableEq, Repr

/-- The function `saveData()`.  `localWriteOk` tells whether
`localStorage.setItem(STORAGE_KEY, JSON.stringify(state))` returns rather than
throws, `remoteOk` whether the `POST /api/data` request succeeds. -/
def saveData (hasLocalServer : Bool) (st : State) (sto : Store)
    (localWriteOk remoteOk : Bool) : Store × SaveResult :=
  if localWriteOk then
    let sto1 := { sto with mirror := .doc (jsonOfState st) }
    if hasLocalServer then
      let sto2 := { sto1 with posted := sto1.posted ++ [jsonOfState st] }
      if remoteOk then (sto2, .resolved)
      else ({ sto2 with warnings := sto2.warnings + 1 }, .resolved)
    else (sto1, .resolved)
  else (sto, .rejected)

/-- What `apiRequest('/data', { method: 'GET' })` yields: a rejection, or the
parsed body, `none` standing for a falsy body. -/
inductive RemoteReply where
  | failed
  | data (d : Option StoredDoc)
  deriving DecidableEq, Repr

/-- The tail of `loadData()`: the fall-back to the local mirror. -/
def loadFromMirror (hasLocalServer : Bool) (st : State) (sto : Store)
    (localWriteOk remoteOk : Bool) : State × Store :=
  match sto.mirror with
  | .absent => (st, sto)
  | .corrupt => (st, sto)
  | .doc d =>
    let st1 := stateOfDoc d
    if hasLocalServer then
      match saveData hasLocalServer st1 sto localWriteOk remoteOk with
      | (sto1, .resolved) => (st1, sto1)
      | (sto1, .rejected) => (st1, { sto1 with warnings := sto1.warnings + 1 })
    else (st1, sto)

/-- The function `loadData()`: the state and the stores afterwards.  `reply` is
the outcome of the `GET` request, should one be issued; `localWriteOk` and
`remoteOk` are the outcomes of the writes of the `saveData()` call, should one
be made. -/
def loadData (hasLocalServer : Bool) (st : State) (sto : Store) (reply : RemoteReply)
    (localWriteOk remoteOk : Bool) : State × Store :=
  if hasLocalServer then
    let sto1 := { sto with gets := sto.gets + 1 }
    match reply with
    | .data (some d) =>
      if d.events.isSome || d.topics.isSome || d.tasks.isSome then
        (stateOfDoc d, sto1)
      else loadFromMirror hasLocalServer st sto1 localWriteOk remoteOk
    | .data none => loadFromMirror hasLocalServer st sto1 localWriteOk remoteOk
    | .failed =>
      loadFromMirror hasLocalServer st { sto1 with warnings := sto1.warnings + 1 }
        localWriteOk remoteOk
  else loadFromMirror hasLocalServer st sto localWriteOk remoteOk

/-- The item has an id and the timestamp `tsKey` (both truthy). -/
def HasIdAnd (tsKey : String) (item : Obj) : Prop :=
  (item.get "id").truthy = true ∧ (item.get tsKey).truthy = true

instance (tsKey : String) (item : Obj) : Decidable (HasIdAnd tsKey item) := by
  unfold HasIdAnd; infer_instance

/-- The object is one that a JSON text denotes: its keys are distinct and no
property holds `undefined`. -/
def JsonClean (item : Obj) : Prop :=
  (item.map Prod.fst).Nodup ∧ ∀ kv ∈ item, kv.2 ≠ JVal.undefined

instance (item : Obj) : Decidable (JsonClean item) := by
  unfold JsonClean; infer_instance

/-- A state whose items all have an id and a timestamp, events ascending. -/
def canonicalState : State :=
  { events := [mkEvent "b" "1970-01-01T00:00:00.001Z", mkEvent "a" "1970-01-01T00:00:00.002Z"],
    topics := [[("id", .str "p"), ("name", .str "work"), ("createdAt", .str "c")]],
    tasks := [[("id", .str "t"), ("text", .str "x"), ("done", .bool false),
               ("createdAt", .str "c")]] }

/-- A store whose mirror holds an older document and to which nothing has been
sent yet. -/
def staleStore : Store :=
  { mirror := .doc { events := some [], topics := some [], tasks := some [mkItem "old" false] },
    posted := [], gets := 0, warnings := 0 }

/-- A remote document with one task and no other collection. -/
def remoteDoc : StoredDoc :=
  { events := none, topics := none, tasks := some [mkItem "new" true] }

/-- The state before anything is loaded. -/
def emptyState : State := { events := [], topics := [], tasks := [] }

/-! ## The editor and the autosave scheduler (script.js 140-435, 804-850) -/

/-- The three editor fields `titleInput.value`, `bodyInput.value` and
`topicSelect.value`; also the shape of `originalContent`. -/
structure Editor where
  title : String
  body : String
  topic : String
  deriving DecidableEq, Repr

/-- The values of `currentEdit.type`. -/
inductive EditType where
  | event
  | topic
  | task
  deriving DecidableEq, Repr

/-- A non-null `currentEdit`. -/
structure CurrentEdit where
  type : EditType
  id : JVal
  deriving DecidableEq, Repr

/-- The global variables of the page, the editor fields, the two stores, the
pending autosave timeouts of the host (handle and deadline in milliseconds), the
last timer handle handed out, the messages shown by `showMessage`, the number of
`saveData()` calls made, and the number of generator calls made. -/
structure App where
  state : State
  mode : String
  currentEdit : Option CurrentEdit
  autoSaveTimer : Option Nat
  hasUnsavedChanges : Bool
  isAutoSaving : Bool
  originalContent : Editor
  editor : Editor
  hasLocalServer : Bool
  store : Store
  timers : List (Nat × Nat)
  nextTimerId : Nat
  messages : List String
  saveCalls : Nat
  tick : Nat
  deriving DecidableEq, Repr

/-- The function `detectChanges()`. -/
def detectChanges (app : App) : Bool :=
  app.editor.title != app.originalContent.title ||
  app.editor.body != app.originalContent.body ||
  app.editor.topic != app.originalContent.topic

/-- The function `updateOriginalContent()`. -/
def updateOriginalContent (app : App) : App :=
  { app with originalContent := app.editor, hasUnsavedChanges := false }

/-- The statement `if (autoSaveTimer) { clearTimeout(autoSaveTimer); autoSaveTimer =
null; }`.  Timer handles are positive, so a stored handle is truthy. -/
def cancelAutoSaveTimer (app : App) : App :=
  match app.autoSaveTimer with
  | some id =>
    { app with timers := app.timers.filter (fun p => p.1 != id), autoSaveTimer := none }
  | none => app

/-- The function `clearEditor()`. -/
def clearEditor (app : App) : App :=
  cancelAutoSaveTimer
    (updateOriginalContent
      { app with editor := { title := "", body := "", topic := "" }, currentEdit := none })

/-- The function `resetAutoSaveTimer()`, called at time `now`. -/
def resetAutoSaveTimer (app : App) (now : Nat) : App :=
  let app1 := cancelAutoSaveTimer app
  if app1.mode = "edit" ∧ app1.currentEdit.isSome = true ∧ detectChanges app1 = true then
    let id := app1.nextTimerId + 1
    { app1 with
      hasUnsavedChanges := true
      autoSaveTimer := some id
      timers := app1.timers ++ [(id, now + 10000)]
      nextTimerId := id }
  else app1

/-- An `input` / `change` event at time `now` that leaves the editor fields at
`ed`: the listener is `resetAutoSaveTimer`. -/
def inputEvent (app : App) (ed : Editor) (now : Nat) : App :=
  resetAutoSaveTimer { app with editor := ed } now

/-- The pending autosave timeouts whose deadline has been reached at `now`. -/
def dueTimers (app : App) (now : Nat) : List (Nat × Nat) :=
  app.timers.filter (fun p => decide (p.2 ≤ now))

/-- The function `addEvent(title, text, nowISO(), topic)`. -/
def addEvent (h : Host) (n : Nat) (st : State) (title text : String) (topic : JVal) : State :=
  let ev : Obj :=
    [("id", .str (h.uid n)), ("ts", .str (h.nowISO n)), ("title", .str title),
     ("text", .str text), ("topic", if topic.truthy then topic else .null)]
  { st with events := st.events ++ [ev] }

/-- Apply `f` to the first element that satisfies `p`: an assignment to the
object that `find` returned. -/
def modifyFirst (p : Obj → Bool) (f : Obj → Obj) : List Obj → List Obj
  | [] => []
  | x :: xs => if p x then f x :: xs else x :: modifyFirst p f xs

/-- The function `updateTopic(id, { notes })`. -/
def updateTopic (st : State) (id : JVal) (notes : String) : State :=
  { st with
    topics := modifyFirst (fun x => decide (x.get "id" = id))
      (fun t => t.set "notes" (.str notes)) st.topics }

/-- The `find` of the rename check of `saveEditContent`: the first topic with
another id whose trimmed, lower-cased name is the lower-cased title; the outer
`none` is the `TypeError` of `.trim()` on a name that is not a string. -/
def findOtherTopicByName (h : Host) (selfId : JVal) (title : String) :
    List Obj → Option (Option Obj)
  | [] => some none
  | x :: xs =>
    if x.get "id" = selfId then findOtherTopicByName h selfId title xs
    else
      match x.get "name" with
      | .str s =>
        if h.toLowerCase (h.trim s) = h.toLowerCase title then some (some x)
        else findOtherTopicByName h selfId title xs
      | _ => none

/-- The function `saveEditContent(title, body, topicId, isAutoSave)`: the state
afterwards, or the message of the error thrown. -/
def saveEditContent (h : Host) (st : State) (ce : CurrentEdit) (title body : String)
    (topicId : JVal) (isAutoSave : Bool) : Except String State :=
  match ce.type with
  | .event =>
    match st.events.find? (fun x => decide (x.get "id" = ce.id)) with
    | none => .error "事件不存在"
    | some _ =>
      if title = "" then
        if isAutoSave then .ok st else .error "请输入事件标题"
      else
        .ok { st with
          events := modifyFirst (fun x => decide (x.get "id" = ce.id))
            (fun ev => ((ev.set "title" (.str title)).set "text" (.str body)).set "topic"
              (if topicId.truthy then topicId else .null)) st.events }
  | .topic =>
    match st.topics.find? (fun x => decide (x.get "id" = ce.id)) with
    | none => .error "主题不存在"
    | some t =>
      if title = "" then
        if isAutoSave then .ok st else .error "请输入主题名"
      else
        match t.get "name" with
        | .str nm =>
          if h.toLowerCase title ≠ h.toLowerCase (h.trim nm) then
            match findOtherTopicByName h (t.get "id") title st.topics with
            | none => .error "TypeError"
            | some (some _) => .error "存在同名主题"
            | some none =>
              .ok { st with
                topics := modifyFirst (fun x => decide (x.get "id" = ce.id))
                  (fun x => (x.set "name" (.str (h.trim title))).set "notes" (.str body))
                  st.topics }
          else
            .ok { st with
              topics := modifyFirst (fun x => decide (x.get "id" = ce.id))
                (fun x => x.set "notes" (.str body)) st.topics }
        | _ => .error "TypeError"
  | .task =>
    match st.tasks.find? (fun x => decide (x.get "id" = ce.id)) with
    | none => .error "任务不存在"
    | some _ =>
      if title = "" then
        if isAutoSave then .ok st else .error "请输入任务标题"
      else
        .ok { st with
          tasks := modifyFirst (fun x => decide (x.get "id" = ce.id))
            (fun tk => (tk.set "text" (.str title)).set "notes" (.str body)) st.tasks }

/-- The function `saveNewContent(title, body, topicId)`, `n` numbering the
generator calls. -/
def saveNewContent (h : Host) (n : Nat) (mode : String) (st : State) (title body : String)
    (topicId : JVal) : Except String State :=
  if mode = "add-event" then
    if body = "" ∧ title = "" then .error "请输入事件内容"
    else .ok (addEvent h n st title body topicId)
  else if mode = "add-task" then
    if title = "" then .error "请输入任务标题"
    else .ok (addTask h n st title)
  else if mode = "add-topic" then
    if title = "" then .error "请输入主题名"
    else
      match addTopic h n st title with
      | (_, .fail msg) => .error msg
      | (_, .typeError) => .error "TypeError"
      | (st1, .ok t) => .ok (updateTopic st1 (t.get "id") body)
  else .ok st

/-- How a call of `performSave` ended: at the `isAutoSaving` guard, at the
empty-content check of edit mode, in the `catch` block with the message of the
error, or after `updateOriginalContent()`. -/
inductive SaveOutcome where
  | guarded
  | emptyEdit
  | failed (msg : String)
  | saved
  deriving DecidableEq, Repr

/-- Where a trigger leaves `performSave`: never called, ended, or suspended in
`await saveData()` on the request to the remote service. -/
inductive BeginResult where
  | notCalled
  | done (o : SaveOutcome)
  | pending
  deriving DecidableEq, Repr

/-- The call `showMessage(msg, ...)`. -/
def showMessage (app : App) (msg : String) : App :=
  { app with messages := app.messages ++ [msg] }

/-- The function `renderAll()` as far as the page state goes: the three lists
are drawn from `state`, and `populateTopicSelect()` rebuilds the options of
`topicSelect`, after which the select shows its first option, the empty one. -/
def renderAll (app : App) : App :=
  { app with editor := { app.editor with topic := "" } }

/-- The part of `performSave` that follows `await saveData()`: the remote
outcome is only logged, `renderAll()` runs, the editor is cleared after a manual
save outside edit mode, the baseline is reset, and `finally` clears
`isAutoSaving`. -/
def performSaveFinish (app : App) (isAutoSave : Bool) (remoteOk : Bool) : App :=
  let app0 :=
    if remoteOk then app
    else { app with store := { app.store with warnings := app.store.warnings + 1 } }
  let app1 := renderAll app0
  let app2 :=
    if isAutoSave then app1
    else if app1.mode ≠ "edit" then clearEditor app1 else app1
  { updateOriginalContent app2 with isAutoSaving := false }

/-- The exit of `performSave` through the `catch` block and `finally`. -/
def performSaveCatch (app : App) (isAutoSave : Bool) (msg : String) : App × BeginResult :=
  let app1 := if isAutoSave then app else showMessage app ("保存失败: " ++ msg)
  ({ app1 with isAutoSaving := false }, .done (.failed msg))

/-- The part of `performSave` from `await saveData()` on, entered with the
state already updated: the local write, then either the suspension on the
remote request or, without a remote service, the rest of the function. -/
def performSaveStore (app : App) (isAutoSave : Bool) (localWriteOk : Bool) :
    App × BeginResult :=
  let app1 := { app with saveCalls := app.saveCalls + 1 }
  if localWriteOk then
    let app2 :=
      { app1 with
        store := (saveData app1.hasLocalServer app1.state app1.store true true).1 }
    if app2.hasLocalServer then (app2, .pending)
    else (performSaveFinish app2 isAutoSave true, .done .saved)
  else performSaveCatch app1 isAutoSave "localStorage"

/-- The statement `if (isAutoSave) { isAutoSaving = true; ... }` at the head of
`performSave`. -/
def markSaving (app : App) (isAutoSave : Bool) : App :=
  if isAutoSave then { app with isAutoSaving := true } else app

/-- The exit of `performSave` at the empty-content check of edit mode: a manual
save shows a message, then `finally` runs. -/
def performSaveEmpty (app : App) (isAutoSave : Bool) : App × BeginResult :=
  let app1 := if isAutoSave then app else showMessage app "请输入内容"
  ({ app1 with isAutoSaving := false }, .done .emptyEdit)

/-- The function `performSave(isAutoSave)` up to its first suspension.
`localWriteOk` is the outcome of the `localStorage` write of `saveData()`. -/
def performSaveBegin (h : Host) (app : App) (isAutoSave : Bool) (localWriteOk : Bool) :
    App × BeginResult :=
  if app.isAutoSaving then (app, .done .guarded)
  else
    let title := h.trim app.editor.title
    let body := h.trim app.editor.body
    let topicId : JVal := if app.editor.topic = "" then .null else .str app.editor.topic
    let app1 := markSaving app isAutoSave
    match (if app1.mode = "edit" then app1.currentEdit else none) with
    | some ce =>
      if title = "" ∧ body = "" then performSaveEmpty app1 isAutoSave
      else
        match saveEditContent h app1.state ce title body topicId isAutoSave with
        | .error msg => performSaveCatch app1 isAutoSave msg
        | .ok st1 => performSaveStore { app1 with state := st1 } isAutoSave localWriteOk
    | none =>
      match saveNewContent h app1.tick app1.mode app1.state title body topicId with
      | .error msg => performSaveCatch app1 isAutoSave msg
      | .ok st1 =>
        performSaveStore { app1 with state := st1, tick := app1.tick + 1 } isAutoSave
          localWriteOk

/-- The function `performSave(isAutoSave)` run to its end with nothing in
between: the state afterwards and how the call ended. -/
def performSave (h : Host) (app : App) (isAutoSave : Bool) (localWriteOk remoteOk : Bool) :
    App × SaveOutcome :=
  match performSaveBegin h app isAutoSave localWriteOk with
  | (app1, .pending) => (performSaveFinish app1 isAutoSave remoteOk, .saved)
  | (app1, .done o) => (app1, o)
  | (app1, .notCalled) => (app1, .guarded)

/-- The callback of the autosave timeout with handle `id`, run by the host when
the timeout fires. -/
def autoSaveTimerFires (h : Host) (app : App) (id : Nat) (localWriteOk : Bool) :
    App × BeginResult :=
  let app1 := { app with timers := app.timers.filter (fun p => p.1 != id) }
  if app1.hasUnsavedChanges && !app1.isAutoSaving then performSaveBegin h app1 true localWriteOk
  else (app1, .notCalled)

/-- The host at the deadline of the timeout with handle `id`: the callback runs
only if the timeout is still pending. -/
def timerEvent (h : Host) (app : App) (id : Nat) (localWriteOk : Bool) : App × BeginResult :=
  if app.timers.any (fun p => p.1 == id) then autoSaveTimerFires h app id localWriteOk
  else (app, .notCalled)

/-- The function `saveBeforeSwitch()` up to its first suspension. -/
def saveBeforeSwitch (h : Host) (app : App) (localWriteOk : Bool) : App × BeginResult :=
  if app.mode = "edit" ∧ app.currentEdit.isSome = true ∧ app.hasUnsavedChanges = true ∧
      app.isAutoSaving = false then
    performSaveBegin h app true localWriteOk
  else (app, .notCalled)

/-- The `beforeunload` listener up to its first suspension. -/
def beforeUnload (h : Host) (app : App) (localWriteOk : Bool) : App × BeginResult :=
  if app.hasUnsavedChanges then performSaveBegin h app true localWriteOk
  else (app, .notCalled)

/-- The page together with the calls of `performSave` that are suspended in
`await saveData()`, each recorded by its `isAutoSave` argument. -/
structure Sys where
  app : App
  inFlight : List Bool
  deriving DecidableEq, Repr

/-- The events of the save state machine: the four triggers, each with the
outcome of its local write, and the completion of the remote request of the k-th
suspended call. -/
inductive SaveEvent where
  | manualSave (localWriteOk : Bool)
  | timerFires (id : Nat) (localWriteOk : Bool)
  | switchSave (localWriteOk : Bool)
  | exitSave (localWriteOk : Bool)
  | completes (k : Nat) (remoteOk : Bool)
  deriving DecidableEq, Repr

/-- Record a started call when it is suspended. -/
def Sys.after (s : Sys) (isAutoSave : Bool) (r : App × BeginResult) : Sys :=
  { app := r.1,
    inFlight := if r.2 = BeginResult.pending then s.inFlight ++ [isAutoSave] else s.inFlight }

/-- One step of the save state machine. -/
def stepSys (h : Host) (s : Sys) : SaveEvent → Sys
  | .manualSave lw => s.after false (performSaveBegin h s.app false lw)
  | .timerFires id lw => s.after true (timerEvent h s.app id lw)
  | .switchSave lw => s.after true (saveBeforeSwitch h s.app lw)
  | .exitSave lw => s.after true (beforeUnload h s.app lw)
  | .completes k remoteOk =>
    match s.inFlight.get? k with
    | none => s
    | some isAutoSave =>
      { app := performSaveFinish s.app isAutoSave remoteOk,
        inFlight := s.inFlight.eraseIdx k }

/-- Run a sequence of events, first event first. -/
def runSys (h : Host) (s : Sys) (evs : List SaveEvent) : Sys :=
  evs.foldl (stepSys h) s

/-- Whether the event is the manual save trigger. -/
def SaveEvent.isManual : SaveEvent → Bool
  | .manualSave _ => true
  | _ => false

/-- Every pending autosave timeout is the one whose handle `autoSaveTimer`
holds. -/
def TimerInv (app : App) : Prop :=
  ∀ p ∈ app.timers, app.autoSaveTimer = some p.1

instance (app : App) : Decidable (TimerInv app) := by
  unfold TimerInv; infer_instance

/-- The required field of a save is empty after trimming: the title in edit
mode and for a new task or topic, title and body for a new event. -/
def RequiredFieldEmpty (h : Host) (app : App) : Prop :=
  (app.mode = "edit" ∧ app.currentEdit.isSome = true ∧ h.trim app.editor.title = "") ∨
  (app.mode = "add-task" ∧ h.trim app.editor.title = "") ∨
  (app.mode = "add-topic" ∧ h.trim app.editor.title = "") ∨
  (app.mode = "add-event" ∧ h.trim app.editor.title = "" ∧ h.trim app.editor.body = "")

/-- A page in edit mode on the task `t`, with nothing pending. -/
def editingTask : App :=
  { state := { events := [], topics := [],
               tasks := [[("id", .str "t"), ("text", .str "old"), ("notes", .str "n"),
                          ("done", .bool false)]] },
    mode := "edit",
    currentEdit := some { type := .task, id := .str "t" },
    autoSaveTimer := none,
    hasUnsavedChanges := false,
    isAutoSaving := false,
    originalContent := { title := "old", body := "n", topic := "" },
    editor := { title := "old", body := "n", topic := "" },
    hasLocalServer := false,
    store := { mirror := .absent, posted := [], gets := 0, warnings := 0 },
    timers := [],
    nextTimerId := 0,
    messages := [],
    saveCalls := 0,
    tick := 0 }

/-- The page right after the local write of `saveData()` succeeded: the call is
counted, the mirror holds the serialised state and, with a remote service, the
request has been sent. -/
def storedApp (app : App) : App :=
  { app with
    saveCalls := app.saveCalls + 1
    store := (saveData app.hasLocalServer app.state app.store true true).1 }

/-- The function `performSave` from `await saveData()` to its end, with nothing
in between. -/
def performSaveRest (app : App) (isAutoSave : Bool) (localWriteOk remoteOk : Bool) :
    App × SaveOutcome :=
  match performSaveStore app isAutoSave localWriteOk with
  | (app1, .pending) => (performSaveFinish app1 isAutoSave remoteOk, .saved)
  | (app1, .done o) => (app1, o)
  | (app1, .notCalled) => (app1, .guarded)

/-- The page `editingTask` after the title was emptied and the notes changed. -/
def emptiedTitle : App :=
  { editingTask with
    editor := { title := "", body := "new notes", topic := "" }
    hasUnsavedChanges := true }

/-- The page `editingTask` after the title was changed, with the autosave
timeout of that edit pending and the remote service flagged reachable. -/
def dirtyWithTimer : App :=
  { editingTask with
    editor := { title := "newer", body := "n", topic := "" }
    hasUnsavedChanges := true
    hasLocalServer := true
    autoSaveTimer := some 1
    timers := [(1, 10000)]
    nextTimerId := 1 }

/-- The page `x` differs from `app` at most in the data state, the generator
count and the `isAutoSaving` flag. -/
def SameSession (x app : App) : Prop :=
  x.mode = app.mode ∧ x.currentEdit = app.currentEdit ∧
  x.autoSaveTimer = app.autoSaveTimer ∧ x.hasUnsavedChanges = app.hasUnsavedChanges ∧
  x.originalContent = app.originalContent ∧ x.editor = app.editor ∧
  x.hasLocalServer = app.hasLocalServer ∧ x.store = app.store ∧ x.timers = app.timers ∧
  x.nextTimerId = app.nextTimerId ∧ x.messages = app.messages ∧
  x.saveCalls = app.saveCalls

/-- The state of the single-flight guard in a run of automatic saves: either no
call is suspended and `isAutoSaving` is clear, or exactly one call is suspended
and `isAutoSaving` is set. -/
def GuardInv (s : Sys) : Prop :=
  (s.inFlight = [] ∧ s.app.isAutoSaving = false) ∨
  (∃ b, s.inFlight = [b] ∧ s.app.isAutoSaving = true)

/-- The page `dirtyWithTimer` with no call of `performSave` suspended. -/
def dirtySys : Sys :=
  { app := dirtyWithTimer, inFlight := [] }

/-- A page in add-task mode with a title typed in and a timeout left pending. -/
def addingTaskWithTimer : App :=
  { editingTask with
    mode := "add-task"
    currentEdit := none
    editor := { title := "buy milk", body := "", topic := "" }
    originalContent := { title := "", body := "", topic := "" }
    autoSaveTimer := some 1
    timers := [(1, 10000)]
    nextTimerId := 1 }

/-- A page in add-task mode with only blanks typed in; the demo host trims
nothing, so the title is left empty here. -/
def addingEmptyTask : App :=
  { editingTask with
    mode := "add-task"
    currentEdit := none
    editor := { title := "", body := "notes", topic := "" }
    originalContent := { title := "", body := "", topic := "" } }

/-! ## A host with ASCII string built-ins -/

/-- The built-in `toLowerCase` on strings of ASCII characters. -/
def lowerAscii (s : String) : String := String.mk (s.data.map Char.toLower)

/-- The built-in `trim` on strings whose only white space is ASCII white space. -/
def trimAscii (s : String) : String :=
  String.mk ((s.data.dropWhile Char.isWhitespace).reverse.dropWhile Char.isWhitespace).reverse

/-- The host `demoHost` with `trim` and `toLowerCase` as they act on ASCII strings. -/
def asciiHost : Host :=
  { demoHost with trim := trimAscii, toLowerCase := lowerAscii }

/-- The state after `addTopic("Work")` on the empty state. -/
def workState : State := (addTopic asciiHost 0 emptyState "Work").1

/-- Two topics, `Work` and `Home`. -/
def twoTopics : State :=
  { events := [],
    topics := [[("id", .str "p1"), ("name", .str "Work"), ("notes", .str ""),
                ("done", .bool false)],
               [("id", .str "p2"), ("name", .str "Home"), ("notes", .str "h"),
                ("done", .bool false)]],
    tasks := [] }

/-! ## Deleting the edited item (script.js 702-716, 1166-1194) -/

/-- The delete menu action of the topic `t` of the rendered list, on the whole
page: the data change of `deleteTopicAction`, then `clearEditor()` when `t` is
the topic being edited, then `saveData()` and, once that resolved, `renderAll()`. -/
def deleteTopicMenuAction (app : App) (t : Obj) (confirmed : Bool)
    (localWriteOk remoteOk : Bool) : App :=
  if confirmed then
    let app1 := { app with state := (deleteTopicAction app.state (t.get "id") true).state }
    let app2 :=
      match app1.currentEdit with
      | some ce => if ce.type = EditType.topic ∧ ce.id = t.get "id" then clearEditor app1 else app1
      | none => app1
    let app3 :=
      { app2 with
        store := (saveData app2.hasLocalServer app2.state app2.store localWriteOk remoteOk).1
        saveCalls := app2.saveCalls + 1 }
    if localWriteOk then renderAll app3 else app3
  else app

/-- The function `deleteCurrentEditItem()`; `confirmed` is the answer to
`confirm`, the last two arguments are the outcomes of the writes of `saveData()`;
`renderAll()` runs once `saveData()` resolved. -/
def deleteCurrentEditItem (app : App) (confirmed : Bool) (localWriteOk remoteOk : Bool) :
    App :=
  match app.currentEdit with
  | none => app
  | some ce =>
    if confirmed then
      let st := app.state
      let st1 : State :=
        match ce.type with
        | .event =>
          { st with events := st.events.filter (fun e => !decide (e.get "id" = ce.id)) }
        | .topic =>
          { st with
            topics := st.topics.filter (fun t => !decide (t.get "id" = ce.id))
            events := st.events.map (fun ev =>
              if ev.get "topic" = ce.id then ev.set "topic" .null else ev) }
        | .task =>
          { st with tasks := st.tasks.filter (fun x => !decide (x.get "id" = ce.id)) }
      let app1 := clearEditor { app with state := st1 }
      let app2 :=
        { app1 with
          store := (saveData app1.hasLocalServer app1.state app1.store localWriteOk remoteOk).1
          saveCalls := app1.saveCalls + 1 }
      if localWriteOk then renderAll app2 else app2
    else app

/-- Two topics and three events, two of them linked to the topic `p1`. -/
def linkedState : State :=
  { events := [[("id", .str "e1"), ("ts", .str "1970-01-01T00:00:00.000Z"),
                ("title", .str "a"), ("text", .str ""), ("topic", .str "p1")],
               [("id", .str "e2"), ("ts", .str "1970-01-01T00:00:00.001Z"),
                ("title", .str "b"), ("text", .str ""), ("topic", .str "p2")],
               [("id", .str "e3"), ("ts", .str "1970-01-01T00:00:00.002Z"),
                ("title", .str "c"), ("text", .str ""), ("topic", .str "p1")]],
    topics := twoTopics.topics,
    tasks := [] }

/-- The page editing the topic `p1` of `linkedState`. -/
def editingTopic : App :=
  { editingTask with
    state := linkedState
    currentEdit := some { type := .topic, id := .str "p1" }
    originalContent := { title := "Work", body := "", topic := "" }
    editor := { title := "Work", body := "", topic := "" } }

/-! ## Installing an imported file (script.js 1003-1042) -/

/-- The number of generator calls made once the normaliser has run on `b`
starting at call `n`. -/
def importEndTick (h : Host) (n : Nat) (b : Bundle) : Nat :=
  match fillItems h "ts" (arrayOrEmpty b.events) n with
  | none => n
  | some (_, n1) =>
    match fillItems h "createdAt" (arrayOrEmpty b.topics) n1 with
    | none => n1
    | some (_, n2) =>
      match fillItems h "createdAt" (arrayOrEmpty b.tasks) n2 with
      | none => n2
      | some (_, n3) => n3

/-- What `JSON.parse(content)` gives: a `SyntaxError` with its message, a falsy
value, or a value read for its three collections. -/
inductive ParsedContent where
  | invalid (msg : String)
  | falsy
  | value (b : Bundle)
  deriving DecidableEq, Repr

/-- The name of the file in which `processImportedData` backs up the old state
when the clock reads `iso`: the first 19 characters of `iso` with every `:` and
`T` replaced by `-`, inside the template literal. -/
def importBackupName (iso : String) : String :=
  "llog_backup_" ++
    String.mk ((iso.data.take 19).map (fun c => if c = ':' ∨ c = 'T' then '-' else c)) ++
    ".json"

/-- The function `processImportedData(content)`.  The automatic backup of the
old state touches neither the state nor the two stores: with the remote service
flagged reachable it is an `/export` request, whose failure is only logged;
otherwise it is `downloadAsFile`, which ends by showing a message.  The new
state is assigned before `saveData()` is awaited; `renderAll()` and the final
message follow once `saveData()` resolved. -/
def processImportedData (h : Host) (app : App) (content : ParsedContent)
    (localWriteOk remoteOk : Bool) : App :=
  match content with
  | .invalid msg => showMessage app ("导入失败：" ++ msg)
  | .falsy => showMessage app "导入失败：格式错误"
  | .value imported =>
    match processImportedDataStructure h app.tick imported with
    | none => showMessage app "导入失败：TypeError"
    | some processedData =>
      let t := importEndTick h app.tick imported
      let app0 :=
        if app.hasLocalServer then app
        else showMessage app ("✅ 数据已通过浏览器下载：" ++ importBackupName (h.nowISO t))
      let app1 :=
        { app0 with
          state := processedData
          tick := t + 1
          saveCalls := app0.saveCalls + 1
          store :=
            (saveData app0.hasLocalServer processedData app0.store localWriteOk remoteOk).1 }
      if localWriteOk then showMessage (renderAll app1) "导入完成，原数据已自动备份"
      else showMessage app1 "导入失败：localStorage"

/-- The items of an imported collection: the elements of the array, or none
when the property is not an array. -/
def importedItems (xs : Option (List (Option Obj))) : List Obj :=
  (arrayOrEmpty xs).filterMap id

/-- The topic reference of the event is empty (`null`, or another falsy value
such as a missing property) or is the id of one of the topics. -/
def TopicRefOk (topics : List Obj) (ev : Obj) : Prop :=
  (ev.get "topic").truthy = false ∨ ∃ t ∈ topics, t.get "id" = ev.get "topic"

/-- A bundle whose items all carry ids and timestamps, with a done task in
front of an undone one and an event that references a topic that is not there. -/
def looseBundle : Bundle :=
  { events := some [some [("id", .str "e"), ("ts", .str "1970-01-01T00:00:00.000Z"),
                          ("title", .str "a"), ("topic", .str "ghost")]],
    topics := some [],
    tasks := some [some [("id", .str "D"), ("text", .str "d"), ("done", .bool true),
                         ("createdAt", .str "c")],
                   some [("id", .str "U"), ("text", .str "u"), ("done", .bool false),
                         ("createdAt", .str "c")]] }

/-- A bundle that satisfies the two invariants, some of its items lacking an id
or a timestamp. -/
def tidyBundle : Bundle :=
  { events := some [some [("ts", .str "1970-01-01T00:00:00.001Z"), ("topic", .str "p")],
                    some [("id", .str "e"), ("ts", .str "1970-01-01T00:00:00.000Z"),
                          ("topic", .null)]],
    topics := some [some [("id", .str "p"), ("name", .str "work")]],
    tasks := some [some [("text", .str "u"), ("done", .bool false)],
                   some [("id", .str "D"), ("done", .bool true)]] }

/-! ## The server: backup files (server.js 44-84, 293-309) -/

/-- The call `s.replace(/a/g, b)` for single characters `a` and `b`: every
occurrence is replaced. -/
def replaceAllChar (a b : Char) (s : String) : String :=
  String.mk (s.data.map (fun c => if c = a then b else c))

/-- The call `s.replace(pat, rep)` with a string pattern, on the characters: the
first occurrence of `pat` is replaced, if there is one. -/
def replaceFirstChars (pat rep : List Char) : List Char → List Char
  | [] => if pat = [] then rep else []
  | c :: cs =>
    if pat.isPrefixOf (c :: cs) then rep ++ (c :: cs).drop pat.length
    else c :: replaceFirstChars pat rep cs

/-- The call `s.replace(pat, rep)` with a string pattern. -/
def replaceFirst (pat rep s : String) : String :=
  String.mk (replaceFirstChars pat.data rep.data s.data)

/-- The name of the file that `createBackup` writes when the clock reads `iso`:
the template literal applied to `iso.replace(/[:]/g, '-')`. -/
def backupFileName (iso : String) : String :=
  "backup_" ++ replaceAllChar ':' '-' iso ++ ".json"

/-- The `timestamp` property of a backup-list entry:
`file.replace('backup_', '').replace('.json', '')`. -/
def listedTimestamp (file : String) : String :=
  replaceFirst ".json" "" (replaceFirst "backup_" "" file)

/-- The argument of `new Date(...)` in a backup-list entry: the `timestamp`
with every `-` replaced by `:` (a `replace` with a global pattern). -/
def listedDateArg (file : String) : String :=
  replaceAllChar '-' ':' (listedTimestamp file)

/-- The filter of `cleanOldBackups` and of the backup list:
`file.startsWith('backup_') && file.endsWith('.json')`. -/
def isBackupName (file : String) : Bool :=
  "backup_".data.isPrefixOf file.data && ".json".data.isSuffixOf file.data

/-- Insert a name in front of the first name of a sorted list that the
comparator does not place before it. -/
def insertByName (localeCompare : String → String → Int) (x : String) :
    List String → List String
  | [] => [x]
  | y :: ys =>
    if localeCompare x y ≤ 0 then x :: y :: ys else y :: insertByName localeCompare x ys

/-- The call `backupFiles.sort((a, b) => a.name.localeCompare(b.name))`, as the
stable sort by insertion.  The comparator `localeCompare` is a host function. -/
def sortByName (localeCompare : String → String → Int) : List String → List String
  | [] => []
  | x :: xs => insertByName localeCompare x (sortByName localeCompare xs)

/-- The function `cleanOldBackups()` when no file-system call fails: from the
names `files` of the backup directory to the names that are left. -/
def cleanOldBackups (localeCompare : String → String → Int) (files : List String) :
    List String :=
  let backupFiles := files.filter isBackupName
  if backupFiles.length > 30 then
    let sorted := sortByName localeCompare backupFiles
    let filesToDelete := sorted.take (backupFiles.length - 30)
    filesToDelete.foldl (fun dir file => dir.erase file) files
  else files

/-- The comparator that orders names by their characters, as `localeCompare`
orders names made of the same letters, digits and punctuation. -/
def compareNames (a b : String) : Int :=
  if a < b then -1 else if a = b then 0 else 1

/-- The name of the k-th of a series of backup-like files. -/
def nthBackupName (k : Nat) : String :=
  "backup_" ++ String.mk (List.replicate k 'a') ++ ".json"

/-- A backup directory with 32 backup files and one other file. -/
def fullBackupDir : List String :=
  "notes.txt" :: (List.range 32).map nthBackupName

/-! ## The server: the data file (server.js 87-119, 195-220) -/

/-- The data file on disk: not there, a text that `JSON.parse` rejects, or a
text that denotes a document. -/
inductive DataFile where
  | missing
  | corrupt
  | doc (d : StoredDoc)
  deriving DecidableEq, Repr

/-- The files the server owns: the data file, the backup directory (file name
and the document each file holds), and the number of generator calls
(`uid()`, `new Date()`) made so far. -/
structure Server where
  dataFile : DataFile
  backupDir : List (String × StoredDoc)
  tick : Nat
  deriving DecidableEq, Repr

/-- The function `readDataFile()`: `none` when it throws. -/
def readDataFile (f : DataFile) : Option StoredDoc :=
  match f with
  | .missing => some { events := some [], topics := some [], tasks := some [] }
  | .corrupt => none
  | .doc d => some d

/-- The function `createBackup(data)`; `backupOk` tells whether its file-system
calls succeed (a failure is logged and swallowed).  Writing a file replaces a
file of the same name. -/
def createBackup (h : Host) (localeCompare : String → String → Int) (srv : Server)
    (data : StoredDoc) (backupOk : Bool) : Server :=
  let name := backupFileName (h.nowISO srv.tick)
  if backupOk then
    let dir1 := srv.backupDir.filter (fun e => e.1 != name) ++ [(name, data)]
    let left := cleanOldBackups localeCompare (dir1.map (fun e => e.1))
    { srv with backupDir := dir1.filter (fun e => left.contains e.1), tick := srv.tick + 1 }
  else { srv with tick := srv.tick + 1 }

/-- The function `writeDataFile(data)`: the files afterwards and whether it
returned (`true`) or threw.  `writeOk` is the outcome of writing the data file. -/
def writeDataFile (h : Host) (localeCompare : String → String → Int) (srv : Server)
    (data : StoredDoc) (backupOk writeOk : Bool) : Server × Bool :=
  let srv1 :=
    match readDataFile srv.dataFile with
    | some currentData => createBackup h localeCompare srv currentData backupOk
    | none => srv
  if writeOk then ({ srv1 with dataFile := .doc data }, true) else (srv1, false)

/-- The handler of `POST /api/data`, given `req.body`: the files afterwards and
the status of the response.  The body is `none` when it is falsy or not an
object, the case of the handler's own check; `express.json()` does not hand
such a value to the handler (see `postDataRoute`). -/
def postData (h : Host) (localeCompare : String → String → Int) (srv : Server)
    (body : Option Bundle) (backupOk writeOk : Bool) : Server × Nat :=
  match body with
  | none => (srv, 400)
  | some data =>
    let srv1 := { srv with tick := importEndTick h srv.tick data }
    match processImportData h srv.tick data with
    | none => (srv1, 500)
    | some validData =>
      match writeDataFile h localeCompare srv1 (jsonOfState validData) backupOk writeOk with
      | (srv2, true) => ({ srv2 with tick := srv2.tick + 1 }, 200)
      | (srv2, false) => (srv2, 500)

/-- The body of a `POST /api/data` request with a JSON content type, as
`express.json()` (the middleware installed in front of every route) treats it:
a text it accepts, which denotes an object or an array and is read for its
three collections, or a text it refuses: one that is not JSON, or that denotes
a value that is neither an object nor an array (the middleware is strict by
default). -/
inductive JsonBody where
  | accepted (b : Bundle)
  | refused
  deriving DecidableEq, Repr

/-- The route `POST /api/data` behind the middleware.  An accepted body reaches
the handler as `req.body`.  For a refused body `express.json()` passes an error
on and the handler does not run; the error-handling middleware at the end of
`server.js` answers with status 500. -/
def postDataRoute (h : Host) (localeCompare : String → String → Int) (srv : Server)
    (body : JsonBody) (backupOk writeOk : Bool) : Server × Nat :=
  match body with
  | .accepted b => postData h localeCompare srv (some b) backupOk writeOk
  | .refused => (srv, 500)

/-- The handler of `GET /api/data`: the document sent, or `none` for the
response with status 500. -/
def getData (srv : Server) : Option StoredDoc := readDataFile srv.dataFile

/-- One call of `saveData()` in the browser with the remote service flagged
reachable, together with the handling of its request by the server. -/
def saveToServer (h : Host) (localeCompare : String → String → Int) (st : State)
    (sto : Store) (srv : Server) (localWriteOk backupOk writeOk : Bool) : Store × Server :=
  if localWriteOk then
    let r := postData h localeCompare srv (some (bundleOfDoc (jsonOfState st))) backupOk writeOk
    ((saveData true st sto true (decide (r.2 = 200))).1, r.1)
  else (sto, srv)

/-- A server that has stored nothing yet. -/
def freshServer : Server := { dataFile := .missing, backupDir := [], tick := 0 }

/-- A store to which nothing has been written. -/
def blankStore : Store := { mirror := .absent, posted := [], gets := 0, warnings := 0 }

/-- A state with one task that has no id. -/
def idlessState : State :=
  { events := [], topics := [],
    tasks := [[("text", .str "x"), ("done", .bool false), ("createdAt", .str "c")]] }

/-- A server whose data file holds one task. -/
def servingOneTask : Server :=
  { dataFile := .doc { events := some [], topics := some [],
                       tasks := some [[("id", .str "t"), ("text", .str "x"),
                                       ("createdAt", .str "c")]] },
    backupDir := [], tick := 0 }

/-- The body that `test-server.js` posts: one event, one topic and one task. -/
def testBody : Bundle :=
  { events := some [some [("id", .str "test-event-1"), ("ts", .str "1970-01-01T00:00:00.000Z"),
                          ("text", .str "x"), ("topic", .null)]],
    topics := some [some [("id", .str "test-topic-1"), ("name", .str "n"), ("notes", .str ""),
                          ("done", .bool false), ("createdAt", .str "1970-01-01T00:00:00.000Z")]],
    tasks := some [some [("id", .str "test-task-1"), ("text", .str "t"), ("done", .bool false),
                         ("notes", .str ""), ("createdAt", .str "1970-01-01T00:00:00.000Z")]] }

/-! ## Switching the edit session (script.js 383-435, 536-546) -/

/-- The function `saveBeforeSwitch()` run to its end with nothing in between;
the last two arguments are the outcomes of the writes of `saveData()`. -/
def saveBeforeSwitchDone (h : Host) (app : App) (localWriteOk remoteOk : Bool) : App :=
  if app.mode = "edit" ∧ app.currentEdit.isSome = true ∧ app.hasUnsavedChanges = true ∧
      app.isAutoSaving = false then
    (performSave h app true localWriteOk remoteOk).1
  else app

/-- The expression `v || ''`. -/
def orEmpty (v : JVal) : JVal := if v.truthy then v else .str ""

/-- The function `loadIntoEditor(type, id)`.  `dom` is the string an element
holds after a value was assigned to its `value` (the value itself for a
string), `options` the option values that `topicSelect` offers: assigning
another value leaves the select empty. -/
def loadIntoEditor (h : Host) (dom : JVal → String) (options : List String) (app : App)
    (type : EditType) (id : JVal) (localWriteOk remoteOk : Bool) : App :=
  let app1 := saveBeforeSwitchDone h app localWriteOk remoteOk
  match type with
  | .event =>
    match app1.state.events.find? (fun x => decide (x.get "id" = id)) with
    | none => app1
    | some ev =>
      let topic := dom (orEmpty (ev.get "topic"))
      updateOriginalContent
        { app1 with
          editor := { title := dom (orEmpty (ev.get "title")),
                      body := dom (orEmpty (ev.get "text")),
                      topic := if options.contains topic then topic else "" } }
  | .topic =>
    match app1.state.topics.find? (fun x => decide (x.get "id" = id)) with
    | none => app1
    | some t =>
      updateOriginalContent
        { app1 with
          editor := { title := dom (t.get "name"), body := dom (orEmpty (t.get "notes")),
                      topic := "" } }
  | .task =>
    match app1.state.tasks.find? (fun x => decide (x.get "id" = id)) with
    | none => app1
    | some tk =>
      updateOriginalContent
        { app1 with
          editor := { title := dom (tk.get "text"), body := dom (orEmpty (tk.get "notes")),
                      topic := "" } }

/-- The click handler of a list entry outside its checkbox and menu button:
`await saveBeforeSwitch(); mode = "edit"; currentEdit = { type, id };
await loadIntoEditor(type, id)`.  The two pairs of outcomes belong to the
`saveData()` calls of the first and of the second `saveBeforeSwitch()`. -/
def clickToEdit (h : Host) (dom : JVal → String) (options : List String) (app : App)
    (type : EditType) (id : JVal) (lw1 ro1 lw2 ro2 : Bool) : App :=
  let app1 := saveBeforeSwitchDone h app lw1 ro1
  loadIntoEditor h dom options
    { app1 with mode := "edit", currentEdit := some { type := type, id := id } }
    type id lw2 ro2

/-- A `dom` for the examples, whose values are strings. -/
def demoDom : JVal → String
  | .str s => s
  | _ => ""

/-- The page in an edit session on the topic `p2` (`Home`), whose title was
changed to the name of the topic `p1`; the state has one task `t1`. -/
def renamingTopic : App :=
  { editingTask with
    state :=
      { events := [],
        topics := twoTopics.topics,
        tasks := [[("id", .str "t1"), ("text", .str "buy milk"), ("notes", .str "n"),
                   ("done", .bool false)]] }
    currentEdit := some { type := .topic, id := .str "p2" }
    originalContent := { title := "Home", body := "h", topic := "" }
    editor := { title := "Work", body := "h2", topic := "" }
    hasUnsavedChanges := true }

/-- The page in an edit session on the task `a`, whose title was changed; the
state has a second task `b`. -/
def retitlingTask : App :=
  { editingTask with
    state :=
      { events := [], topics := [],
        tasks := [[("id", .str "a"), ("text", .str "old"), ("notes", .str "n"),
                   ("done", .bool false)],
                  [("id", .str "b"), ("text", .str "other"), ("notes", .str "m"),
                   ("done", .bool false)]] }
    currentEdit := some { type := .task, id := .str "a" }
    originalContent := { title := "old", body := "n", topic := "" }
    editor := { title := "new", body := "n", topic := "" }
    hasUnsavedChanges := true }

/-- The page `dirtyWithTimer` after its autosave timeout fired, the autosave
being suspended on the remote request, and the user then emptied the title and
changed the notes (5 ms later). -/
def emptiedDuringAutosave : App :=
  inputEvent (timerEvent demoHost dirtyWithTimer 1 true).1
    { title := "", body := "new notes", topic := "" } 5

end LLog

namespace LLog

/-! ## Lemmas on the array primitives -/

theorem findIndex_eq_none_iff (p : Obj → Bool) (arr : List Obj) :
    findIndex p arr = none ↔ ∀ x ∈ arr, p x = false := by
  induction arr with
  | nil => simp [findIndex]
  | cons a as ih =>
    by_cases ha : p a = true
    · simp [findIndex, ha]
    · simp [findIndex, ha, ih]

theorem findIndex_split (p : Obj → Bool) (pre : List Obj) (item : Obj) (post : List Obj)
    (hpre : ∀ x ∈ pre, p x = false) (hitem : p item = true) :
    findIndex p (pre ++ item :: post) = some pre.length := by
  induction pre with
  | nil => simp [findIndex, hitem]
  | cons a as ih =>
    have ha : p a = false := hpre a (List.mem_cons_self _ _)
    have has : ∀ x ∈ as, p x = false := fun x hx => hpre x (List.mem_cons_of_mem _ hx)
    simp [findIndex, ha, ih has]

theorem findIndex_some_split (p : Obj → Bool) (arr : List Obj) (i : Nat)
    (h : findIndex p arr = some i) :
    ∃ pre item post, arr = pre ++ item :: post ∧ pre.length = i ∧ p item = true ∧
      ∀ x ∈ pre, p x = false := by
  induction arr generalizing i with
  | nil => simp [findIndex] at h
  | cons a as ih =>
    by_cases ha : p a = true
    · simp [findIndex, ha] at h
      exact ⟨[], a, as, rfl, by simpa using h, ha, by simp⟩
    · simp [findIndex, ha] at h
      obtain ⟨j, hj, rfl⟩ := h
      obtain ⟨pre, item, post, rfl, hlen, hitem, hpre⟩ := ih j hj
      refine ⟨a :: pre, item, post, rfl, by simp [hlen], hitem, ?_⟩
      intro x hx
      rcases List.mem_cons.mp hx with rfl | hx
      · simpa using ha
      · exact hpre x hx

theorem getAt_split (pre : List Obj) (item : Obj) (post : List Obj) :
    (pre ++ item :: post).get? pre.length = some item := by
  induction pre with
  | nil => rfl
  | cons a as ih => simpa using ih

theorem spliceRemove_split (pre : List Obj) (item : Obj) (post : List Obj) :
    spliceRemove (pre ++ item :: post) pre.length = pre ++ post := by
  induction pre with
  | nil => rfl
  | cons a as ih =>
    simp only [spliceRemove] at ih
    simp [spliceRemove, List.eraseIdx, ih]

theorem spliceInsert_split (us ds : List Obj) (item : Obj) :
    spliceInsert (us ++ ds) us.length item = us ++ item :: ds := by
  simp [spliceInsert]

/-! ## The item looked up by id -/

theorem findIndex_id_split (id : JVal) (pre : List Obj) (item : Obj) (post : List Obj)
    (hid : item.get "id" = id) (hpre : ∀ x ∈ pre, x.get "id" ≠ id) :
    findIndex (fun x => decide (x.get "id" = id)) (pre ++ item :: post) = some pre.length := by
  apply findIndex_split
  · intro x hx
    simpa using hpre x hx
  · simpa using hid

theorem id_split_of_mem (id : JVal) (arr : List Obj) (h : ∃ x ∈ arr, x.get "id" = id) :
    ∃ pre item post, arr = pre ++ item :: post ∧ item.get "id" = id ∧
      ∀ x ∈ pre, x.get "id" ≠ id := by
  cases hf : findIndex (fun x => decide (x.get "id" = id)) arr with
  | none =>
    obtain ⟨x, hx, hxid⟩ := h
    have := (findIndex_eq_none_iff _ arr).mp hf x hx
    simp [hxid] at this
  | some i =>
    obtain ⟨pre, item, post, harr, -, hitem, hpre⟩ := findIndex_some_split _ arr i hf
    refine ⟨pre, item, post, harr, by simpa using hitem, ?_⟩
    intro x hx
    simpa using hpre x hx

theorem findIndex_id_none (id : JVal) (arr : List Obj) (h : ∀ x ∈ arr, x.get "id" ≠ id) :
    findIndex (fun x => decide (x.get "id" = id)) arr = none := by
  rw [findIndex_eq_none_iff]
  intro x hx
  simpa using h x hx

theorem reorderArr_split (id checked : JVal) (pre : List Obj) (item : Obj) (post : List Obj)
    (hid : item.get "id" = id) (hpre : ∀ x ∈ pre, x.get "id" ≠ id) :
    reorderArr (pre ++ item :: post) id checked =
      some (insertItemInOrder (pre ++ post) (item.set "done" (.bool checked.truthy))) := by
  simp only [reorderArr, findIndex_id_split id pre item post hid hpre, getAt_split,
    spliceRemove_split]

theorem moveToTopArr_split (id : JVal) (pre : List Obj) (item : Obj) (post : List Obj)
    (hid : item.get "id" = id) (hpre : ∀ x ∈ pre, x.get "id" ≠ id) :
    moveToTopArr (pre ++ item :: post) id =
      some (insertItemInOrder (pre ++ post) (coerceDone item)) := by
  simp only [moveToTopArr, findIndex_id_split id pre item post hid hpre, getAt_split,
    spliceRemove_split]

theorem moveToBottomArr_split (id : JVal) (pre : List Obj) (item : Obj) (post : List Obj)
    (hid : item.get "id" = id) (hpre : ∀ x ∈ pre, x.get "id" ≠ id) :
    moveToBottomArr (pre ++ item :: post) id =
      if isDone (coerceDone item) then
        some ((pre ++ post) ++ [coerceDone item])
      else
        some (spliceInsert (pre ++ post)
          (match findIndex isDone (pre ++ post) with
            | none => (pre ++ post).length
            | some firstChecked => firstChecked)
          (coerceDone item)) := by
  simp only [moveToBottomArr, findIndex_id_split id pre item post hid hpre, getAt_split,
    spliceRemove_split]

/-! ## Objects -/

theorem get_set_same (o : Obj) (k : String) (v : JVal) : (o.set k v).get k = v := by
  induction o with
  | nil => simp [Obj.set, Obj.get]
  | cons kv rest ih =>
    obtain ⟨k1, w⟩ := kv
    by_cases hk : k1 = k
    · simp [Obj.set, Obj.get, hk]
    · simp [Obj.set, Obj.get, hk, ih]

theorem get_set_other (o : Obj) (k k2 : String) (v : JVal) (hne : k2 ≠ k) :
    (o.set k v).get k2 = o.get k2 := by
  induction o with
  | nil => simp [Obj.set, Obj.get, Ne.symm hne]
  | cons kv rest ih =>
    obtain ⟨k1, w⟩ := kv
    by_cases hk : k1 = k
    · subst hk
      simp [Obj.set, Obj.get, Ne.symm hne]
    · by_cases hk2 : k1 = k2
      · subst hk2
        simp [Obj.set, Obj.get, hk]
      · simp [Obj.set, Obj.get, hk, hk2, ih]

theorem set_get_self (o : Obj) (k : String) (v : JVal) (hv : o.get k = v)
    (hne : v ≠ .undefined) : o.set k v = o := by
  induction o with
  | nil => simp [Obj.get] at hv; exact absurd hv.symm hne
  | cons kv rest ih =>
    obtain ⟨k1, w⟩ := kv
    by_cases hk : k1 = k
    · simp [Obj.get, hk] at hv
      simp [Obj.set, hk, hv]
    · simp [Obj.get, hk] at hv
      simp [Obj.set, hk, ih hv]

theorem isDone_set_done (o : Obj) (b : Bool) : isDone (o.set "done" (.bool b)) = b := by
  simp [isDone, get_set_same, JVal.truthy]

theorem isDone_coerce (o : Obj) : isDone (coerceDone o) = isDone o := by
  simp [isDone, coerceDone, get_set_same, JVal.truthy]

theorem coerceDone_of_bool (o : Obj) (b : Bool) (hb : o.get "done" = .bool b) :
    coerceDone o = o := by
  unfold coerceDone
  rw [hb]
  exact set_get_self o "done" (.bool b) hb (by simp)

/-! ## The partition invariant: structure -/

theorem partitioned_sublist {l1 l2 : List Obj} (hs : l1.Sublist l2) (h : partitioned l2) :
    partitioned l1 :=
  List.Pairwise.sublist hs h

theorem partitioned_undone_done (us : List Obj) (mid : List Obj) (ds : List Obj)
    (hu : ∀ x ∈ us, isDone x = false) (hm : mid.length ≤ 1)
    (hd : ∀ x ∈ ds, isDone x = true) : partitioned (us ++ mid ++ ds) := by
  induction us with
  | nil =>
    match mid, hm with
    | [], _ =>
      simp only [List.nil_append]
      exact List.pairwise_iff_forall_sublist.mpr (fun {a b} hab _ =>
        hd b (hab.subset (by simp)))
    | [m], _ =>
      simp only [List.nil_append, List.singleton_append]
      refine List.Pairwise.cons (fun b hb _ => hd b hb) ?_
      exact List.pairwise_iff_forall_sublist.mpr (fun {a b} hab _ =>
        hd b (hab.subset (by simp)))
  | cons a as ih =>
    have ha : isDone a = false := hu a (List.mem_cons_self _ _)
    have has : ∀ x ∈ as, isDone x = false := fun x hx => hu x (List.mem_cons_of_mem _ hx)
    simp only [List.cons_append]
    refine List.Pairwise.cons ?_ (by simpa using ih has)
    intro b _ hdone
    rw [ha] at hdone
    exact absurd hdone (by decide)

theorem partitioned_eq_filter (arr : List Obj) (h : partitioned arr) :
    arr = arr.filter (fun x => !isDone x) ++ arr.filter isDone := by
  induction arr with
  | nil => rfl
  | cons a as ih =>
    have hcons := List.pairwise_cons.mp h
    have ih2 := ih hcons.2
    by_cases ha : isDone a = true
    · have hall : ∀ x ∈ as, isDone x = true := fun x hx => hcons.1 x hx ha
      have h1 : as.filter (fun x => !isDone x) = [] := by
        rw [List.filter_eq_nil_iff]
        intro x hx
        simp [hall x hx]
      have h2 : as.filter isDone = as := by
        rw [List.filter_eq_self]
        exact hall
      simp [List.filter_cons, ha, h1, h2]
    · simp only [Bool.not_eq_true] at ha
      simp only [List.filter_cons, ha, Bool.not_false, if_true, List.cons_append]
      simp only [Bool.false_eq_true, if_false]
      rw [← ih2]

theorem insertIndex_undone_done (us ds : List Obj)
    (hu : ∀ x ∈ us, isDone x = false) (hd : ∀ x ∈ ds, isDone x = true) :
    ((us ++ ds).filter (fun x => !isDone x)).length = us.length ∧
    (match findIndex isDone (us ++ ds) with
      | none => (us ++ ds).length
      | some firstChecked => firstChecked) = us.length := by
  constructor
  · have h1 : us.filter (fun x => !isDone x) = us := by
      rw [List.filter_eq_self]
      intro x hx
      simp [hu x hx]
    have h2 : ds.filter (fun x => !isDone x) = [] := by
      rw [List.filter_eq_nil_iff]
      intro x hx
      simp [hd x hx]
    simp [List.filter_append, h1, h2]
  · cases ds with
    | nil =>
      have : findIndex isDone us = none := by
        rw [findIndex_eq_none_iff]
        exact hu
      simp [this]
    | cons d ds2 =>
      rw [findIndex_split isDone us d ds2 hu (hd d (List.mem_cons_self _ _))]

theorem insertItemInOrder_undone_done (us ds : List Obj) (item : Obj)
    (hu : ∀ x ∈ us, isDone x = false) (hd : ∀ x ∈ ds, isDone x = true) :
    insertItemInOrder (us ++ ds) item = us ++ item :: ds := by
  obtain ⟨h1, h2⟩ := insertIndex_undone_done us ds hu hd
  unfold insertItemInOrder
  by_cases hi : isDone item = true
  · simp only [hi, if_true, h1]
    exact spliceInsert_split us ds item
  · simp only [hi, if_false, h2]
    exact spliceInsert_split us ds item

theorem insertItemInOrder_partitioned (arr : List Obj) (item : Obj) (h : partitioned arr) :
    insertItemInOrder arr item =
      arr.filter (fun x => !isDone x) ++ item :: arr.filter isDone := by
  have hu : ∀ x ∈ arr.filter (fun x => !isDone x), isDone x = false := by
    intro x hx
    simpa using (List.mem_filter.mp hx).2
  have hd : ∀ x ∈ arr.filter isDone, isDone x = true := fun x hx => (List.mem_filter.mp hx).2
  have := insertItemInOrder_undone_done _ _ item hu hd
  rwa [← partitioned_eq_filter arr h] at this

theorem insertItemInOrder_keeps_partition (arr : List Obj) (item : Obj) (h : partitioned arr) :
    partitioned (insertItemInOrder arr item) := by
  rw [insertItemInOrder_partitioned arr item h]
  have hu : ∀ x ∈ arr.filter (fun x => !isDone x), isDone x = false := by
    intro x hx
    simpa using (List.mem_filter.mp hx).2
  have hd : ∀ x ∈ arr.filter isDone, isDone x = true := fun x hx => (List.mem_filter.mp hx).2
  have := partitioned_undone_done _ [item] _ hu (by simp) hd
  simpa using this

/-! ## The partition invariant: preservation by the array operations -/

theorem erase_split_partitioned (pre : List Obj) (item : Obj) (post : List Obj)
    (h : partitioned (pre ++ item :: post)) : partitioned (pre ++ post) := by
  refine partitioned_sublist ?_ h
  exact List.Sublist.append (List.Sublist.refl pre) (List.sublist_cons_self item post)

theorem insertItemInOrder_undone (arr : List Obj) (item : Obj) (hi : isDone item = false) :
    insertItemInOrder arr item =
      spliceInsert arr
        (match findIndex isDone arr with
          | none => arr.length
          | some firstChecked => firstChecked) item := by
  simp [insertItemInOrder, hi]

theorem reorderArr_keeps (arr : List Obj) (id checked : JVal) (h : partitioned arr)
    (r : List Obj) (hr : reorderArr arr id checked = some r) : partitioned r := by
  by_cases hmem : ∃ x ∈ arr, x.get "id" = id
  · obtain ⟨pre, item, post, rfl, hid, hpre⟩ := id_split_of_mem id arr hmem
    rw [reorderArr_split id checked pre item post hid hpre] at hr
    cases hr
    exact insertItemInOrder_keeps_partition _ _ (erase_split_partitioned pre item post h)
  · have hnone : reorderArr arr id checked = none := by
      simp only [reorderArr]
      rw [findIndex_id_none id arr (fun x hx hxid => hmem ⟨x, hx, hxid⟩)]
    rw [hnone] at hr
    cases hr

theorem moveToTopArr_keeps (arr : List Obj) (id : JVal) (h : partitioned arr)
    (r : List Obj) (hr : moveToTopArr arr id = some r) : partitioned r := by
  by_cases hmem : ∃ x ∈ arr, x.get "id" = id
  · obtain ⟨pre, item, post, rfl, hid, hpre⟩ := id_split_of_mem id arr hmem
    rw [moveToTopArr_split id pre item post hid hpre] at hr
    cases hr
    exact insertItemInOrder_keeps_partition _ _ (erase_split_partitioned pre item post h)
  · have hnone : moveToTopArr arr id = none := by
      simp only [moveToTopArr]
      rw [findIndex_id_none id arr (fun x hx hxid => hmem ⟨x, hx, hxid⟩)]
    rw [hnone] at hr
    cases hr

theorem append_done_partitioned (arr : List Obj) (item : Obj) (h : partitioned arr)
    (hi : isDone item = true) : partitioned (arr ++ [item]) := by
  unfold partitioned
  rw [List.pairwise_append]
  refine ⟨h, List.pairwise_singleton _ _, ?_⟩
  intro a _ b hb _
  rw [List.mem_singleton] at hb
  rw [hb]
  exact hi

theorem moveToBottomArr_keeps (arr : List Obj) (id : JVal) (h : partitioned arr)
    (r : List Obj) (hr : moveToBottomArr arr id = some r) : partitioned r := by
  by_cases hmem : ∃ x ∈ arr, x.get "id" = id
  · obtain ⟨pre, item, post, rfl, hid, hpre⟩ := id_split_of_mem id arr hmem
    rw [moveToBottomArr_split id pre item post hid hpre] at hr
    have hrest := erase_split_partitioned pre item post h
    by_cases hd : isDone (coerceDone item) = true
    · rw [if_pos hd] at hr
      cases hr
      exact append_done_partitioned _ _ hrest hd
    · rw [if_neg hd] at hr
      cases hr
      simp only [Bool.not_eq_true] at hd
      rw [← insertItemInOrder_undone _ _ hd]
      exact insertItemInOrder_keeps_partition _ _ hrest
  · have hnone : moveToBottomArr arr id = none := by
      simp only [moveToBottomArr]
      rw [findIndex_id_none id arr (fun x hx hxid => hmem ⟨x, hx, hxid⟩)]
    rw [hnone] at hr
    cases hr

/-! ## State-level bookkeeping -/

theorem list_setList (st : State) (ln which : ListName) (arr : List Obj) :
    (st.setList ln arr).list which = if which = ln then arr else st.list which := by
  cases ln <;> cases which <;> simp [State.setList, State.list]

theorem list_setList_same (st : State) (ln : ListName) (arr : List Obj) :
    (st.setList ln arr).list ln = arr := by
  simp [list_setList]

theorem reorderListByCheck_keeps (st : State) (which ln : ListName) (id checked : JVal)
    (hp : partitioned (st.list which)) :
    partitioned ((reorderListByCheck st ln id checked).state.list which) := by
  unfold reorderListByCheck
  cases hr : reorderArr (st.list ln) id checked with
  | none => exact hp
  | some r =>
    simp only [list_setList]
    by_cases hw : which = ln
    · subst hw
      simp only [if_true]
      exact reorderArr_keeps _ id checked hp r hr
    · simp only [hw, if_false]
      exact hp

theorem moveToTop_keeps (st : State) (which ln : ListName) (id : JVal)
    (hp : partitioned (st.list which)) :
    partitioned ((moveToTop st ln id).state.list which) := by
  unfold moveToTop
  cases hr : moveToTopArr (st.list ln) id with
  | none => exact hp
  | some r =>
    simp only [list_setList]
    by_cases hw : which = ln
    · subst hw
      simp only [if_true]
      exact moveToTopArr_keeps _ id hp r hr
    · simp only [hw, if_false]
      exact hp

theorem moveToBottom_keeps (st : State) (which ln : ListName) (id : JVal)
    (hp : partitioned (st.list which)) :
    partitioned ((moveToBottom st ln id).state.list which) := by
  unfold moveToBottom
  cases hr : moveToBottomArr (st.list ln) id with
  | none => exact hp
  | some r =>
    simp only [list_setList]
    by_cases hw : which = ln
    · subst hw
      simp only [if_true]
      exact moveToBottomArr_keeps _ id hp r hr
    · simp only [hw, if_false]
      exact hp

theorem cons_undone_partitioned (arr : List Obj) (item : Obj) (h : partitioned arr)
    (hi : isDone item = false) : partitioned (item :: arr) := by
  refine List.Pairwise.cons ?_ h
  intro b _ hdone
  rw [hi] at hdone
  exact absurd hdone (by decide)

theorem addTask_keeps (h : Host) (n : Nat) (st : State) (text : String) (which : ListName)
    (hp : partitioned (st.list which)) : partitioned ((addTask h n st text).list which) := by
  cases which with
  | topics => exact hp
  | tasks =>
    simp only [addTask, State.list]
    exact cons_undone_partitioned _ _ hp (by simp [isDone, Obj.get, JVal.truthy])

theorem addTopic_keeps (h : Host) (n : Nat) (st : State) (name : String) (which : ListName)
    (hp : partitioned (st.list which)) :
    partitioned ((addTopic h n st name).1.list which) := by
  unfold addTopic
  split
  · exact hp
  · split
    · exact hp
    · exact hp
    · cases which with
      | tasks => exact hp
      | topics =>
        simp only [State.list]
        exact cons_undone_partitioned _ _ hp (by simp [isDone, Obj.get, JVal.truthy])

theorem deleteTaskAction_keeps (st : State) (id : JVal) (confirmed : Bool) (which : ListName)
    (hp : partitioned (st.list which)) :
    partitioned ((deleteTaskAction st id confirmed).state.list which) := by
  unfold deleteTaskAction
  split
  · cases which with
    | topics => exact hp
    | tasks =>
      simp only [State.list]
      exact partitioned_sublist (List.filter_sublist _) hp
  · exact hp

theorem deleteTopicAction_keeps (st : State) (id : JVal) (confirmed : Bool) (which : ListName)
    (hp : partitioned (st.list which)) :
    partitioned ((deleteTopicAction st id confirmed).state.list which) := by
  unfold deleteTopicAction
  split
  · cases which with
    | tasks => exact hp
    | topics =>
      simp only [State.list]
      exact partitioned_sublist (List.filter_sublist _) hp
  · exact hp

/-! ## Ordered lists: the claims -/

/-- C1. The partition invariant is preserved: when a list of the state (tasks
or topics) has every undone item before every done item, it still has after
`reorderListByCheck` (any new value), `moveToTop`, `moveToBottom`, `addTask`,
`addTopic` and the deletion of a task or of a topic, whichever list the
operation works on and whatever the id. -/
theorem partition_invariant_preserved (h : Host) (n : Nat) (st : State) (which : ListName)
    (hp : partitioned (st.list which)) (listName : ListName) (id checked : JVal)
    (text name : String) (confirmed : Bool) :
    partitioned ((reorderListByCheck st listName id checked).state.list which) ∧
    partitioned ((moveToTop st listName id).state.list which) ∧
    partitioned ((moveToBottom st listName id).state.list which) ∧
    partitioned ((addTask h n st text).list which) ∧
    partitioned ((addTopic h n st name).1.list which) ∧
    partitioned ((deleteTaskAction st id confirmed).state.list which) ∧
    partitioned ((deleteTopicAction st id confirmed).state.list which) :=
  ⟨reorderListByCheck_keeps st which listName id checked hp,
   moveToTop_keeps st which listName id hp,
   moveToBottom_keeps st which listName id hp,
   addTask_keeps h n st text which hp,
   addTopic_keeps h n st name which hp,
   deleteTaskAction_keeps st id confirmed which hp,
   deleteTopicAction_keeps st id confirmed which hp⟩

/-- C1, at the list of scenario A with the item `U2`. -/
theorem partition_invariant_preserved_witness :
    partitioned (scenarioA.list .tasks) ∧
    (partitioned ((reorderListByCheck scenarioA .tasks (.str "U2") (.bool true)).state.list
        .tasks) ∧
     partitioned ((moveToTop scenarioA .tasks (.str "U2")).state.list .tasks) ∧
     partitioned ((moveToBottom scenarioA .tasks (.str "U2")).state.list .tasks) ∧
     partitioned ((addTask demoHost 0 scenarioA "new").list .tasks) ∧
     partitioned ((addTopic demoHost 0 scenarioA "new").1.list .tasks) ∧
     partitioned ((deleteTaskAction scenarioA (.str "U2") true).state.list .tasks) ∧
     partitioned ((deleteTopicAction scenarioA (.str "U2") true).state.list .tasks)) :=
  ⟨by decide,
   partition_invariant_preserved demoHost 0 scenarioA .tasks (by decide) .tasks (.str "U2")
     (.bool true) "new" "new" true⟩

/-- C2. The boundary rule of `reorderListByCheck`: on a partitioned list whose
first item carrying the id is `item` (the list is `pre ++ item :: post`), the
list afterwards is the other undone items in their order, then the item with
`done` set to the truth value of the new value, then the other done items in
their order; the item's `done` test then gives that truth value. -/
theorem reorderListByCheck_boundary (st : State) (listName : ListName) (id checked : JVal)
    (pre : List Obj) (item : Obj) (post : List Obj)
    (hp : partitioned (st.list listName))
    (hsplit : st.list listName = pre ++ item :: post)
    (hid : item.get "id" = id) (hpre : ∀ x ∈ pre, x.get "id" ≠ id) :
    (reorderListByCheck st listName id checked).state.list listName =
      (pre ++ post).filter (fun x => !isDone x) ++
        [item.set "done" (.bool checked.truthy)] ++ (pre ++ post).filter isDone ∧
    isDone (item.set "done" (.bool checked.truthy)) = checked.truthy := by
  refine ⟨?_, isDone_set_done item _⟩
  have hrest : partitioned (pre ++ post) := by
    rw [hsplit] at hp
    exact erase_split_partitioned pre item post hp
  unfold reorderListByCheck
  rw [hsplit, reorderArr_split id checked pre item post hid hpre]
  simp only [list_setList_same]
  rw [insertItemInOrder_partitioned _ _ hrest]
  simp

/-- C2, scenario A: toggling `U2` to done in `[U1, U2, U3, D1]` gives
`[U1, U3, U2, D1]`. -/
theorem reorderListByCheck_boundary_witness :
    (reorderListByCheck scenarioA .tasks (.str "U2") (.bool true)).state.list .tasks =
      [mkItem "U1" false, mkItem "U3" false, mkItem "U2" true, mkItem "D1" true] :=
  (reorderListByCheck_boundary scenarioA .tasks (.str "U2") (.bool true)
    [mkItem "U1" false] (mkItem "U2" false) [mkItem "U3" false, mkItem "D1" true]
    (by decide) rfl rfl (by decide)).1.trans (by decide)

theorem spliceInsert_before_first_done (arr : List Obj) (item : Obj) :
    ∃ us ds, arr = us ++ ds ∧
      spliceInsert arr
        (match findIndex isDone arr with
          | none => arr.length
          | some firstChecked => firstChecked) item = us ++ item :: ds ∧
      (∀ x ∈ us, isDone x = false) ∧ (∀ d, ds.head? = some d → isDone d = true) := by
  cases hf : findIndex isDone arr with
  | none =>
    refine ⟨arr, [], by simp, by simp [spliceInsert], (findIndex_eq_none_iff _ _).mp hf, ?_⟩
    intro d hd
    simp at hd
  | some i =>
    obtain ⟨us, d, post, rfl, hlen, hd, hus⟩ := findIndex_some_split _ _ _ hf
    refine ⟨us, d :: post, rfl, ?_, hus, ?_⟩
    · simp only
      rw [← hlen]
      exact spliceInsert_split us (d :: post) item
    · intro d2 hd2
      simp only [List.head?_cons, Option.some.injEq] at hd2
      rw [← hd2]
      exact hd

theorem last_of_partition_shape (pre : List Obj) (item : Obj) (post : List Obj)
    (hp : partitioned (pre ++ item :: post)) (hlast : ∀ x ∈ post, isDone x ≠ isDone item) :
    (isDone item = true → post = []) ∧
    (isDone item = false →
      (∀ x ∈ pre, isDone x = false) ∧ (∀ x ∈ post, isDone x = true)) := by
  unfold partitioned at hp
  rw [List.pairwise_append] at hp
  obtain ⟨-, hip, hcross⟩ := hp
  have hpost := (List.pairwise_cons.mp hip).1
  constructor
  · intro hd
    cases post with
    | nil => rfl
    | cons y ys =>
      have h1 := hpost y (List.mem_cons_self _ _) hd
      have h2 := hlast y (List.mem_cons_self _ _)
      rw [h1, hd] at h2
      exact absurd rfl h2
  · intro hu
    constructor
    · intro x hx
      cases hx2 : isDone x with
      | false => rfl
      | true =>
        have := hcross x hx item (List.mem_cons_self _ _) hx2
        rw [hu] at this
        exact absurd this (by decide)
    · intro x hx
      have h2 := hlast x hx
      rw [hu] at h2
      cases hx2 : isDone x with
      | false => exact absurd hx2 h2
      | true => rfl

/-- C3. Placement by `moveToBottom`, for a list whose first item carrying the id
is `item` (the list is `pre ++ item :: post`, the remaining items `pre ++ post`);
the item in the result is `item` after the assignment `item.done = !!item.done`.
A done item ends up after all remaining items.  An undone item is inserted
immediately before the first done element of the remaining items, at the end
when there is none, so that only undone items precede it.  When the list is
partitioned and no later item has the item's done value, the order of the list
is unchanged, and the list itself is unchanged when `done` holds a boolean. -/
theorem moveToBottom_placement (st : State) (listName : ListName) (id : JVal)
    (pre : List Obj) (item : Obj) (post : List Obj)
    (hsplit : st.list listName = pre ++ item :: post)
    (hid : item.get "id" = id) (hpre : ∀ x ∈ pre, x.get "id" ≠ id) :
    (isDone item = true →
      (moveToBottom st listName id).state.list listName = (pre ++ post) ++ [coerceDone item]) ∧
    (isDone item = false →
      ∃ us ds, pre ++ post = us ++ ds ∧
        (moveToBottom st listName id).state.list listName = us ++ coerceDone item :: ds ∧
        (∀ x ∈ us, isDone x = false) ∧ (∀ d, ds.head? = some d → isDone d = true)) ∧
    (partitioned (st.list listName) → (∀ x ∈ post, isDone x ≠ isDone item) →
      (moveToBottom st listName id).state.list listName = pre ++ coerceDone item :: post ∧
      (item.get "done" = .bool (isDone item) →
        (moveToBottom st listName id).state.list listName = st.list listName)) := by
  have hres : (moveToBottom st listName id).state.list listName =
      if isDone item then (pre ++ post) ++ [coerceDone item]
      else spliceInsert (pre ++ post)
        (match findIndex isDone (pre ++ post) with
          | none => (pre ++ post).length
          | some firstChecked => firstChecked) (coerceDone item) := by
    unfold moveToBottom
    rw [hsplit, moveToBottomArr_split id pre item post hid hpre, isDone_coerce]
    by_cases hd : isDone item = true
    · rw [if_pos hd, if_pos hd]
      exact list_setList_same _ _ _
    · rw [if_neg hd, if_neg hd]
      exact list_setList_same _ _ _
  refine ⟨?_, ?_, ?_⟩
  · intro hd
    rw [hres, if_pos hd]
  · intro hu
    rw [hres, hu]
    simp only [Bool.false_eq_true, if_false]
    exact spliceInsert_before_first_done (pre ++ post) (coerceDone item)
  · intro hp hlast
    rw [hsplit] at hp
    obtain ⟨hdone, hundone⟩ := last_of_partition_shape pre item post hp hlast
    have hshape : (moveToBottom st listName id).state.list listName =
        pre ++ coerceDone item :: post := by
      rw [hres]
      by_cases hd : isDone item = true
      · rw [if_pos hd, hdone hd]
        simp
      · rw [if_neg hd]
        simp only [Bool.not_eq_true] at hd
        obtain ⟨hu, hds⟩ := hundone hd
        rw [(insertIndex_undone_done pre post hu hds).2]
        exact spliceInsert_split pre post _
    refine ⟨hshape, ?_⟩
    intro hb
    rw [hshape, hsplit, coerceDone_of_bool item _ hb]

/-- C3, scenario B: `moveToBottom` of `U1` in `[U1, D1, D2]` leaves the list
`[U1, D1, D2]`. -/
theorem moveToBottom_placement_witness :
    (moveToBottom scenarioB .tasks (.str "U1")).state.list .tasks =
      [mkItem "U1" false, mkItem "D1" true, mkItem "D2" true] :=
  ((moveToBottom_placement scenarioB .tasks (.str "U1")
    [] (mkItem "U1" false) [mkItem "D1" true, mkItem "D2" true]
    rfl rfl (by decide)).2.2 (by decide) (by decide)).2 (by decide)

/-- C4. `moveToTop` of the undone item `U1`, the first item of `[U1, U2, U3, D1]`,
gives `[U2, U3, U1, D1]`: the item lands after the other undone items, at the
place `moveToBottom` gives it, and does not precede them. -/
theorem moveToTop_undone_lands_last :
    (moveToTop scenarioA .tasks (.str "U1")).state.list .tasks =
      [mkItem "U2" false, mkItem "U3" false, mkItem "U1" false, mkItem "D1" true] ∧
    moveToTop scenarioA .tasks (.str "U1") = moveToBottom scenarioA .tasks (.str "U1") := by
  decide

/-- C5. `moveToTop` is `reorderListByCheck` keyed on the current `done` value:
when the first item carrying the id is `item`, `moveToTop(listName, id)` leaves
the same state (and issues the same save) as `reorderListByCheck(listName, id, d)`
for `d` the truth value of `item.done`, and also for `d = item.done` itself. -/
theorem moveToTop_eq_reorderListByCheck (st : State) (listName : ListName) (id : JVal)
    (pre : List Obj) (item : Obj) (post : List Obj)
    (hsplit : st.list listName = pre ++ item :: post)
    (hid : item.get "id" = id) (hpre : ∀ x ∈ pre, x.get "id" ≠ id) :
    moveToTop st listName id = reorderListByCheck st listName id (.bool (isDone item)) ∧
    moveToTop st listName id = reorderListByCheck st listName id (item.get "done") := by
  unfold moveToTop reorderListByCheck
  rw [hsplit, moveToTopArr_split id pre item post hid hpre,
    reorderArr_split id _ pre item post hid hpre,
    reorderArr_split id _ pre item post hid hpre]
  constructor
  · simp [coerceDone, isDone, JVal.truthy]
  · simp [coerceDone]

/-- C5, at scenario A with the done item `D1`. -/
theorem moveToTop_eq_reorderListByCheck_witness :
    moveToTop scenarioA .tasks (.str "D1") =
      reorderListByCheck scenarioA .tasks (.str "D1") (.bool (isDone (mkItem "D1" true))) ∧
    moveToTop scenarioA .tasks (.str "D1") =
      reorderListByCheck scenarioA .tasks (.str "D1") ((mkItem "D1" true).get "done") :=
  moveToTop_eq_reorderListByCheck scenarioA .tasks (.str "D1")
    [mkItem "U1" false, mkItem "U2" false, mkItem "U3" false] (mkItem "D1" true) []
    rfl rfl (by decide)

theorem applyOp_keeps (st : State) (which : ListName) (c : ListName × ReorderOp)
    (hp : partitioned (st.list which)) : partitioned ((applyOp st c).list which) := by
  obtain ⟨ln, op⟩ := c
  cases op with
  | toggleDone id checked => exact reorderListByCheck_keeps st which ln id checked hp
  | top id => exact moveToTop_keeps st which ln id hp
  | bottom id => exact moveToBottom_keeps st which ln id hp

theorem runOps_keeps (which : ListName) (ops : List (ListName × ReorderOp)) :
    ∀ st : State, partitioned (st.list which) → partitioned ((runOps st ops).list which) := by
  induction ops with
  | nil => intro st hp; exact hp
  | cons c cs ih =>
    intro st hp
    simp only [runOps, List.foldl_cons]
    exact ih (applyOp st c) (applyOp_keeps st which c hp)

/-- C6, the claim as stated fails: two move-up actions on `D1` turn the
partitioned list `[U1, U2, D1]` into `[D1, U1, U2]`, and on that list each of
`moveToBottom`, `moveToTop` and `reorderListByCheck` of `U2` leaves a list in
which a done item precedes an undone one. -/
theorem reorder_unpartitioned_list_stays_unpartitioned :
    partitioned (beforeManualMove.list .tasks) ∧
    (moveUpAction (moveUpAction beforeManualMove .tasks 2 (mkItem "D1" true)).state
      .tasks 1 (mkItem "D1" true)).state = afterManualMove ∧
    ¬ partitioned ((runOps afterManualMove [(.tasks, .bottom (.str "U2"))]).list .tasks) ∧
    ¬ partitioned ((runOps afterManualMove [(.tasks, .top (.str "U2"))]).list .tasks) ∧
    ¬ partitioned ((runOps afterManualMove
        [(.tasks, .toggleDone (.str "U2") (.bool true))]).list .tasks) := by
  decide

/-- C6, amended. Starting from a state one of whose lists is partitioned, after
each call of any sequence of `reorderListByCheck` / `moveToTop` / `moveToBottom`
calls (on either list, with any ids and values) that list is partitioned. -/
theorem partition_invariant_along_calls (st : State) (which : ListName)
    (ops : List (ListName × ReorderOp)) (hp : partitioned (st.list which)) :
    ∀ k, partitioned ((runOps st (ops.take k)).list which) :=
  fun k => runOps_keeps which (ops.take k) st hp

/-- C6 amended, at scenario A with three calls. -/
theorem partition_invariant_along_calls_witness :
    partitioned (scenarioA.list .tasks) ∧
    partitioned ((runOps scenarioA
      (([(.tasks, .toggleDone (.str "U2") (.bool true)), (.tasks, .top (.str "D1")),
         (.tasks, .bottom (.str "U1"))] : List (ListName × ReorderOp)).take 2)).list .tasks) :=
  ⟨by decide, partition_invariant_along_calls scenarioA .tasks _ (by decide) 2⟩

theorem split_of_getAt (arr : List Obj) (i : Nat) (t : Obj) (h : arr.get? i = some t) :
    ∃ pre post, arr = pre ++ t :: post ∧ pre.length = i := by
  induction arr generalizing i with
  | nil => simp at h
  | cons a as ih =>
    cases i with
    | zero =>
      simp only [List.get?_cons_zero, Option.some.injEq] at h
      exact ⟨[], as, by simp [h], rfl⟩
    | succ j =>
      simp only [List.get?_cons_succ] at h
      obtain ⟨pre, post, rfl, hlen⟩ := ih j h
      exact ⟨a :: pre, post, rfl, by simp [hlen]⟩

/-- C7. The move-up and move-down actions swap by absolute index.  For a list
holding item `t` at index `i`: move-up with `i = 0` changes nothing and saves
nothing; with `i > 0` the items at `i - 1` and `i` are exchanged and every other
position is unchanged; move-down at the last index changes nothing and saves
nothing; with `i < length - 1` the items at `i` and `i + 1` are exchanged and
every other position is unchanged.  No `done` flag is consulted. -/
theorem moveUp_moveDown_swap (st : State) (listName : ListName) (i : Nat) (t : Obj)
    (ht : (st.list listName).get? i = some t) :
    (i = 0 → moveUpAction st listName i t = { state := st, saves := 0 }) ∧
    (0 < i → ∃ pre a post, st.list listName = pre ++ a :: t :: post ∧ pre.length + 1 = i ∧
      (moveUpAction st listName i t).state.list listName = pre ++ t :: a :: post) ∧
    (i + 1 = (st.list listName).length →
      moveDownAction st listName i t = { state := st, saves := 0 }) ∧
    (i + 1 < (st.list listName).length →
      ∃ pre b post, st.list listName = pre ++ t :: b :: post ∧ pre.length = i ∧
        (moveDownAction st listName i t).state.list listName = pre ++ b :: t :: post) := by
  obtain ⟨pre, post, harr, hlen⟩ := split_of_getAt _ i t ht
  refine ⟨?_, ?_, ?_, ?_⟩
  · intro h0
    simp [moveUpAction, h0]
  · intro hpos
    rcases List.eq_nil_or_concat pre with hnil | ⟨pre2, a, hpre⟩
    · rw [hnil] at hlen
      simp at hlen
      omega
    · subst hpre
      refine ⟨pre2, a, post, by simp [harr], by simpa using hlen, ?_⟩
      have hrem : spliceRemove (st.list listName) i = pre2 ++ a :: post := by
        rw [harr, ← hlen, spliceRemove_split]
        simp
      have hi : i - 1 = pre2.length := by
        simp at hlen
        omega
      simp only [moveUpAction, hpos, if_true, list_setList_same, gt_iff_lt]
      rw [hrem, hi]
      exact spliceInsert_split pre2 (a :: post) t
  · intro hlast
    simp [moveDownAction, hlast]
  · intro hlt
    cases post with
    | nil =>
      rw [harr] at hlt
      simp at hlt
      omega
    | cons b post2 =>
      refine ⟨pre, b, post2, harr, hlen, ?_⟩
      have hrem : spliceRemove (st.list listName) i = pre ++ b :: post2 := by
        rw [harr, ← hlen, spliceRemove_split]
      have hins : spliceInsert (pre ++ b :: post2) (i + 1) t = pre ++ b :: t :: post2 := by
        have := spliceInsert_split (pre ++ [b]) post2 t
        simp only [List.append_assoc, List.singleton_append, List.length_append,
          List.length_singleton] at this
        rw [← hlen]
        exact this
      simp only [moveDownAction, hlt, if_true, list_setList_same]
      rw [hrem, hins]

/-- C7, at scenario A with `U2` at index 1. -/
theorem moveUp_moveDown_swap_witness :
    (∃ pre a post, scenarioA.list .tasks = pre ++ a :: mkItem "U2" false :: post ∧
      pre.length + 1 = 1 ∧
      (moveUpAction scenarioA .tasks 1 (mkItem "U2" false)).state.list .tasks =
        pre ++ mkItem "U2" false :: a :: post) ∧
    (∃ pre b post, scenarioA.list .tasks = pre ++ mkItem "U2" false :: b :: post ∧
      pre.length = 1 ∧
      (moveDownAction scenarioA .tasks 1 (mkItem "U2" false)).state.list .tasks =
        pre ++ b :: mkItem "U2" false :: post) :=
  ⟨(moveUp_moveDown_swap scenarioA .tasks 1 (mkItem "U2" false) rfl).2.1 (by decide),
   (moveUp_moveDown_swap scenarioA .tasks 1 (mkItem "U2" false) rfl).2.2.2 (by decide)⟩

/-- C8. An unknown id is a no-op: when no item of the list carries the id,
`reorderListByCheck`, `moveToTop` and `moveToBottom` return with the state (the
order and every field of every item) unchanged and without calling `saveData`;
the functions are total, so nothing is thrown. -/
theorem unknown_id_is_noop (st : State) (listName : ListName) (id checked : JVal)
    (hnone : ∀ x ∈ st.list listName, x.get "id" ≠ id) :
    reorderListByCheck st listName id checked = { state := st, saves := 0 } ∧
    moveToTop st listName id = { state := st, saves := 0 } ∧
    moveToBottom st listName id = { state := st, saves := 0 } := by
  have hf := findIndex_id_none id _ hnone
  refine ⟨?_, ?_, ?_⟩
  · simp only [reorderListByCheck, reorderArr, hf]
  · simp only [moveToTop, moveToTopArr, hf]
  · simp only [moveToBottom, moveToBottomArr, hf]

/-- C8, at scenario A with the absent id `X`. -/
theorem unknown_id_is_noop_witness :
    reorderListByCheck scenarioA .tasks (.str "X") (.bool true) =
      { state := scenarioA, saves := 0 } ∧
    moveToTop scenarioA .tasks (.str "X") = { state := scenarioA, saves := 0 } ∧
    moveToBottom scenarioA .tasks (.str "X") = { state := scenarioA, saves := 0 } :=
  unknown_id_is_noop scenarioA .tasks (.str "X") (.bool true) (by decide)

/-! ## Import normalisation: lemmas -/

theorem fillItem_filled (h : Host) (tsKey : String) (hk : tsKey ≠ "id") (item : Obj) (n : Nat) :
    FilledFrom h tsKey item (fillItem h tsKey item n).1 := by
  refine ⟨?_, ?_, ?_⟩
  · intro key h1 h2
    simp only [fillItem]
    rw [get_set_other _ _ _ _ h2, get_set_other _ _ _ _ h1]
  · simp only [fillItem]
    rw [get_set_other _ _ _ _ (Ne.symm hk), get_set_same]
    by_cases hid : (item.get "id").truthy = true
    · simp [hid]
    · simp only [hid, if_false]
      exact ⟨n, rfl⟩
  · simp only [fillItem]
    rw [get_set_same]
    by_cases hts : (item.get tsKey).truthy = true
    · simp [hts]
    · simp only [hts, if_false]
      exact ⟨_, rfl⟩

theorem fillItems_total (h : Host) (tsKey : String) (hk : tsKey ≠ "id") :
    ∀ (xs : List (Option Obj)) (n : Nat), (∀ x ∈ xs, x ≠ none) →
      ∃ out m, fillItems h tsKey xs n = some (out, m) ∧ out.length = xs.length ∧
        ∀ k item, xs.get? k = some (some item) →
          ∃ o, out.get? k = some o ∧ FilledFrom h tsKey item o := by
  intro xs
  induction xs with
  | nil =>
    intro n _
    exact ⟨[], n, rfl, rfl, by simp⟩
  | cons x rest ih =>
    intro n hnn
    cases x with
    | none => exact absurd rfl (hnn none (List.mem_cons_self _ _))
    | some item =>
      obtain ⟨out, m, hrest, hlen, hget⟩ :=
        ih (fillItem h tsKey item n).2 (fun y hy => hnn y (List.mem_cons_of_mem _ hy))
      refine ⟨(fillItem h tsKey item n).1 :: out, m, ?_, by simp [hlen], ?_⟩
      · simp only [fillItems, hrest]
      · intro k it hk2
        cases k with
        | zero =>
          simp only [List.get?_cons_zero, Option.some.injEq] at hk2
          subst hk2
          exact ⟨_, rfl, fillItem_filled h tsKey hk _ n⟩
        | succ j =>
          simp only [List.get?_cons_succ] at hk2
          simpa using hget j it hk2

theorem insertSorted_perm (h : Host) (x : Obj) (l : List Obj) :
    (insertSorted h x l).Perm (x :: l) := by
  induction l with
  | nil => exact List.Perm.refl _
  | cons y ys ih =>
    by_cases hle : notAfter h x y = true
    · simp only [insertSorted, hle, if_true]
      exact List.Perm.refl _
    · simp only [insertSorted, hle, if_false]
      exact ((List.Perm.cons y ih).trans (List.Perm.swap x y ys))

theorem sortEvents_perm (h : Host) (l : List Obj) : (sortEvents h l).Perm l := by
  induction l with
  | nil => exact List.Perm.refl _
  | cons x xs ih =>
    simp only [sortEvents]
    exact (insertSorted_perm h x _).trans (List.Perm.cons x ih)

theorem arrayOrEmpty_none : arrayOrEmpty none = [] := rfl

theorem notAfter_valid (h : Host) (a b : Obj) (x y : Int)
    (ha : tsMs h a = some x) (hb : tsMs h b = some y) :
    notAfter h a b = decide (x ≤ y) := by
  simp only [tsMs] at ha hb
  simp only [notAfter, compareTs, ha, hb]
  by_cases hxy : x ≤ y
  · simp [hxy]
  · simp [hxy]

theorem tsLe_trans (h : Host) (a b c : Obj) (hab : tsLe h a b) (hbc : tsLe h b c) :
    tsLe h a c := by
  obtain ⟨x, y, hx, hy, hxy⟩ := hab
  obtain ⟨y2, z, hy2, hz, hyz⟩ := hbc
  rw [hy] at hy2
  cases hy2
  exact ⟨x, z, hx, hz, le_trans hxy hyz⟩

theorem insertSorted_sorted (h : Host) (x : Obj) (hx : (tsMs h x).isSome = true) :
    ∀ l : List Obj, (∀ e ∈ l, (tsMs h e).isSome = true) → l.Pairwise (tsLe h) →
      (insertSorted h x l).Pairwise (tsLe h) := by
  obtain ⟨vx, hvx⟩ := Option.isSome_iff_exists.mp hx
  intro l
  induction l with
  | nil =>
    intro _ _
    exact List.pairwise_singleton _ _
  | cons y ys ih =>
    intro hval hs
    obtain ⟨vy, hvy⟩ := Option.isSome_iff_exists.mp (hval y (List.mem_cons_self _ _))
    have hcons := List.pairwise_cons.mp hs
    have hna := notAfter_valid h x y vx vy hvx hvy
    by_cases hle : vx ≤ vy
    · have hxy : tsLe h x y := ⟨vx, vy, hvx, hvy, hle⟩
      simp only [insertSorted, hna, hle, decide_True, if_true]
      refine List.Pairwise.cons ?_ hs
      intro b hb
      rcases List.mem_cons.mp hb with rfl | hb
      · exact hxy
      · exact tsLe_trans h x y b hxy (hcons.1 b hb)
    · have hyx : tsLe h y x := ⟨vy, vx, hvy, hvx, by omega⟩
      simp only [insertSorted, hna, hle, decide_False, if_false]
      refine List.Pairwise.cons ?_
        (ih (fun e he => hval e (List.mem_cons_of_mem _ he)) hcons.2)
      intro b hb
      rcases List.mem_cons.mp ((insertSorted_perm h x ys).subset hb) with rfl | hb
      · exact hyx
      · exact hcons.1 b hb

theorem sortEvents_sorted (h : Host) :
    ∀ l : List Obj, (∀ e ∈ l, (tsMs h e).isSome = true) →
      (sortEvents h l).Pairwise (tsLe h) := by
  intro l
  induction l with
  | nil =>
    intro _
    exact List.Pairwise.nil
  | cons x xs ih =>
    intro hval
    simp only [sortEvents]
    refine insertSorted_sorted h x (hval x (List.mem_cons_self _ _)) _ ?_
      (ih (fun e he => hval e (List.mem_cons_of_mem _ he)))
    intro e he
    exact hval e (List.mem_cons_of_mem _ ((sortEvents_perm h xs).subset he))

theorem insertSorted_stable (h : Host) (t : Int) (x : Obj) (hx : (tsMs h x).isSome = true) :
    ∀ l : List Obj, (∀ e ∈ l, (tsMs h e).isSome = true) →
      (insertSorted h x l).filter (fun e => decide (tsMs h e = some t)) =
        (x :: l).filter (fun e => decide (tsMs h e = some t)) := by
  obtain ⟨vx, hvx⟩ := Option.isSome_iff_exists.mp hx
  intro l
  induction l with
  | nil => intro _; rfl
  | cons y ys ih =>
    intro hval
    obtain ⟨vy, hvy⟩ := Option.isSome_iff_exists.mp (hval y (List.mem_cons_self _ _))
    have hna := notAfter_valid h x y vx vy hvx hvy
    have ih2 := ih (fun e he => hval e (List.mem_cons_of_mem _ he))
    by_cases hle : vx ≤ vy
    · simp only [insertSorted, hna, hle, decide_True, if_true]
    · have hins : insertSorted h x (y :: ys) = y :: insertSorted h x ys := by
        simp [insertSorted, hna, hle]
      rw [hins, List.filter_cons, ih2]
      by_cases hyt : vy = t
      · have hxt : ¬ vx = t := by omega
        simp [List.filter_cons, hvx, hvy, hyt, hxt]
      · simp [List.filter_cons, hvx, hvy, hyt]

theorem sortEvents_stable (h : Host) (t : Int) :
    ∀ l : List Obj, (∀ e ∈ l, (tsMs h e).isSome = true) →
      (sortEvents h l).filter (fun e => decide (tsMs h e = some t)) =
        l.filter (fun e => decide (tsMs h e = some t)) := by
  intro l
  induction l with
  | nil => intro _; rfl
  | cons x xs ih =>
    intro hval
    simp only [sortEvents]
    rw [insertSorted_stable h t x (hval x (List.mem_cons_self _ _))]
    · rw [List.filter_cons, List.filter_cons,
        ih (fun e he => hval e (List.mem_cons_of_mem _ he))]
    · intro e he
      exact hval e (List.mem_cons_of_mem _ ((sortEvents_perm h xs).subset he))

theorem fillItem_ts_valid (h : Host) (item : Obj) (n : Nat) (hv : ValidTs h item) :
    (tsMs h (fillItem h "ts" item n).1).isSome = true := by
  simp only [tsMs, fillItem]
  rw [get_set_same]
  unfold ValidTs at hv
  by_cases hts : (item.get "ts").truthy = true
  · simp only [hts, if_true] at hv ⊢
    exact hv
  · simp only [hts, if_false] at hv ⊢
    exact hv _

theorem fillItems_ts_valid (h : Host) :
    ∀ (xs : List (Option Obj)) (n : Nat) (out : List Obj) (m : Nat),
      (∀ item, some item ∈ xs → ValidTs h item) →
      fillItems h "ts" xs n = some (out, m) → ∀ e ∈ out, (tsMs h e).isSome = true := by
  intro xs
  induction xs with
  | nil =>
    intro n out m _ hf e he
    simp only [fillItems, Option.some.injEq, Prod.mk.injEq] at hf
    rw [← hf.1] at he
    simp at he
  | cons x rest ih =>
    intro n out m hv hf e he
    cases x with
    | none => simp [fillItems] at hf
    | some item =>
      simp only [fillItems] at hf
      cases hr : fillItems h "ts" rest (fillItem h "ts" item n).2 with
      | none => simp [hr] at hf
      | some p =>
        obtain ⟨out2, m2⟩ := p
        simp only [hr, Option.some.injEq, Prod.mk.injEq] at hf
        rw [← hf.1] at he
        rcases List.mem_cons.mp he with rfl | he
        · exact fillItem_ts_valid h item n (hv item (List.mem_cons_self _ _))
        · exact ih _ out2 m2 (fun it hit => hv it (List.mem_cons_of_mem _ hit)) hr e he

theorem fillItems_some_no_null (h : Host) (tsKey : String) :
    ∀ (xs : List (Option Obj)) (n : Nat) (r : List Obj × Nat),
      fillItems h tsKey xs n = some r → ∀ x ∈ xs, x ≠ none := by
  intro xs
  induction xs with
  | nil =>
    intro n r _ x hx
    simp at hx
  | cons y rest ih =>
    intro n r hf x hx
    cases y with
    | none => simp [fillItems] at hf
    | some item =>
      simp only [fillItems] at hf
      cases hr : fillItems h tsKey rest (fillItem h tsKey item n).2 with
      | none => simp [hr] at hf
      | some p =>
        rcases List.mem_cons.mp hx with rfl | hx
        · simp
        · exact ih _ p hr x hx

theorem fillItems_some_spec (h : Host) (tsKey : String) (hk : tsKey ≠ "id")
    (xs : List (Option Obj)) (n : Nat) (out : List Obj) (m : Nat)
    (hf : fillItems h tsKey xs n = some (out, m)) :
    out.length = xs.length ∧
      ∀ k item, xs.get? k = some (some item) →
        ∃ o, out.get? k = some o ∧ FilledFrom h tsKey item o := by
  obtain ⟨out2, m2, hf2, hlen, hget⟩ :=
    fillItems_total h tsKey hk xs n (fillItems_some_no_null h tsKey xs n _ hf)
  rw [hf] at hf2
  simp only [Option.some.injEq, Prod.mk.injEq] at hf2
  rw [hf2.1]
  exact ⟨hlen, hget⟩

theorem processImportedDataStructure_some (h : Host) (n : Nat) (b : Bundle) (out : State)
    (hout : processImportedDataStructure h n b = some out) :
    ∃ ev n1 tp n2 tk n3,
      fillItems h "ts" (arrayOrEmpty b.events) n = some (ev, n1) ∧
      fillItems h "createdAt" (arrayOrEmpty b.topics) n1 = some (tp, n2) ∧
      fillItems h "createdAt" (arrayOrEmpty b.tasks) n2 = some (tk, n3) ∧
      out = { events := sortEvents h ev, topics := tp, tasks := tk } := by
  unfold processImportedDataStructure at hout
  cases hev : fillItems h "ts" (arrayOrEmpty b.events) n with
  | none => simp [hev] at hout
  | some p1 =>
    obtain ⟨ev, n1⟩ := p1
    simp only [hev] at hout
    cases htp : fillItems h "createdAt" (arrayOrEmpty b.topics) n1 with
    | none => simp [htp] at hout
    | some p2 =>
      obtain ⟨tp, n2⟩ := p2
      simp only [htp] at hout
      cases htk : fillItems h "createdAt" (arrayOrEmpty b.tasks) n2 with
      | none => simp [htk] at hout
      | some p3 =>
        obtain ⟨tk, n3⟩ := p3
        simp only [htk, Option.some.injEq] at hout
        exact ⟨ev, n1, tp, n2, tk, n3, rfl, htp, htk, hout.symm⟩

theorem processImportedDataStructure_returns_iff (h : Host) (n : Nat) (b : Bundle) :
    (∃ out, processImportedDataStructure h n b = some out) ↔ NoNull b := by
  constructor
  · rintro ⟨out, hout⟩
    obtain ⟨ev, n1, tp, n2, tk, n3, hev, htp, htk, -⟩ :=
      processImportedDataStructure_some h n b out hout
    exact ⟨fillItems_some_no_null h _ _ _ _ hev, fillItems_some_no_null h _ _ _ _ htp,
      fillItems_some_no_null h _ _ _ _ htk⟩
  · rintro ⟨he, ht, hk⟩
    obtain ⟨ev, n1, hev, -, -⟩ := fillItems_total h "ts" (by decide) _ n he
    obtain ⟨tp, n2, htp, -, -⟩ := fillItems_total h "createdAt" (by decide) _ n1 ht
    obtain ⟨tk, n3, htk, -, -⟩ := fillItems_total h "createdAt" (by decide) _ n2 hk
    exact ⟨{ events := sortEvents h ev, topics := tp, tasks := tk }, by
      simp only [processImportedDataStructure, hev, htp, htk]⟩

theorem processImportData_eq (h : Host) (n : Nat) (b : Bundle) :
    processImportData h n b = processImportedDataStructure h n b := rfl

/-! ## Import normalisation: the claims -/

/-- C9, the claim as stated fails: with two events in descending timestamp order
the returned events are in the other order, so the returned item at index 0 is
not the input item at index 0, in its `id` as in its `ts`. -/
theorem processImportedDataStructure_not_positionwise :
    (processImportedDataStructure demoHost 0 unsortedBundle).map (fun s => s.events) =
      some [mkEvent "b" "1970-01-01T00:00:00.001Z", mkEvent "a" "1970-01-01T00:00:00.002Z"] ∧
    (arrayOrEmpty unsortedBundle.events).get? 0 =
      some (some (mkEvent "a" "1970-01-01T00:00:00.002Z")) ∧
    (processImportedDataStructure demoHost 0 unsortedBundle).map
        (fun s => (s.events.get? 0).map (fun e => e.get "id")) ≠
      some (some ((mkEvent "a" "1970-01-01T00:00:00.002Z").get "id")) := by
  decide

/-- C9, amended. `processImportedDataStructure` (and `processImportData` of the
server, which is the same function) returns exactly when no array element is
`null`.  In the state it returns, a collection whose field is absent or not an
array is empty; topics and tasks have the length of the input and their k-th
item is the k-th input item with every field other than `id` and `createdAt`
the same, a truthy `id` / `createdAt` kept and an absent or falsy one replaced
by a generated id / the current instant; the events are a permutation (the
timestamp sort) of a sequence `filled` that relates in this way, with `ts`, to
the input events. -/
theorem processImportedDataStructure_fills (h : Host) (n : Nat) (b : Bundle) :
    ((∃ out, processImportedDataStructure h n b = some out) ↔ NoNull b) ∧
    processImportData h n b = processImportedDataStructure h n b ∧
    ∀ out, processImportedDataStructure h n b = some out →
      ∃ filled,
        (b.events = none → out.events = []) ∧
        (b.topics = none → out.topics = []) ∧
        (b.tasks = none → out.tasks = []) ∧
        out.topics.length = (arrayOrEmpty b.topics).length ∧
        (∀ k item, (arrayOrEmpty b.topics).get? k = some (some item) →
          ∃ o, out.topics.get? k = some o ∧ FilledFrom h "createdAt" item o) ∧
        out.tasks.length = (arrayOrEmpty b.tasks).length ∧
        (∀ k item, (arrayOrEmpty b.tasks).get? k = some (some item) →
          ∃ o, out.tasks.get? k = some o ∧ FilledFrom h "createdAt" item o) ∧
        filled.length = (arrayOrEmpty b.events).length ∧
        (∀ k item, (arrayOrEmpty b.events).get? k = some (some item) →
          ∃ o, filled.get? k = some o ∧ FilledFrom h "ts" item o) ∧
        out.events = sortEvents h filled ∧
        out.events.Perm filled ∧
        out.events.length = (arrayOrEmpty b.events).length := by
  refine ⟨processImportedDataStructure_returns_iff h n b, rfl, ?_⟩
  intro out hout
  obtain ⟨ev, n1, tp, n2, tk, n3, hev, htp, htk, rfl⟩ :=
    processImportedDataStructure_some h n b out hout
  obtain ⟨hevlen, hevget⟩ := fillItems_some_spec h "ts" (by decide) _ _ _ _ hev
  obtain ⟨htplen, htpget⟩ := fillItems_some_spec h "createdAt" (by decide) _ _ _ _ htp
  obtain ⟨htklen, htkget⟩ := fillItems_some_spec h "createdAt" (by decide) _ _ _ _ htk
  refine ⟨ev, ?_, ?_, ?_, htplen, htpget, htklen, htkget, hevlen, hevget, rfl,
    sortEvents_perm h ev, ?_⟩
  · intro hnone
    rw [hnone, arrayOrEmpty_none] at hevlen
    simp only [List.length_nil, List.length_eq_zero] at hevlen
    simp [hevlen, sortEvents]
  · intro hnone
    rw [hnone, arrayOrEmpty_none] at htplen
    simpa using htplen
  · intro hnone
    rw [hnone, arrayOrEmpty_none] at htklen
    simpa using htklen
  · simp only
    rw [(sortEvents_perm h ev).length_eq, hevlen]

/-- C9 amended, at a bundle with an extra field, a missing id, a missing
`createdAt` and a topics field that is not an array. -/
theorem processImportedDataStructure_fills_witness :
    processImportedDataStructure demoHost 0 sampleBundle = some sampleResult ∧
    ∃ filled,
      (sampleBundle.events = none → sampleResult.events = []) ∧
      (sampleBundle.topics = none → sampleResult.topics = []) ∧
      (sampleBundle.tasks = none → sampleResult.tasks = []) ∧
      sampleResult.topics.length = (arrayOrEmpty sampleBundle.topics).length ∧
      (∀ k item, (arrayOrEmpty sampleBundle.topics).get? k = some (some item) →
        ∃ o, sampleResult.topics.get? k = some o ∧ FilledFrom demoHost "createdAt" item o) ∧
      sampleResult.tasks.length = (arrayOrEmpty sampleBundle.tasks).length ∧
      (∀ k item, (arrayOrEmpty sampleBundle.tasks).get? k = some (some item) →
        ∃ o, sampleResult.tasks.get? k = some o ∧ FilledFrom demoHost "createdAt" item o) ∧
      filled.length = (arrayOrEmpty sampleBundle.events).length ∧
      (∀ k item, (arrayOrEmpty sampleBundle.events).get? k = some (some item) →
        ∃ o, filled.get? k = some o ∧ FilledFrom demoHost "ts" item o) ∧
      sampleResult.events = sortEvents demoHost filled ∧
      sampleResult.events.Perm filled ∧
      sampleResult.events.length = (arrayOrEmpty sampleBundle.events).length :=
  ⟨by decide,
   (processImportedDataStructure_fills demoHost 0 sampleBundle).2.2 sampleResult (by decide)⟩

/-- C10. For every bundle whose events all carry a valid timestamp (once
filled), `processImportedDataStructure` returns whenever no array element is
`null`, and the events it returns are a permutation of the id/ts-filled input
events `filled`, in non-decreasing timestamp order, the events of each timestamp
value keeping their input order; topics and tasks are in input order, their k-th
item being the filled k-th input item. -/
theorem processImportedDataStructure_sorts (h : Host) (n : Nat) (b : Bundle)
    (hvalid : ∀ item, some item ∈ arrayOrEmpty b.events → ValidTs h item) :
    (NoNull b → ∃ out, processImportedDataStructure h n b = some out) ∧
    ∀ out, processImportedDataStructure h n b = some out →
      ∃ filled m, fillItems h "ts" (arrayOrEmpty b.events) n = some (filled, m) ∧
        (∀ k item, (arrayOrEmpty b.events).get? k = some (some item) →
          ∃ o, filled.get? k = some o ∧ FilledFrom h "ts" item o) ∧
        out.events.Perm filled ∧
        out.events.Pairwise (tsLe h) ∧
        (∀ t : Int, out.events.filter (fun e => decide (tsMs h e = some t)) =
          filled.filter (fun e => decide (tsMs h e = some t))) ∧
        (∀ k item, (arrayOrEmpty b.topics).get? k = some (some item) →
          ∃ o, out.topics.get? k = some o ∧ FilledFrom h "createdAt" item o) ∧
        (∀ k item, (arrayOrEmpty b.tasks).get? k = some (some item) →
          ∃ o, out.tasks.get? k = some o ∧ FilledFrom h "createdAt" item o) := by
  refine ⟨(processImportedDataStructure_returns_iff h n b).mpr, ?_⟩
  intro out hout
  obtain ⟨ev, n1, tp, n2, tk, n3, hev, htp, htk, rfl⟩ :=
    processImportedDataStructure_some h n b out hout
  have hval := fillItems_ts_valid h _ n ev n1 hvalid hev
  exact ⟨ev, n1, hev, (fillItems_some_spec h "ts" (by decide) _ _ _ _ hev).2,
    sortEvents_perm h ev, sortEvents_sorted h ev hval,
    fun t => sortEvents_stable h t ev hval,
    (fillItems_some_spec h "createdAt" (by decide) _ _ _ _ htp).2,
    (fillItems_some_spec h "createdAt" (by decide) _ _ _ _ htk).2⟩

/-- C10, at a bundle of three events: the two events of the earlier timestamp
come first, in their input order, and the later one last. -/
theorem processImportedDataStructure_sorts_witness :
    (∀ item, some item ∈ arrayOrEmpty sampleBundle.events → ValidTs demoHost item) ∧
    processImportedDataStructure demoHost 0 sampleBundle = some sampleResult ∧
    ∃ filled m, fillItems demoHost "ts" (arrayOrEmpty sampleBundle.events) 0 =
        some (filled, m) ∧
      (∀ k item, (arrayOrEmpty sampleBundle.events).get? k = some (some item) →
        ∃ o, filled.get? k = some o ∧ FilledFrom demoHost "ts" item o) ∧
      sampleResult.events.Perm filled ∧
      sampleResult.events.Pairwise (tsLe demoHost) ∧
      (∀ t : Int, sampleResult.events.filter (fun e => decide (tsMs demoHost e = some t)) =
        filled.filter (fun e => decide (tsMs demoHost e = some t))) ∧
      (∀ k item, (arrayOrEmpty sampleBundle.topics).get? k = some (some item) →
        ∃ o, sampleResult.topics.get? k = some o ∧ FilledFrom demoHost "createdAt" item o) ∧
      (∀ k item, (arrayOrEmpty sampleBundle.tasks).get? k = some (some item) →
        ∃ o, sampleResult.tasks.get? k = some o ∧ FilledFrom demoHost "createdAt" item o) :=
  have hv : ∀ item, some item ∈ arrayOrEmpty sampleBundle.events → ValidTs demoHost item := by
    intro item hmem
    simp only [sampleBundle, arrayOrEmpty, List.mem_cons, Option.some.injEq,
      List.mem_nil_iff, or_false] at hmem
    rcases hmem with rfl | rfl | rfl <;>
      · unfold ValidTs
        rw [if_pos (by decide)]
        decide
  ⟨hv, by decide,
   (processImportedDataStructure_sorts demoHost 0 sampleBundle hv).2 sampleResult (by decide)⟩

/-! ## JSON round trip: lemmas -/

theorem get_jsonOfObjFrom (o : Obj) (k : String) :
    ∀ seen : List String,
      (jsonOfObjFrom seen o).get k = if k ∈ seen then JVal.undefined else o.get k := by
  induction o with
  | nil => intro seen; simp [jsonOfObjFrom, Obj.get]
  | cons kv rest ih =>
    intro seen
    obtain ⟨k1, v⟩ := kv
    by_cases hseen : k1 ∈ seen
    · simp only [jsonOfObjFrom, hseen, if_true, ih seen]
      by_cases hk : k ∈ seen
      · simp [hk]
      · have hne : k1 ≠ k := fun hx => hk (hx ▸ hseen)
        simp [hk, Obj.get, hne]
    · by_cases hv : v = JVal.undefined
      · subst hv
        simp only [jsonOfObjFrom, hseen, if_false, if_true, ih (k1 :: seen)]
        by_cases hk1 : k1 = k
        · subst hk1
          simp [hseen, Obj.get]
        · have hk1b : ¬ k = k1 := fun hx => hk1 hx.symm
          simp [List.mem_cons, hk1b, Obj.get, hk1]
      · simp only [jsonOfObjFrom, hseen, hv, if_false]
        by_cases hk1 : k1 = k
        · subst hk1
          simp [hseen, Obj.get]
        · have hk1b : ¬ k = k1 := fun hx => hk1 hx.symm
          simp only [Obj.get, hk1, if_false, ih (k1 :: seen), List.mem_cons, hk1b, false_or]

theorem get_jsonOfObj (o : Obj) (k : String) : (jsonOfObj o).get k = o.get k := by
  simp [jsonOfObj, get_jsonOfObjFrom]

theorem jsonOfObjFrom_clean (o : Obj) :
    ∀ seen : List String, JsonClean o → (∀ kv ∈ o, kv.1 ∉ seen) → jsonOfObjFrom seen o = o := by
  induction o with
  | nil => intro seen _ _; rfl
  | cons kv rest ih =>
    intro seen hc hdis
    obtain ⟨k1, v⟩ := kv
    obtain ⟨hnd, hnu⟩ := hc
    simp only [List.map_cons, List.nodup_cons] at hnd
    have hseen : k1 ∉ seen := hdis (k1, v) (List.mem_cons_self _ _)
    have hv : v ≠ JVal.undefined := hnu (k1, v) (List.mem_cons_self _ _)
    simp only [jsonOfObjFrom, hseen, hv, if_false]
    congr 1
    apply ih (k1 :: seen) ⟨hnd.2, fun kv hkv => hnu kv (List.mem_cons_of_mem _ hkv)⟩
    intro kv hkv hmem
    rcases List.mem_cons.mp hmem with heq | hmem
    · exact hnd.1 (List.mem_map.mpr ⟨kv, hkv, heq⟩)
    · exact hdis kv (List.mem_cons_of_mem _ hkv) hmem

theorem jsonOfObj_clean (o : Obj) (hc : JsonClean o) : jsonOfObj o = o :=
  jsonOfObjFrom_clean o [] hc (fun _ _ => List.not_mem_nil _)

theorem filledFrom_of_json (h : Host) (tsKey : String) (item o : Obj)
    (hf : FilledFrom h tsKey (jsonOfObj item) o) : FilledFrom h tsKey item o := by
  unfold FilledFrom at hf ⊢
  simp only [get_jsonOfObj] at hf
  exact hf

theorem validTs_json (h : Host) (item : Obj) (hv : ValidTs h item) :
    ValidTs h (jsonOfObj item) := by
  unfold ValidTs at hv ⊢
  simp only [get_jsonOfObj]
  exact hv

theorem fillItem_of_hasIdAnd (h : Host) (tsKey : String) (item : Obj) (n : Nat)
    (hi : HasIdAnd tsKey item) : fillItem h tsKey item n = (item, n) := by
  obtain ⟨hid, hts⟩ := hi
  have h1 : item.get "id" ≠ JVal.undefined := by
    intro hx
    rw [hx] at hid
    simp [JVal.truthy] at hid
  have h2 : item.get tsKey ≠ JVal.undefined := by
    intro hx
    rw [hx] at hts
    simp [JVal.truthy] at hts
  simp only [fillItem, hid, hts, if_true]
  rw [set_get_self item "id" _ rfl h1, set_get_self item tsKey _ rfl h2]

theorem fillItems_of_hasIdAnd (h : Host) (tsKey : String) :
    ∀ (xs : List Obj) (n : Nat), (∀ x ∈ xs, HasIdAnd tsKey x) →
      fillItems h tsKey (xs.map some) n = some (xs, n) := by
  intro xs
  induction xs with
  | nil => intro n _; rfl
  | cons x rest ih =>
    intro n hall
    simp only [List.map_cons, fillItems,
      fillItem_of_hasIdAnd h tsKey x n (hall x (List.mem_cons_self _ _)),
      ih n (fun y hy => hall y (List.mem_cons_of_mem _ hy))]

theorem sortEvents_of_sorted (h : Host) :
    ∀ l : List Obj, l.Pairwise (tsLe h) → sortEvents h l = l := by
  intro l
  induction l with
  | nil => intro _; rfl
  | cons x xs ih =>
    intro hs
    have hcons := List.pairwise_cons.mp hs
    simp only [sortEvents, ih hcons.2]
    cases xs with
    | nil => rfl
    | cons y ys =>
      obtain ⟨vx, vy, hvx, hvy, hle⟩ := hcons.1 y (List.mem_cons_self _ _)
      simp [insertSorted, notAfter_valid h x y vx vy hvx hvy, hle]

theorem map_json_of_clean (xs : List Obj) (hc : ∀ x ∈ xs, JsonClean x) :
    xs.map jsonOfObj = xs := by
  induction xs with
  | nil => rfl
  | cons x rest ih =>
    simp only [List.map_cons, jsonOfObj_clean x (hc x (List.mem_cons_self _ _)),
      ih (fun y hy => hc y (List.mem_cons_of_mem _ hy))]

theorem fillItems_json_spec (h : Host) (tsKey : String) (hk : tsKey ≠ "id")
    (xs : List Obj) (n : Nat) :
    ∃ out m, fillItems h tsKey ((xs.map jsonOfObj).map some) n = some (out, m) ∧
      out.length = xs.length ∧
      ∀ k item, xs.get? k = some item →
        ∃ o, out.get? k = some o ∧ FilledFrom h tsKey item o := by
  obtain ⟨out, m, hf, hlen, hget⟩ :=
    fillItems_total h tsKey hk ((xs.map jsonOfObj).map some) n (by
      intro x hx
      simp only [List.mem_map] at hx
      obtain ⟨a, _, rfl⟩ := hx
      simp)
  refine ⟨out, m, hf, by simpa using hlen, ?_⟩
  intro k item hk2
  have hk3 : xs[k]? = some item := by simpa [List.get?_eq_getElem?] using hk2
  have : ((xs.map jsonOfObj).map some).get? k = some (some (jsonOfObj item)) := by
    simp [List.get?_eq_getElem?, List.getElem?_map, hk3]
  obtain ⟨o, ho, hfill⟩ := hget k (jsonOfObj item) this
  exact ⟨o, ho, filledFrom_of_json h tsKey item o hfill⟩

/-! ## Export and re-import: the claim -/

/-- C11. Export / import round trip.  Normalising the parsed JSON text of a
state always returns.  Topics and tasks come back as sequences of the same
length whose k-th item is the k-th original item, the only differences being a
generated id / current instant where `id` / `createdAt` was absent or falsy.
The events come back as a permutation (the timestamp sort) of the sequence
`filled` that relates in the same way, with `ts`, to the original events; they
are in non-decreasing timestamp order when every timestamp is valid.  When every
item has an id and a timestamp, is JSON-clean, and the events are already in
non-decreasing timestamp order, the result is the original state. -/
theorem export_import_round_trip (h : Host) (n : Nat) (st : State) :
    ∃ out filled,
      processImportedDataStructure h n (bundleOfDoc (jsonOfState st)) = some out ∧
      out.topics.length = st.topics.length ∧
      (∀ k item, st.topics.get? k = some item →
        ∃ o, out.topics.get? k = some o ∧ FilledFrom h "createdAt" item o) ∧
      out.tasks.length = st.tasks.length ∧
      (∀ k item, st.tasks.get? k = some item →
        ∃ o, out.tasks.get? k = some o ∧ FilledFrom h "createdAt" item o) ∧
      filled.length = st.events.length ∧
      (∀ k item, st.events.get? k = some item →
        ∃ o, filled.get? k = some o ∧ FilledFrom h "ts" item o) ∧
      out.events = sortEvents h filled ∧
      out.events.Perm filled ∧
      ((∀ e ∈ st.events, ValidTs h e) → out.events.Pairwise (tsLe h)) ∧
      ((∀ e ∈ st.events, HasIdAnd "ts" e ∧ JsonClean e) →
       (∀ t ∈ st.topics, HasIdAnd "createdAt" t ∧ JsonClean t) →
       (∀ t ∈ st.tasks, HasIdAnd "createdAt" t ∧ JsonClean t) →
       st.events.Pairwise (tsLe h) → out = st) := by
  obtain ⟨ev, n1, hev, hevlen, hevget⟩ := fillItems_json_spec h "ts" (by decide) st.events n
  obtain ⟨tp, n2, htp, htplen, htpget⟩ :=
    fillItems_json_spec h "createdAt" (by decide) st.topics n1
  obtain ⟨tk, n3, htk, htklen, htkget⟩ :=
    fillItems_json_spec h "createdAt" (by decide) st.tasks n2
  have hproc : processImportedDataStructure h n (bundleOfDoc (jsonOfState st)) =
      some { events := sortEvents h ev, topics := tp, tasks := tk } := by
    simp only [processImportedDataStructure, bundleOfDoc, jsonOfState, Option.map_some',
      arrayOrEmpty, hev, htp, htk]
  refine ⟨{ events := sortEvents h ev, topics := tp, tasks := tk }, ev, hproc, htplen, htpget,
    htklen, htkget, hevlen, hevget, rfl, sortEvents_perm h ev, ?_, ?_⟩
  · intro hvalid
    refine sortEvents_sorted h ev (fillItems_ts_valid h _ n ev n1 ?_ hev)
    intro item hmem
    simp only [List.mem_map] at hmem
    obtain ⟨a, ⟨b, hb, rfl⟩, ha⟩ := hmem
    cases ha
    exact validTs_json h b (hvalid b hb)
  · intro he ht hk hsorted
    have hev2 : st.events.map jsonOfObj = st.events :=
      map_json_of_clean _ (fun x hx => (he x hx).2)
    have htp2 : st.topics.map jsonOfObj = st.topics :=
      map_json_of_clean _ (fun x hx => (ht x hx).2)
    have htk2 : st.tasks.map jsonOfObj = st.tasks :=
      map_json_of_clean _ (fun x hx => (hk x hx).2)
    rw [hev2, fillItems_of_hasIdAnd h "ts" _ n (fun x hx => (he x hx).1)] at hev
    simp only [Option.some.injEq, Prod.mk.injEq] at hev
    obtain ⟨rfl, rfl⟩ := hev
    rw [htp2, fillItems_of_hasIdAnd h "createdAt" _ _ (fun x hx => (ht x hx).1)] at htp
    simp only [Option.some.injEq, Prod.mk.injEq] at htp
    obtain ⟨rfl, rfl⟩ := htp
    rw [htk2, fillItems_of_hasIdAnd h "createdAt" _ _ (fun x hx => (hk x hx).1)] at htk
    simp only [Option.some.injEq, Prod.mk.injEq] at htk
    obtain ⟨rfl, rfl⟩ := htk
    rw [sortEvents_of_sorted h _ hsorted]

/-- C11, at a state whose items all have an id and a timestamp and whose events
are in ascending order: the round trip gives the state back. -/
theorem export_import_round_trip_witness :
    processImportedDataStructure demoHost 0 (bundleOfDoc (jsonOfState canonicalState)) =
      some canonicalState := by
  obtain ⟨out, filled, hproc, -, -, -, -, -, -, -, -, -, heq⟩ :=
    export_import_round_trip demoHost 0 canonicalState
  rw [hproc]
  congr 1
  apply heq
  · intro e he
    simp only [canonicalState, List.mem_cons, List.mem_nil_iff, or_false] at he
    rcases he with rfl | rfl <;> exact ⟨by decide, by decide⟩
  · intro e he
    simp only [canonicalState, List.mem_cons, List.mem_nil_iff, or_false] at he
    subst he
    exact ⟨by decide, by decide⟩
  · intro e he
    simp only [canonicalState, List.mem_cons, List.mem_nil_iff, or_false] at he
    subst he
    exact ⟨by decide, by decide⟩
  · refine List.Pairwise.cons ?_ (List.pairwise_singleton _ _)
    intro b hb
    simp only [List.mem_singleton] at hb
    subst hb
    exact ⟨1, 2, by decide, by decide, by decide⟩

/-! ## The persistence gateway: the claims -/

theorem stateOfDoc_jsonOfState (s : State)
    (he : ∀ x ∈ s.events, JsonClean x) (ht : ∀ x ∈ s.topics, JsonClean x)
    (hk : ∀ x ∈ s.tasks, JsonClean x) : stateOfDoc (jsonOfState s) = s := by
  simp only [stateOfDoc, jsonOfState, Option.getD_some, map_json_of_clean _ he,
    map_json_of_clean _ ht, map_json_of_clean _ hk]

/-- C12. `saveData` fails exactly when the local mirror write fails.  When that
write throws, `saveData` rejects and both stores are as before: no remote write
was attempted.  When it succeeds, `saveData` resolves with the mirror holding
the serialised state, whatever the flag and whatever the outcome of the remote
write; the remote write is attempted when the cached flag is true and not
attempted when it is false. -/
theorem saveData_fails_iff_local_write_fails (hasLocalServer : Bool) (st : State)
    (sto : Store) (localWriteOk remoteOk : Bool) :
    ((saveData hasLocalServer st sto localWriteOk remoteOk).2 = SaveResult.rejected ↔
      localWriteOk = false) ∧
    saveData hasLocalServer st sto false remoteOk = (sto, SaveResult.rejected) ∧
    (saveData hasLocalServer st sto true remoteOk).2 = SaveResult.resolved ∧
    (saveData hasLocalServer st sto true remoteOk).1.mirror =
      MirrorContent.doc (jsonOfState st) ∧
    (saveData true st sto true remoteOk).1.posted = sto.posted ++ [jsonOfState st] ∧
    (saveData false st sto true remoteOk).1.posted = sto.posted := by
  cases hasLocalServer <;> cases localWriteOk <;> cases remoteOk <;> simp [saveData]

/-- C13, the claim as stated fails: with the remote flagged reachable and
returning a document with a task list, `loadData` adopts the remote
collections, but the local mirror still holds its older document, which is not
the serialised adopted state, and nothing was written to either store. -/
theorem loadData_leaves_mirror_stale :
    (loadData true emptyState staleStore (.data (some remoteDoc)) true true).1 =
      { events := [], topics := [], tasks := [mkItem "new" true] } ∧
    (loadData true emptyState staleStore (.data (some remoteDoc)) true true).2.mirror =
      staleStore.mirror ∧
    (loadData true emptyState staleStore (.data (some remoteDoc)) true true).2.mirror ≠
      MirrorContent.doc (jsonOfState
        (loadData true emptyState staleStore (.data (some remoteDoc)) true true).1) := by
  decide

/-- C13, amended. When the remote is flagged reachable and its reply has at
least one of the three collections, `loadData` sets the in-memory state to the
remote collections, a missing collection replaced by the empty sequence, and
returns at once: the local mirror keeps the content it had and nothing is sent
to the remote; only the `GET` request is counted. -/
theorem loadData_adopts_remote (st : State) (sto : Store) (d : StoredDoc)
    (localWriteOk remoteOk : Bool)
    (hpresent : d.events.isSome = true ∨ d.topics.isSome = true ∨ d.tasks.isSome = true) :
    loadData true st sto (.data (some d)) localWriteOk remoteOk =
      ({ events := d.events.getD [], topics := d.topics.getD [], tasks := d.tasks.getD [] },
       { sto with gets := sto.gets + 1 }) := by
  have hcond : (d.events.isSome || d.topics.isSome || d.tasks.isSome) = true := by
    rcases hpresent with h1 | h1 | h1 <;> simp [h1]
  simp only [loadData, if_true, hcond, stateOfDoc]

/-- C13 amended, at the stale mirror and the remote document of the
counterexample. -/
theorem loadData_adopts_remote_witness :
    loadData true emptyState staleStore (.data (some remoteDoc)) true true =
      ({ events := remoteDoc.events.getD [], topics := remoteDoc.topics.getD [],
         tasks := remoteDoc.tasks.getD [] },
       { staleStore with gets := staleStore.gets + 1 }) :=
  loadData_adopts_remote emptyState staleStore remoteDoc true true (by decide)

/-- C14. With the remote flagged unreachable (the probe failed, timed out or
answered with an error, all of which leave the flag false): a `saveData` of a
state `s` whose local write succeeds, followed by `loadData`, leaves the
in-memory state equal to the parsed text of `s`, which is `s` itself for
JSON-clean items, and sends nothing to the remote; a `saveData` whose local
write fails rejects and changes nothing; and in general `loadData` yields the
collections of the mirror's document, a missing one replaced by the empty
sequence, keeps the state when the mirror has no usable entry, and leaves the
stores untouched. -/
theorem unreachable_load_returns_mirror (s st : State) (sto : Store) (reply : RemoteReply)
    (ro lw2 ro2 : Bool)
    (he : ∀ x ∈ s.events, JsonClean x) (ht : ∀ x ∈ s.topics, JsonClean x)
    (hk : ∀ x ∈ s.tasks, JsonClean x) :
    checkLocalServer .timedOut = false ∧ checkLocalServer .failed = false ∧
    checkLocalServer .notOk = false ∧
    (saveData false s sto true ro).2 = SaveResult.resolved ∧
    (loadData false s (saveData false s sto true ro).1 reply lw2 ro2).1 =
      stateOfDoc (jsonOfState s) ∧
    (loadData false s (saveData false s sto true ro).1 reply lw2 ro2).1 = s ∧
    (loadData false s (saveData false s sto true ro).1 reply lw2 ro2).2.posted = sto.posted ∧
    (loadData false s (saveData false s sto true ro).1 reply lw2 ro2).2.gets = sto.gets ∧
    saveData false s sto false ro = (sto, SaveResult.rejected) ∧
    loadData false st sto reply lw2 ro2 =
      (match sto.mirror with
        | .doc d =>
          { events := d.events.getD [], topics := d.topics.getD [], tasks := d.tasks.getD [] }
        | _ => st,
       sto) := by
  have hload : loadData false s (saveData false s sto true ro).1 reply lw2 ro2 =
      (stateOfDoc (jsonOfState s), (saveData false s sto true ro).1) := by
    simp [loadData, loadFromMirror, saveData]
  refine ⟨rfl, rfl, rfl, by simp [saveData], by rw [hload], ?_, ?_, ?_, by simp [saveData], ?_⟩
  · rw [hload]
    exact stateOfDoc_jsonOfState s he ht hk
  · rw [hload]
    simp [saveData]
  · rw [hload]
    simp [saveData]
  · cases hm : sto.mirror <;> simp [loadData, loadFromMirror, hm, stateOfDoc]

/-- C14, at the canonical state and a store with an older mirror. -/
theorem unreachable_load_returns_mirror_witness :
    (loadData false canonicalState (saveData false canonicalState staleStore true true).1
      RemoteReply.failed true true).1 = canonicalState ∧
    (loadData false canonicalState (saveData false canonicalState staleStore true true).1
      RemoteReply.failed true true).2.posted = staleStore.posted :=
  have h := unreachable_load_returns_mirror canonicalState emptyState staleStore
    RemoteReply.failed true true true (by decide) (by decide) (by decide)
  ⟨h.2.2.2.2.2.1, h.2.2.2.2.2.2.1⟩

/-! ## The save function: case analysis and frame lemmas -/

theorem markSaving_fields (app : App) (b : Bool) :
    (markSaving app b).hasUnsavedChanges = app.hasUnsavedChanges ∧
    (markSaving app b).originalContent = app.originalContent ∧
    (markSaving app b).editor = app.editor ∧
    (markSaving app b).timers = app.timers ∧
    (markSaving app b).autoSaveTimer = app.autoSaveTimer ∧
    (markSaving app b).mode = app.mode ∧
    (markSaving app b).currentEdit = app.currentEdit ∧
    (markSaving app b).state = app.state ∧
    (markSaving app b).store = app.store ∧
    (markSaving app b).saveCalls = app.saveCalls ∧
    (markSaving app b).messages = app.messages ∧
    (markSaving app b).hasLocalServer = app.hasLocalServer ∧
    (markSaving app b).tick = app.tick := by
  cases b <;> simp [markSaving]

theorem performSaveBegin_cases (h : Host) (app : App) (b lw : Bool) :
    (app.isAutoSaving = true ∧ performSaveBegin h app b lw = (app, .done .guarded)) ∨
    (app.isAutoSaving = false ∧ app.mode = "edit" ∧ app.currentEdit.isSome = true ∧
      h.trim app.editor.title = "" ∧ h.trim app.editor.body = "" ∧
      performSaveBegin h app b lw = performSaveEmpty (markSaving app b) b) ∨
    (app.isAutoSaving = false ∧ ∃ ce msg,
      app.mode = "edit" ∧ app.currentEdit = some ce ∧
      saveEditContent h app.state ce (h.trim app.editor.title) (h.trim app.editor.body)
        (if app.editor.topic = "" then .null else .str app.editor.topic) b = .error msg ∧
      performSaveBegin h app b lw = performSaveCatch (markSaving app b) b msg) ∨
    (app.isAutoSaving = false ∧ ∃ msg,
      (app.mode = "edit" → app.currentEdit = none) ∧
      saveNewContent h app.tick app.mode app.state (h.trim app.editor.title)
        (h.trim app.editor.body)
        (if app.editor.topic = "" then .null else .str app.editor.topic) = .error msg ∧
      performSaveBegin h app b lw = performSaveCatch (markSaving app b) b msg) ∨
    (app.isAutoSaving = false ∧ ∃ ce st1,
      app.mode = "edit" ∧ app.currentEdit = some ce ∧
      ¬ (h.trim app.editor.title = "" ∧ h.trim app.editor.body = "") ∧
      saveEditContent h app.state ce (h.trim app.editor.title) (h.trim app.editor.body)
        (if app.editor.topic = "" then .null else .str app.editor.topic) b = .ok st1 ∧
      performSaveBegin h app b lw =
        performSaveStore { markSaving app b with state := st1 } b lw) ∨
    (app.isAutoSaving = false ∧ ∃ st1,
      (app.mode = "edit" → app.currentEdit = none) ∧
      saveNewContent h app.tick app.mode app.state (h.trim app.editor.title)
        (h.trim app.editor.body)
        (if app.editor.topic = "" then .null else .str app.editor.topic) = .ok st1 ∧
      performSaveBegin h app b lw =
        performSaveStore { markSaving app b with state := st1, tick := app.tick + 1 } b lw) := by
  obtain ⟨-, -, -, -, -, hmode, hce, hst, -, -, -, -, htick⟩ := markSaving_fields app b
  by_cases hg : app.isAutoSaving = true
  · left
    exact ⟨hg, by simp [performSaveBegin, hg]⟩
  · right
    simp only [Bool.not_eq_true] at hg
    by_cases hedit : app.mode = "edit"
    · cases hcur : app.currentEdit with
      | none =>
        right; right
        cases hnew : saveNewContent h app.tick app.mode app.state (h.trim app.editor.title)
            (h.trim app.editor.body)
            (if app.editor.topic = "" then .null else .str app.editor.topic) with
        | error msg =>
          left
          refine ⟨hg, msg, fun _ => rfl, rfl, ?_⟩
          have hnew2 := hnew
          rw [hedit] at hnew2
          simp [performSaveBegin, hg, hmode, hce, hst, htick, hedit, hcur, hnew2]
        | ok st1 =>
          right; right
          refine ⟨hg, st1, fun _ => rfl, rfl, ?_⟩
          have hnew2 := hnew
          rw [hedit] at hnew2
          simp [performSaveBegin, hg, hmode, hce, hst, htick, hedit, hcur, hnew2]
      | some ce =>
        by_cases hempty : h.trim app.editor.title = "" ∧ h.trim app.editor.body = ""
        · left
          refine ⟨hg, hedit, by simp, hempty.1, hempty.2, ?_⟩
          simp [performSaveBegin, hg, hmode, hce, hedit, hcur, hempty]
        · right
          cases hed : saveEditContent h app.state ce (h.trim app.editor.title)
              (h.trim app.editor.body)
              (if app.editor.topic = "" then .null else .str app.editor.topic) b with
          | error msg =>
            left
            refine ⟨hg, ce, msg, hedit, rfl, hed, ?_⟩
            simp [performSaveBegin, hg, hmode, hce, hst, hedit, hcur, hempty, hed]
          | ok st1 =>
            right; right; left
            refine ⟨hg, ce, st1, hedit, rfl, hempty, hed, ?_⟩
            simp [performSaveBegin, hg, hmode, hce, hst, hedit, hcur, hempty, hed]
    · right; right
      cases hnew : saveNewContent h app.tick app.mode app.state (h.trim app.editor.title)
          (h.trim app.editor.body)
          (if app.editor.topic = "" then .null else .str app.editor.topic) with
      | error msg =>
        left
        refine ⟨hg, msg, fun hx => absurd hx hedit, rfl, ?_⟩
        simp [performSaveBegin, hg, hmode, hce, hst, htick, hedit, hnew]
      | ok st1 =>
        right; right
        refine ⟨hg, st1, fun hx => absurd hx hedit, rfl, ?_⟩
        simp [performSaveBegin, hg, hmode, hce, hst, htick, hedit, hnew]

theorem performSaveStore_cases (app : App) (b lw : Bool) :
    (lw = false ∧ performSaveStore app b lw =
      performSaveCatch { app with saveCalls := app.saveCalls + 1 } b "localStorage") ∨
    (lw = true ∧ app.hasLocalServer = true ∧
      performSaveStore app b lw = (storedApp app, .pending)) ∨
    (lw = true ∧ app.hasLocalServer = false ∧
      performSaveStore app b lw = (performSaveFinish (storedApp app) b true, .done .saved)) := by
  cases lw
  · left
    exact ⟨rfl, by simp [performSaveStore]⟩
  · right
    cases hs : app.hasLocalServer
    · right
      exact ⟨rfl, rfl, by simp [performSaveStore, storedApp, hs]⟩
    · left
      exact ⟨rfl, rfl, by simp [performSaveStore, storedApp, hs]⟩

theorem performSaveRest_cases (app : App) (b lw ro : Bool) :
    (lw = false ∧ performSaveRest app b lw ro =
      ((performSaveCatch { app with saveCalls := app.saveCalls + 1 } b "localStorage").1,
        .failed "localStorage")) ∨
    (lw = true ∧ performSaveRest app b lw ro =
      (performSaveFinish (storedApp app) b (if app.hasLocalServer then ro else true),
        .saved)) := by
  rcases performSaveStore_cases app b lw with ⟨hlw, hs⟩ | ⟨hlw, hsrv, hs⟩ | ⟨hlw, hsrv, hs⟩
  · left
    refine ⟨hlw, ?_⟩
    simp only [performSaveRest, hs]
    cases b <;> simp [performSaveCatch]
  · right
    refine ⟨hlw, ?_⟩
    simp only [performSaveRest, hs, hsrv, if_true]
  · right
    refine ⟨hlw, ?_⟩
    simp only [performSaveRest, hs, hsrv]
    simp

theorem performSave_eq_rest (h : Host) (app : App) (b lw ro : Bool) (app1 : App)
    (hb : performSaveBegin h app b lw = performSaveStore app1 b lw) :
    performSave h app b lw ro = performSaveRest app1 b lw ro := by
  simp only [performSave, performSaveRest, hb]

theorem sameSession_markSaving (app : App) (b : Bool) : SameSession (markSaving app b) app := by
  cases b <;> simp [SameSession, markSaving]

theorem performSave_cases (h : Host) (app : App) (b lw ro : Bool) :
    (app.isAutoSaving = true ∧ performSave h app b lw ro = (app, .guarded)) ∨
    (app.isAutoSaving = false ∧ app.mode = "edit" ∧ app.currentEdit.isSome = true ∧
      h.trim app.editor.title = "" ∧ h.trim app.editor.body = "" ∧
      ∃ x, SameSession x app ∧ x.state = app.state ∧
        performSave h app b lw ro = ((performSaveEmpty x b).1, .emptyEdit)) ∨
    (app.isAutoSaving = false ∧ ∃ ce msg,
      app.mode = "edit" ∧ app.currentEdit = some ce ∧
      saveEditContent h app.state ce (h.trim app.editor.title) (h.trim app.editor.body)
        (if app.editor.topic = "" then .null else .str app.editor.topic) b = .error msg ∧
      ∃ x, SameSession x app ∧ x.state = app.state ∧
        performSave h app b lw ro = ((performSaveCatch x b msg).1, .failed msg)) ∨
    (app.isAutoSaving = false ∧ ∃ msg,
      (app.mode = "edit" → app.currentEdit = none) ∧
      saveNewContent h app.tick app.mode app.state (h.trim app.editor.title)
        (h.trim app.editor.body)
        (if app.editor.topic = "" then .null else .str app.editor.topic) = .error msg ∧
      ∃ x, SameSession x app ∧ x.state = app.state ∧
        performSave h app b lw ro = ((performSaveCatch x b msg).1, .failed msg)) ∨
    (app.isAutoSaving = false ∧ ∃ ce st1,
      app.mode = "edit" ∧ app.currentEdit = some ce ∧
      ¬ (h.trim app.editor.title = "" ∧ h.trim app.editor.body = "") ∧
      saveEditContent h app.state ce (h.trim app.editor.title) (h.trim app.editor.body)
        (if app.editor.topic = "" then .null else .str app.editor.topic) b = .ok st1 ∧
      ∃ x, SameSession x app ∧ x.state = st1 ∧
        performSave h app b lw ro = performSaveRest x b lw ro) ∨
    (app.isAutoSaving = false ∧ ∃ st1,
      (app.mode = "edit" → app.currentEdit = none) ∧
      saveNewContent h app.tick app.mode app.state (h.trim app.editor.title)
        (h.trim app.editor.body)
        (if app.editor.topic = "" then .null else .str app.editor.topic) = .ok st1 ∧
      ∃ x, SameSession x app ∧ x.state = st1 ∧
        performSave h app b lw ro = performSaveRest x b lw ro) := by
  have hss := sameSession_markSaving app b
  have hst : (markSaving app b).state = app.state := (markSaving_fields app b).2.2.2.2.2.2.2.1
  rcases performSaveBegin_cases h app b lw with
    ⟨hg, hb⟩ | ⟨hg, hm, hc, ht, hbd, hb⟩ | ⟨hg, ce, msg, hm, hc, hs, hb⟩ |
    ⟨hg, msg, hm, hs, hb⟩ | ⟨hg, ce, st1, hm, hc, hne, hs, hb⟩ | ⟨hg, st1, hm, hs, hb⟩
  · left
    exact ⟨hg, by simp only [performSave, hb]⟩
  · right; left
    refine ⟨hg, hm, hc, ht, hbd, markSaving app b, hss, hst, ?_⟩
    simp only [performSave, hb, performSaveEmpty]
  · right; right; left
    refine ⟨hg, ce, msg, hm, hc, hs, markSaving app b, hss, hst, ?_⟩
    simp only [performSave, hb, performSaveCatch]
  · right; right; right; left
    refine ⟨hg, msg, hm, hs, markSaving app b, hss, hst, ?_⟩
    simp only [performSave, hb, performSaveCatch]
  · right; right; right; right; left
    refine ⟨hg, ce, st1, hm, hc, hne, hs, { markSaving app b with state := st1 }, ?_, rfl,
      performSave_eq_rest h app b lw ro _ hb⟩
    exact hss
  · right; right; right; right; right
    refine ⟨hg, st1, hm, hs, { markSaving app b with state := st1, tick := app.tick + 1 }, ?_,
      rfl, performSave_eq_rest h app b lw ro _ hb⟩
    exact hss

theorem performSaveFinish_flag (app : App) (b ro : Bool) :
    (performSaveFinish app b ro).isAutoSaving = false := by
  simp [performSaveFinish]

theorem performSaveStore_flag (x : App) (b lw : Bool) :
    ((performSaveStore x b lw).2 = .pending →
      (performSaveStore x b lw).1.isAutoSaving = x.isAutoSaving) ∧
    ((performSaveStore x b lw).2 ≠ .pending →
      (performSaveStore x b lw).1.isAutoSaving = false) := by
  rcases performSaveStore_cases x b lw with ⟨-, hs⟩ | ⟨-, -, hs⟩ | ⟨-, -, hs⟩
  · rw [hs]
    exact ⟨fun hp => by simp [performSaveCatch] at hp, fun _ => by simp [performSaveCatch]⟩
  · rw [hs]
    exact ⟨fun _ => by simp [storedApp], fun hp => absurd rfl hp⟩
  · rw [hs]
    exact ⟨fun hp => by simp at hp, fun _ => performSaveFinish_flag _ _ _⟩

theorem performSaveBegin_guarded (h : Host) (app : App) (b lw : Bool)
    (hflag : app.isAutoSaving = true) : performSaveBegin h app b lw = (app, .done .guarded) := by
  simp [performSaveBegin, hflag]

theorem performSaveBegin_auto_flag (h : Host) (app : App) (lw : Bool)
    (hflag : app.isAutoSaving = false) :
    ((performSaveBegin h app true lw).2 = .pending →
      (performSaveBegin h app true lw).1.isAutoSaving = true) ∧
    ((performSaveBegin h app true lw).2 ≠ .pending →
      (performSaveBegin h app true lw).1.isAutoSaving = false) := by
  rcases performSaveBegin_cases h app true lw with
    ⟨hg, -⟩ | ⟨-, -, -, -, -, hb⟩ | ⟨-, ce, msg, -, -, -, hb⟩ |
    ⟨-, msg, -, -, hb⟩ | ⟨-, ce, st1, -, -, -, -, hb⟩ | ⟨-, st1, -, -, hb⟩
  · rw [hflag] at hg
    exact absurd hg (by decide)
  · rw [hb]
    exact ⟨fun hp => by simp [performSaveEmpty] at hp, fun _ => by simp [performSaveEmpty]⟩
  · rw [hb]
    exact ⟨fun hp => by simp [performSaveCatch] at hp, fun _ => by simp [performSaveCatch]⟩
  · rw [hb]
    exact ⟨fun hp => by simp [performSaveCatch] at hp, fun _ => by simp [performSaveCatch]⟩
  · rw [hb]
    generalize hx : ({ markSaving app true with state := st1 } : App) = x
    have hxf : x.isAutoSaving = true := by
      rw [← hx]
      simp [markSaving]
    obtain ⟨h1, h2⟩ := performSaveStore_flag x true lw
    exact ⟨fun hp => (h1 hp).trans hxf, h2⟩
  · rw [hb]
    generalize hx : ({ markSaving app true with state := st1, tick := app.tick + 1 } : App) = x
    have hxf : x.isAutoSaving = true := by
      rw [← hx]
      simp [markSaving]
    obtain ⟨h1, h2⟩ := performSaveStore_flag x true lw
    exact ⟨fun hp => (h1 hp).trans hxf, h2⟩

/-- What an automatic trigger does to the guard: from a clear flag the flag is
set exactly when the call is left suspended; with the flag set nothing starts
and the flag stays set. -/
theorem auto_trigger_flag (h : Host) (app : App) (ev : SaveEvent)
    (hauto : ev.isManual = false) (hnc : ∀ k r, ev ≠ .completes k r) :
    ∃ r : App × BeginResult,
      (∀ s : Sys, s.app = app → stepSys h s ev = s.after true r) ∧
      (app.isAutoSaving = false →
        (r.2 = .pending → r.1.isAutoSaving = true) ∧
        (r.2 ≠ .pending → r.1.isAutoSaving = false)) ∧
      (app.isAutoSaving = true → r.2 ≠ .pending ∧ r.1.isAutoSaving = true) := by
  cases ev with
  | manualSave lw => simp [SaveEvent.isManual] at hauto
  | completes k r => exact absurd rfl (hnc k r)
  | timerFires id lw =>
    refine ⟨timerEvent h app id lw, ?_, ?_, ?_⟩
    · intro s hs
      simp [stepSys, hs]
    · intro hflag
      unfold timerEvent
      split
      swap
      · simp [hflag]
      unfold autoSaveTimerFires
      generalize hx : ({ app with timers := app.timers.filter (fun p => p.1 != id) } : App) = x
      have hxf : x.isAutoSaving = false := by
        rw [← hx]
        exact hflag
      by_cases hd : x.hasUnsavedChanges = true
      · simp only [hd, hxf, Bool.not_false, Bool.and_self, if_true]
        exact performSaveBegin_auto_flag h x lw hxf
      · simp [hd, hxf]
    · intro hflag
      unfold timerEvent
      split
      · simp [autoSaveTimerFires, hflag]
      · simp [hflag]
  | switchSave lw =>
    refine ⟨saveBeforeSwitch h app lw, ?_, ?_, ?_⟩
    · intro s hs
      simp [stepSys, hs]
    · intro hflag
      unfold saveBeforeSwitch
      split
      · exact performSaveBegin_auto_flag h _ lw hflag
      · simp [hflag]
    · intro hflag
      simp [saveBeforeSwitch, hflag]
  | exitSave lw =>
    refine ⟨beforeUnload h app lw, ?_, ?_, ?_⟩
    · intro s hs
      simp [stepSys, hs]
    · intro hflag
      unfold beforeUnload
      split
      · exact performSaveBegin_auto_flag h _ lw hflag
      · simp [hflag]
    · intro hflag
      unfold beforeUnload
      split
      · rw [performSaveBegin_guarded h app true lw hflag]
        simp [hflag]
      · simp [hflag]

theorem stepSys_guardInv (h : Host) (s : Sys) (ev : SaveEvent)
    (hauto : ev.isManual = false) (hinv : GuardInv s) : GuardInv (stepSys h s ev) := by
  by_cases hc : ∃ k r, ev = .completes k r
  · obtain ⟨k, r, rfl⟩ := hc
    rcases hinv with ⟨h0, hflag⟩ | ⟨b, h1, hflag⟩
    · left
      simp [stepSys, h0, hflag]
    · cases k with
      | zero =>
        left
        simp [stepSys, h1, performSaveFinish_flag]
      | succ j =>
        right
        exact ⟨b, by simp [stepSys, h1], by simp [stepSys, h1, hflag]⟩
  · have hnc : ∀ k r, ev ≠ .completes k r := fun k r hx => hc ⟨k, r, hx⟩
    obtain ⟨r, hstep, hclear, hset⟩ := auto_trigger_flag h s.app ev hauto hnc
    rw [hstep s rfl]
    rcases hinv with ⟨h0, hflag⟩ | ⟨b, h1, hflag⟩
    · obtain ⟨hp, hnp⟩ := hclear hflag
      by_cases hpend : r.2 = .pending
      · right
        exact ⟨true, by simp [Sys.after, hpend, h0], by simpa [Sys.after] using hp hpend⟩
      · left
        exact ⟨by simp [Sys.after, hpend, h0], by simpa [Sys.after] using hnp hpend⟩
    · obtain ⟨hnp, hkeep⟩ := hset hflag
      right
      exact ⟨b, by simp [Sys.after, hnp, h1], by simpa [Sys.after] using hkeep⟩

theorem runSys_guardInv (h : Host) (evs : List SaveEvent) :
    ∀ s : Sys, (∀ ev ∈ evs, ev.isManual = false) → GuardInv s → GuardInv (runSys h s evs) := by
  induction evs with
  | nil => intro s _ hinv; exact hinv
  | cons ev rest ih =>
    intro s hauto hinv
    simp only [runSys, List.foldl_cons]
    exact ih (stepSys h s ev) (fun e he => hauto e (List.mem_cons_of_mem _ he))
      (stepSys_guardInv h s ev (hauto ev (List.mem_cons_self _ _)) hinv)

theorem trigger_while_flag_set (h : Host) (s : Sys) (ev : SaveEvent)
    (hflag : s.app.isAutoSaving = true) (hnc : ∀ k r, ev ≠ .completes k r) :
    (stepSys h s ev).inFlight = s.inFlight := by
  cases ev with
  | completes k r => exact absurd rfl (hnc k r)
  | manualSave lw =>
    simp [stepSys, Sys.after, performSaveBegin_guarded h s.app false lw hflag]
  | timerFires id lw =>
    simp only [stepSys, Sys.after, timerEvent]
    split
    · simp [autoSaveTimerFires, hflag]
    · simp
  | switchSave lw =>
    simp [stepSys, Sys.after, saveBeforeSwitch, hflag]
  | exitSave lw =>
    simp only [stepSys, Sys.after, beforeUnload]
    split
    · simp [performSaveBegin_guarded h s.app true lw hflag]
    · simp

/-- C15, the claim as stated fails: with the remote service reachable, a manual
save is left suspended in `saveData()` without setting `isAutoSaving`, so that a
second manual save, and equally the autosave timer, starts a second save while
the first is in flight. -/
theorem manual_save_is_not_guarded :
    (runSys demoHost dirtySys [.manualSave true]).inFlight = [false] ∧
    (runSys demoHost dirtySys [.manualSave true]).app.isAutoSaving = false ∧
    (runSys demoHost dirtySys [.manualSave true, .manualSave true]).inFlight = [false, false] ∧
    (runSys demoHost dirtySys [.manualSave true, .timerFires 1 true]).inFlight =
      [false, true] := by
  decide

/-- C15, amended. In every execution of the save state machine whose triggers
are automatic (autosave timer, session-switch save, exit save) and that starts
with nothing suspended and `isAutoSaving` clear, after each event at most one
`performSave` is suspended in its saving phase, and `isAutoSaving` is set
whenever one is; and in any state with `isAutoSaving` set a trigger, manual or
automatic, returns without starting a save. -/
theorem single_flight_of_automatic_saves (h : Host) (s : Sys) (evs : List SaveEvent)
    (h0 : s.inFlight = []) (hflag : s.app.isAutoSaving = false)
    (hauto : ∀ ev ∈ evs, ev.isManual = false) :
    (∀ k, (runSys h s (evs.take k)).inFlight.length ≤ 1 ∧
      ((runSys h s (evs.take k)).inFlight ≠ [] →
        (runSys h s (evs.take k)).app.isAutoSaving = true)) ∧
    (∀ (s2 : Sys) (ev : SaveEvent), s2.app.isAutoSaving = true →
      (∀ k r, ev ≠ .completes k r) → (stepSys h s2 ev).inFlight = s2.inFlight) := by
  refine ⟨?_, fun s2 ev hf hnc => trigger_while_flag_set h s2 ev hf hnc⟩
  intro k
  have hinv := runSys_guardInv h (evs.take k) s
    (fun ev hev => hauto ev (List.mem_of_mem_take hev)) (Or.inl ⟨h0, hflag⟩)
  rcases hinv with ⟨hnil, -⟩ | ⟨b, hone, hset⟩
  · simp [hnil]
  · simp [hone, hset]

/-- C15 amended, at a page with a dirty edit: the timer fires, the session-switch
save and the exit save arrive while that save is suspended, and one save is in
flight. -/
theorem single_flight_of_automatic_saves_witness :
    (runSys demoHost dirtySys
      (([.timerFires 1 true, .switchSave true, .exitSave true] : List SaveEvent).take 3)
      ).inFlight.length ≤ 1 ∧
    (runSys demoHost dirtySys
      (([.timerFires 1 true, .switchSave true, .exitSave true] : List SaveEvent).take 3)
      ).inFlight = [true] :=
  ⟨((single_flight_of_automatic_saves demoHost dirtySys
      [.timerFires 1 true, .switchSave true, .exitSave true] rfl rfl (by decide)).1 3).1,
   by decide⟩

theorem catch_session (x app : App) (hss : SameSession x app) (b : Bool) (msg : String) :
    (performSaveCatch x b msg).1.isAutoSaving = false ∧
    (performSaveCatch x b msg).1.hasUnsavedChanges = app.hasUnsavedChanges ∧
    (performSaveCatch x b msg).1.originalContent = app.originalContent ∧
    (performSaveCatch x b msg).1.editor = app.editor ∧
    (performSaveCatch x b msg).1.mode = app.mode ∧
    (performSaveCatch x b msg).1.currentEdit = app.currentEdit ∧
    (performSaveCatch x b msg).1.timers = app.timers ∧
    (performSaveCatch x b msg).1.autoSaveTimer = app.autoSaveTimer ∧
    (performSaveCatch x b msg).1.state = x.state ∧
    (performSaveCatch x b msg).1.store = app.store ∧
    (performSaveCatch x b msg).1.saveCalls = app.saveCalls ∧
    (performSaveCatch x b msg).1.messages =
      (if b then app.messages else app.messages ++ ["保存失败: " ++ msg]) := by
  obtain ⟨s1, s2, s3, s4, s5, s6, s7, s8, s9, s10, s11, s12⟩ := hss
  cases b <;> simp [performSaveCatch, showMessage, s1, s2, s3, s4, s5, s6, s8, s9, s11, s12]

theorem empty_session (x app : App) (hss : SameSession x app) (b : Bool) :
    (performSaveEmpty x b).1.isAutoSaving = false ∧
    (performSaveEmpty x b).1.hasUnsavedChanges = app.hasUnsavedChanges ∧
    (performSaveEmpty x b).1.timers = app.timers ∧
    (performSaveEmpty x b).1.autoSaveTimer = app.autoSaveTimer ∧
    (performSaveEmpty x b).1.state = x.state ∧
    (performSaveEmpty x b).1.store = app.store ∧
    (performSaveEmpty x b).1.saveCalls = app.saveCalls ∧
    (performSaveEmpty x b).1.messages =
      (if b then app.messages else app.messages ++ ["请输入内容"]) := by
  obtain ⟨s1, s2, s3, s4, s5, s6, s7, s8, s9, s10, s11, s12⟩ := hss
  cases b <;> simp [performSaveEmpty, showMessage, s3, s4, s8, s9, s11, s12]

theorem sameSession_saveCalls (x app : App) (hss : SameSession x app) :
    SameSession { x with saveCalls := x.saveCalls + 1 }
      { app with saveCalls := app.saveCalls + 1 } := by
  obtain ⟨s1, s2, s3, s4, s5, s6, s7, s8, s9, s10, s11, s12⟩ := hss
  exact ⟨s1, s2, s3, s4, s5, s6, s7, s8, s9, s10, s11, by simp [s12]⟩

theorem rest_failed_session (x app : App) (hss : SameSession x app) (b lw ro : Bool)
    (msg : String) (hf : (performSaveRest x b lw ro).2 = .failed msg) :
    (performSaveRest x b lw ro).1.isAutoSaving = false ∧
    (performSaveRest x b lw ro).1.hasUnsavedChanges = app.hasUnsavedChanges ∧
    (performSaveRest x b lw ro).1.originalContent = app.originalContent ∧
    (performSaveRest x b lw ro).1.editor = app.editor ∧
    (performSaveRest x b lw ro).1.mode = app.mode ∧
    (performSaveRest x b lw ro).1.currentEdit = app.currentEdit ∧
    (performSaveRest x b lw ro).1.timers = app.timers ∧
    (performSaveRest x b lw ro).1.autoSaveTimer = app.autoSaveTimer := by
  rcases performSaveRest_cases x b lw ro with ⟨-, hr⟩ | ⟨-, hr⟩
  · rw [hr]
    obtain ⟨c1, c2, c3, c4, c5, c6, c7, c8, -⟩ :=
      catch_session _ _ (sameSession_saveCalls x app hss) b "localStorage"
    exact ⟨c1, c2, c3, c4, c5, c6, c7, c8⟩
  · rw [hr] at hf
    simp at hf

/-- C16. An automatic save of an edit whose title was emptied and whose notes
were changed ends as a successful save: the baseline is reset to the editor
fields and `hasUnsavedChanges` is cleared, while the task in the state keeps its
old text and notes, which are not the trimmed editor values. -/
theorem autosave_skip_clears_dirty_flag :
    (performSave demoHost emptiedTitle true true true).2 = .saved ∧
    (performSave demoHost emptiedTitle true true true).1.hasUnsavedChanges = false ∧
    (performSave demoHost emptiedTitle true true true).1.originalContent =
      { title := "", body := "new notes", topic := "" } ∧
    (performSave demoHost emptiedTitle true true true).1.state.tasks =
      [[("id", .str "t"), ("text", .str "old"), ("notes", .str "n"), ("done", .bool false)]] := by
  decide

/-- C17. A failed save keeps the session dirty: when a call of `performSave`
ends in its `catch` block (an error thrown by `saveEditContent`,
`saveNewContent` or `saveData`), it returns normally with `hasUnsavedChanges`,
the baseline snapshot and the editor fields as they were before the call, with
`isAutoSaving` false, and with the mode, the edited entity and the pending
timers unchanged, so that a later trigger is not stopped by the guard. -/
theorem failed_save_keeps_session_dirty (h : Host) (app : App) (b lw ro : Bool) (msg : String)
    (hf : (performSave h app b lw ro).2 = .failed msg) :
    (performSave h app b lw ro).1.hasUnsavedChanges = app.hasUnsavedChanges ∧
    (performSave h app b lw ro).1.originalContent = app.originalContent ∧
    (performSave h app b lw ro).1.editor = app.editor ∧
    (performSave h app b lw ro).1.isAutoSaving = false ∧
    (performSave h app b lw ro).1.mode = app.mode ∧
    (performSave h app b lw ro).1.currentEdit = app.currentEdit ∧
    (performSave h app b lw ro).1.timers = app.timers := by
  rcases performSave_cases h app b lw ro with
    ⟨-, hb⟩ | ⟨-, -, -, -, -, x, -, -, hb⟩ | ⟨-, ce, msg2, -, -, -, x, hss, -, hb⟩ |
    ⟨-, msg2, -, -, x, hss, -, hb⟩ | ⟨-, ce, st1, -, -, -, -, x, hss, -, hb⟩ |
    ⟨-, st1, -, -, x, hss, -, hb⟩
  · rw [hb] at hf
    simp at hf
  · rw [hb] at hf
    simp at hf
  · rw [hb]
    obtain ⟨c1, c2, c3, c4, c5, c6, c7, -⟩ := catch_session x app hss b msg2
    exact ⟨c2, c3, c4, c1, c5, c6, c7⟩
  · rw [hb]
    obtain ⟨c1, c2, c3, c4, c5, c6, c7, -⟩ := catch_session x app hss b msg2
    exact ⟨c2, c3, c4, c1, c5, c6, c7⟩
  · rw [hb] at hf ⊢
    obtain ⟨c1, c2, c3, c4, c5, c6, c7, -⟩ := rest_failed_session x app hss b lw ro msg hf
    exact ⟨c2, c3, c4, c1, c5, c6, c7⟩
  · rw [hb] at hf ⊢
    obtain ⟨c1, c2, c3, c4, c5, c6, c7, -⟩ := rest_failed_session x app hss b lw ro msg hf
    exact ⟨c2, c3, c4, c1, c5, c6, c7⟩

/-- C17, at a manual save of an edit whose title was emptied. -/
theorem failed_save_keeps_session_dirty_witness :
    (performSave demoHost emptiedTitle false true true).2 = .failed "请输入任务标题" ∧
    (performSave demoHost emptiedTitle false true true).1.hasUnsavedChanges = true ∧
    (performSave demoHost emptiedTitle false true true).1.originalContent =
      emptiedTitle.originalContent ∧
    (performSave demoHost emptiedTitle false true true).1.editor = emptiedTitle.editor ∧
    (performSave demoHost emptiedTitle false true true).1.isAutoSaving = false :=
  have hf : (performSave demoHost emptiedTitle false true true).2 = .failed "请输入任务标题" := by
    decide
  have hk := failed_save_keeps_session_dirty demoHost emptiedTitle false true true _ hf
  ⟨hf, hk.1, hk.2.1, hk.2.2.1, hk.2.2.2.1⟩

theorem cancelAutoSaveTimer_fields (app : App) :
    (cancelAutoSaveTimer app).mode = app.mode ∧
    (cancelAutoSaveTimer app).currentEdit = app.currentEdit ∧
    (cancelAutoSaveTimer app).editor = app.editor ∧
    (cancelAutoSaveTimer app).originalContent = app.originalContent ∧
    (cancelAutoSaveTimer app).nextTimerId = app.nextTimerId ∧
    (cancelAutoSaveTimer app).hasUnsavedChanges = app.hasUnsavedChanges ∧
    (cancelAutoSaveTimer app).state = app.state := by
  unfold cancelAutoSaveTimer
  cases app.autoSaveTimer <;> simp

theorem cancelAutoSaveTimer_timers (app : App) (hinv : TimerInv app) :
    (cancelAutoSaveTimer app).timers = [] := by
  unfold cancelAutoSaveTimer
  cases ht : app.autoSaveTimer with
  | none =>
    simp only
    cases hl : app.timers with
    | nil => rfl
    | cons p rest =>
      have := hinv p (by rw [hl]; exact List.mem_cons_self _ _)
      rw [ht] at this
      cases this
  | some id =>
    simp only
    rw [List.filter_eq_nil_iff]
    intro p hp
    have := hinv p hp
    rw [ht] at this
    cases this
    simp

theorem resetAutoSaveTimer_dirty (app : App) (t : Nat) (hinv : TimerInv app)
    (hmode : app.mode = "edit") (hce : app.currentEdit.isSome = true)
    (hdirty : detectChanges app = true) :
    (resetAutoSaveTimer app t).timers = [(app.nextTimerId + 1, t + 10000)] ∧
    (resetAutoSaveTimer app t).autoSaveTimer = some (app.nextTimerId + 1) ∧
    (resetAutoSaveTimer app t).hasUnsavedChanges = true ∧
    (resetAutoSaveTimer app t).nextTimerId = app.nextTimerId + 1 ∧
    (resetAutoSaveTimer app t).mode = app.mode ∧
    (resetAutoSaveTimer app t).currentEdit = app.currentEdit ∧
    (resetAutoSaveTimer app t).originalContent = app.originalContent ∧
    (resetAutoSaveTimer app t).editor = app.editor := by
  obtain ⟨c1, c2, c3, c4, c5, -, -⟩ := cancelAutoSaveTimer_fields app
  have ht := cancelAutoSaveTimer_timers app hinv
  have hd : detectChanges (cancelAutoSaveTimer app) = true := by
    simpa [detectChanges, c3, c4] using hdirty
  have hcond : (cancelAutoSaveTimer app).mode = "edit" ∧
      (cancelAutoSaveTimer app).currentEdit.isSome = true ∧
      detectChanges (cancelAutoSaveTimer app) = true := ⟨c1 ▸ hmode, c2 ▸ hce, hd⟩
  have hr : resetAutoSaveTimer app t =
      { cancelAutoSaveTimer app with
        hasUnsavedChanges := true
        autoSaveTimer := some ((cancelAutoSaveTimer app).nextTimerId + 1)
        timers := (cancelAutoSaveTimer app).timers ++
          [((cancelAutoSaveTimer app).nextTimerId + 1, t + 10000)]
        nextTimerId := (cancelAutoSaveTimer app).nextTimerId + 1 } := by
    simp only [resetAutoSaveTimer]
    rw [if_pos hcond]
  rw [hr]
  simp [ht, c5, c1, c2, c3, c4]

theorem timerInv_singleton (app : App) (id d : Nat) (ht : app.timers = [(id, d)])
    (hv : app.autoSaveTimer = some id) : TimerInv app := by
  intro p hp
  rw [ht] at hp
  simp only [List.mem_singleton] at hp
  rw [hp, hv]

/-- C18. The autosave timer is reset by every dirty-producing edit.  In a state
in which every pending autosave timeout is the one held in `autoSaveTimer`, an
edit at time `t` in an active edit session whose fields differ from the baseline
makes `resetAutoSaveTimer` cancel the pending timeout and leave exactly one,
with deadline `t + 10000` ms.  A further such edit at time `t2` again leaves
exactly one, with deadline `t2 + 10000`, so that no autosave timeout is due
before `t2 + 10000`. -/
theorem autosave_timer_resets_on_edit (app : App) (t : Nat) (hinv : TimerInv app)
    (hmode : app.mode = "edit") (hce : app.currentEdit.isSome = true)
    (hdirty : detectChanges app = true) :
    (resetAutoSaveTimer app t).timers = [(app.nextTimerId + 1, t + 10000)] ∧
    (resetAutoSaveTimer app t).hasUnsavedChanges = true ∧
    TimerInv (resetAutoSaveTimer app t) ∧
    (∀ (ed2 : Editor) (t2 : Nat), ed2 ≠ app.originalContent →
      (inputEvent (resetAutoSaveTimer app t) ed2 t2).timers =
        [(app.nextTimerId + 2, t2 + 10000)] ∧
      ∀ now, now < t2 + 10000 →
        dueTimers (inputEvent (resetAutoSaveTimer app t) ed2 t2) now = []) := by
  obtain ⟨r1, r2, r3, r4, r5, r6, r7, r8⟩ := resetAutoSaveTimer_dirty app t hinv hmode hce hdirty
  have hinv1 : TimerInv (resetAutoSaveTimer app t) := timerInv_singleton _ _ _ r1 r2
  refine ⟨r1, r3, hinv1, ?_⟩
  intro ed2 t2 hne
  generalize hx : ({ resetAutoSaveTimer app t with editor := ed2 } : App) = x
  have hxinv : TimerInv x := by
    rw [← hx]
    exact hinv1
  have hxmode : x.mode = "edit" := by
    rw [← hx]
    exact r5.trans hmode
  have hxce : x.currentEdit.isSome = true := by
    rw [← hx]
    exact r6 ▸ hce
  have hxid : x.nextTimerId = app.nextTimerId + 1 := by
    rw [← hx]
    exact r4
  have hxd : detectChanges x = true := by
    have ho : x.originalContent = app.originalContent := by
      rw [← hx]
      exact r7
    have he : x.editor = ed2 := by
      rw [← hx]
    simp only [detectChanges, ho, he]
    by_contra hc
    apply hne
    simp only [Bool.or_eq_true, bne_iff_ne, ne_eq, not_or, not_not] at hc
    obtain ⟨⟨h1, h2⟩, h3⟩ := hc
    cases ed2
    cases hoc : app.originalContent
    rw [hoc] at h1 h2 h3
    simp_all
  obtain ⟨q1, -⟩ := resetAutoSaveTimer_dirty x t2 hxinv hxmode hxce hxd
  have hin : inputEvent (resetAutoSaveTimer app t) ed2 t2 = resetAutoSaveTimer x t2 := by
    rw [← hx]
    rfl
  rw [hin, q1, hxid]
  refine ⟨rfl, ?_⟩
  intro now hnow
  simp only [dueTimers, q1, hxid, List.filter_cons, List.filter_nil]
  have : ¬ t2 + 10000 ≤ now := by omega
  simp [this]

/-- C18, scenario E: the session starts clean, the title is changed at 0 s and
again at 5 s; one timeout is pending, due at 15 s, and none is due at 14.999 s. -/
theorem autosave_timer_resets_on_edit_witness :
    (inputEvent (resetAutoSaveTimer
        { editingTask with editor := { title := "a", body := "n", topic := "" } } 0)
      { title := "ab", body := "n", topic := "" } 5000).timers = [(2, 15000)] ∧
    dueTimers (inputEvent (resetAutoSaveTimer
        { editingTask with editor := { title := "a", body := "n", topic := "" } } 0)
      { title := "ab", body := "n", topic := "" } 5000) 14999 = [] :=
  have h := (autosave_timer_resets_on_edit
    { editingTask with editor := { title := "a", body := "n", topic := "" } } 0
    (by decide) rfl rfl (by decide)).2.2.2
    { title := "ab", body := "n", topic := "" } 5000 (by decide)
  ⟨h.1, h.2 14999 (by decide)⟩

theorem storedApp_fields (x : App) :
    (storedApp x).mode = x.mode ∧ (storedApp x).timers = x.timers ∧
    (storedApp x).autoSaveTimer = x.autoSaveTimer ∧ (storedApp x).state = x.state ∧
    (storedApp x).saveCalls = x.saveCalls + 1 := by
  simp [storedApp]

theorem performSaveFinish_dirty (y : App) (b ro : Bool) :
    (performSaveFinish y b ro).hasUnsavedChanges = false := by
  simp [performSaveFinish, updateOriginalContent]

theorem performSaveFinish_edit_timers (y : App) (b ro : Bool) (hm : y.mode = "edit") :
    (performSaveFinish y b ro).timers = y.timers ∧
    (performSaveFinish y b ro).autoSaveTimer = y.autoSaveTimer := by
  cases b <;> cases ro <;> simp [performSaveFinish, updateOriginalContent, renderAll, hm]

theorem performSaveFinish_add_timers (y : App) (ro : Bool) (hm : y.mode ≠ "edit")
    (hinv : TimerInv y) : (performSaveFinish y false ro).timers = [] := by
  have hc : ∀ z : App, TimerInv z → z.mode ≠ "edit" →
      (updateOriginalContent (clearEditor z)).timers = [] := by
    intro z hz _
    simp only [updateOriginalContent, clearEditor]
    exact cancelAutoSaveTimer_timers _ hz
  have hr : ∀ z : App, TimerInv z → TimerInv (renderAll z) := fun z hz => hz
  have hmr : ∀ z : App, (renderAll z).mode = z.mode := fun z => rfl
  cases ro
  · simp only [performSaveFinish, Bool.false_eq_true, if_false, ne_eq, hm, hmr,
      not_false_eq_true, if_true]
    exact hc _ (hr _ hinv) hm
  · simp only [performSaveFinish, if_true, Bool.false_eq_true, if_false, ne_eq, hm, hmr,
      not_false_eq_true]
    exact hc _ (hr _ hinv) hm

theorem rest_saved (x : App) (b lw ro : Bool) (hs : (performSaveRest x b lw ro).2 = .saved) :
    (performSaveRest x b lw ro).1 =
      performSaveFinish (storedApp x) b (if x.hasLocalServer then ro else true) := by
  rcases performSaveRest_cases x b lw ro with ⟨-, hr⟩ | ⟨-, hr⟩
  · rw [hr] at hs
    simp at hs
  · rw [hr]

theorem rest_timers_edit (x app : App) (hss : SameSession x app) (b lw ro : Bool)
    (hm : app.mode = "edit") :
    (performSaveRest x b lw ro).1.timers = app.timers ∧
    (performSaveRest x b lw ro).1.autoSaveTimer = app.autoSaveTimer := by
  rcases performSaveRest_cases x b lw ro with ⟨-, hr⟩ | ⟨-, hr⟩
  · rw [hr]
    obtain ⟨-, -, -, -, -, -, c7, c8, -⟩ :=
      catch_session _ _ (sameSession_saveCalls x app hss) b "localStorage"
    exact ⟨c7, c8⟩
  · rw [hr]
    obtain ⟨f1, f2, f3, -⟩ := storedApp_fields x
    obtain ⟨s1, -, s3, -, -, -, -, -, s9, -⟩ := hss
    obtain ⟨t1, t2⟩ := performSaveFinish_edit_timers (storedApp x) b
      (if x.hasLocalServer then ro else true) (by rw [f1, s1, hm])
    exact ⟨by rw [t1, f2, s9], by rw [t2, f3, s3]⟩

/-- C19, the claim as stated fails: in edit mode, with an autosave timeout
pending, a manual save that succeeds leaves that timeout pending. -/
theorem manual_save_keeps_timer_pending :
    dirtyWithTimer.timers = [(1, 10000)] ∧
    (performSave demoHost dirtyWithTimer false true true).2 = .saved ∧
    (performSave demoHost dirtyWithTimer false true true).1.timers = [(1, 10000)] ∧
    (performSave demoHost dirtyWithTimer false true true).1.autoSaveTimer = some 1 := by
  decide

/-- C19, amended. A manual save `performSave(false)` in edit mode leaves the
pending autosave timeouts and `autoSaveTimer` as they were, whatever its
outcome.  After any successful manual save `hasUnsavedChanges` is false, so the
callback of a timeout that fires afterwards starts no save.  In a mode other
than edit, a successful manual save leaves no autosave timeout pending
(`clearEditor` cancels it), provided every pending timeout is the one held in
`autoSaveTimer`. -/
theorem manual_save_and_pending_timer (h : Host) (app : App) (lw ro : Bool) :
    (app.mode = "edit" →
      (performSave h app false lw ro).1.timers = app.timers ∧
      (performSave h app false lw ro).1.autoSaveTimer = app.autoSaveTimer) ∧
    ((performSave h app false lw ro).2 = .saved →
      (performSave h app false lw ro).1.hasUnsavedChanges = false ∧
      ∀ id lw2, (autoSaveTimerFires h (performSave h app false lw ro).1 id lw2).2 =
        .notCalled) ∧
    (app.mode ≠ "edit" → TimerInv app → (performSave h app false lw ro).2 = .saved →
      (performSave h app false lw ro).1.timers = []) := by
  have hfire : ∀ z : App, z.hasUnsavedChanges = false →
      ∀ id lw2, (autoSaveTimerFires h z id lw2).2 = .notCalled := by
    intro z hz id lw2
    simp [autoSaveTimerFires, hz]
  rcases performSave_cases h app false lw ro with
    ⟨-, hb⟩ | ⟨-, -, -, -, -, x, hss, -, hb⟩ | ⟨-, ce, msg2, -, -, -, x, hss, -, hb⟩ |
    ⟨-, msg2, -, -, x, hss, -, hb⟩ | ⟨-, ce, st1, -, -, -, -, x, hss, -, hb⟩ |
    ⟨-, st1, -, -, x, hss, -, hb⟩
  · rw [hb]
    exact ⟨fun _ => ⟨rfl, rfl⟩, fun hs => by simp at hs, fun _ _ hs => by simp at hs⟩
  · rw [hb]
    obtain ⟨-, -, e3, e4, -⟩ := empty_session x app hss false
    exact ⟨fun _ => ⟨e3, e4⟩, fun hs => by simp at hs, fun _ _ hs => by simp at hs⟩
  · rw [hb]
    obtain ⟨-, -, -, -, -, -, c7, c8, -⟩ := catch_session x app hss false msg2
    exact ⟨fun _ => ⟨c7, c8⟩, fun hs => by simp at hs, fun _ _ hs => by simp at hs⟩
  · rw [hb]
    obtain ⟨-, -, -, -, -, -, c7, c8, -⟩ := catch_session x app hss false msg2
    exact ⟨fun _ => ⟨c7, c8⟩, fun hs => by simp at hs, fun _ _ hs => by simp at hs⟩
  · rw [hb]
    refine ⟨fun hm => rest_timers_edit x app hss false lw ro hm, ?_, ?_⟩
    · intro hs
      rw [rest_saved x false lw ro hs]
      exact ⟨performSaveFinish_dirty _ _ _, hfire _ (performSaveFinish_dirty _ _ _)⟩
    · intro hm hinv hs
      rw [rest_saved x false lw ro hs]
      obtain ⟨f1, f2, f3, -⟩ := storedApp_fields x
      obtain ⟨s1, -, s3, -, -, -, -, -, s9, -⟩ := hss
      apply performSaveFinish_add_timers
      · rw [f1, s1]
        exact hm
      · intro p hp
        rw [f2, s9] at hp
        rw [f3, s3]
        exact hinv p hp
  · rw [hb]
    refine ⟨fun hm => rest_timers_edit x app hss false lw ro hm, ?_, ?_⟩
    · intro hs
      rw [rest_saved x false lw ro hs]
      exact ⟨performSaveFinish_dirty _ _ _, hfire _ (performSaveFinish_dirty _ _ _)⟩
    · intro hm hinv hs
      rw [rest_saved x false lw ro hs]
      obtain ⟨f1, f2, f3, -⟩ := storedApp_fields x
      obtain ⟨s1, -, s3, -, -, -, -, -, s9, -⟩ := hss
      apply performSaveFinish_add_timers
      · rw [f1, s1]
        exact hm
      · intro p hp
        rw [f2, s9] at hp
        rw [f3, s3]
        exact hinv p hp

/-- C19 amended, at an edit session with a pending timeout and at an add-task
page with a pending timeout. -/
theorem manual_save_and_pending_timer_witness :
    ((performSave demoHost dirtyWithTimer false true true).1.timers = dirtyWithTimer.timers ∧
     (performSave demoHost dirtyWithTimer false true true).1.autoSaveTimer =
       dirtyWithTimer.autoSaveTimer) ∧
    (performSave demoHost dirtyWithTimer false true true).1.hasUnsavedChanges = false ∧
    (performSave demoHost addingTaskWithTimer false true true).1.timers = [] :=
  ⟨(manual_save_and_pending_timer demoHost dirtyWithTimer true true).1 rfl,
   ((manual_save_and_pending_timer demoHost dirtyWithTimer true true).2.1 (by decide)).1,
   (manual_save_and_pending_timer demoHost addingTaskWithTimer true true).2.2 (by decide)
     (by decide) (by decide)⟩

theorem saveEditContent_empty_title (h : Host) (st : State) (ce : CurrentEdit) (body : String)
    (topicId : JVal) :
    ∃ msg, saveEditContent h st ce "" body topicId false = .error msg := by
  unfold saveEditContent
  cases ce.type with
  | event =>
    simp only
    cases st.events.find? (fun x => decide (x.get "id" = ce.id)) with
    | none => exact ⟨_, rfl⟩
    | some _ => exact ⟨_, rfl⟩
  | topic =>
    simp only
    cases st.topics.find? (fun x => decide (x.get "id" = ce.id)) with
    | none => exact ⟨_, rfl⟩
    | some _ => exact ⟨_, rfl⟩
  | task =>
    simp only
    cases st.tasks.find? (fun x => decide (x.get "id" = ce.id)) with
    | none => exact ⟨_, rfl⟩
    | some _ => exact ⟨_, rfl⟩

theorem saveNewContent_required_empty (h : Host) (n : Nat) (mode : String) (st : State)
    (title body : String) (topicId : JVal)
    (hreq : (mode = "add-task" ∧ title = "") ∨ (mode = "add-topic" ∧ title = "") ∨
      (mode = "add-event" ∧ title = "" ∧ body = "")) :
    ∃ msg, saveNewContent h n mode st title body topicId = .error msg := by
  rcases hreq with ⟨hm, ht⟩ | ⟨hm, ht⟩ | ⟨hm, ht, hb⟩
  · subst hm ht
    exact ⟨"请输入任务标题", by simp [saveNewContent]⟩
  · subst hm ht
    exact ⟨"请输入主题名", by simp [saveNewContent]⟩
  · subst hm ht hb
    exact ⟨"请输入事件内容", by simp [saveNewContent]⟩

/-- C20, the claim as stated fails: in the session `emptiedDuringAutosave` an
autosave is suspended on the remote request, the title has been emptied, and the
user saves by hand.  The required field is empty, yet `performSave(false)`
returns at its `isAutoSaving` guard and shows no message. -/
theorem manual_save_during_autosave_is_silent :
    (timerEvent demoHost dirtyWithTimer 1 true).2 = .pending ∧
    emptiedDuringAutosave.isAutoSaving = true ∧
    RequiredFieldEmpty demoHost emptiedDuringAutosave ∧
    (performSave demoHost emptiedDuringAutosave false true true).2 = .guarded ∧
    emptiedDuringAutosave.messages = [] ∧
    (performSave demoHost emptiedDuringAutosave false true true).1.messages = [] ∧
    ¬ ∃ msg, (performSave demoHost emptiedDuringAutosave false true true).1.messages =
      emptiedDuringAutosave.messages ++ [msg] := by
  refine ⟨by decide, by decide, Or.inl ⟨by decide, by decide, by decide⟩, by decide,
    by decide, by decide, ?_⟩
  rintro ⟨msg, hmsg⟩
  have h1 : (performSave demoHost emptiedDuringAutosave false true true).1.messages = [] := by
    decide
  have h2 : emptiedDuringAutosave.messages = [] := by decide
  rw [h1, h2] at hmsg
  cases hmsg

/-- C20, amended. A manual save whose required field is empty after trimming
(the title in edit mode and for a new task or topic; title and body for a new
event) leaves the events, topics and tasks unchanged, issues no `saveData()`
call, writes to neither store, does not end as a save and leaves
`hasUnsavedChanges` as it was.  When no autosave is in flight exactly one message
is shown to the caller; when one is in flight (`isAutoSaving` set) the call
returns at the guard and shows nothing. -/
theorem manual_validation_failure_leaves_state (h : Host) (app : App) (lw ro : Bool)
    (hreq : RequiredFieldEmpty h app) :
    (performSave h app false lw ro).1.state = app.state ∧
    (performSave h app false lw ro).1.saveCalls = app.saveCalls ∧
    (performSave h app false lw ro).1.store = app.store ∧
    (performSave h app false lw ro).1.hasUnsavedChanges = app.hasUnsavedChanges ∧
    (performSave h app false lw ro).2 ≠ .saved ∧
    (app.isAutoSaving = false →
      ∃ msg, (performSave h app false lw ro).1.messages = app.messages ++ [msg]) ∧
    (app.isAutoSaving = true →
      (performSave h app false lw ro).2 = .guarded ∧
      (performSave h app false lw ro).1.messages = app.messages) := by
  have hno : app.isAutoSaving = false → app.isAutoSaving = true →
      (performSave h app false lw ro).2 = .guarded ∧
      (performSave h app false lw ro).1.messages = app.messages := by
    intro h1 h2
    rw [h1] at h2
    cases h2
  rcases performSave_cases h app false lw ro with
    ⟨hg, hb⟩ | ⟨hg, -, -, -, -, x, hss, hxs, hb⟩ | ⟨hg, ce, msg2, -, -, -, x, hss, hxs, hb⟩ |
    ⟨hg, msg2, -, -, x, hss, hxs, hb⟩ | ⟨-, ce, st1, hm, hc, hne, hs, -⟩ |
    ⟨-, st1, hm, hs, -⟩
  · rw [hb]
    refine ⟨rfl, rfl, rfl, rfl, by simp, ?_, fun _ => ⟨rfl, rfl⟩⟩
    intro hflag
    rw [hg] at hflag
    exact absurd hflag (by decide)
  · have hno2 := hno hg
    rw [hb] at hno2 ⊢
    obtain ⟨-, e2, -, -, e5, e6, e7, e8⟩ := empty_session x app hss false
    exact ⟨e5.trans hxs, e7, e6, e2, by simp, fun _ => ⟨_, e8⟩, hno2⟩
  · have hno2 := hno hg
    rw [hb] at hno2 ⊢
    obtain ⟨-, c2, -, -, -, -, -, -, c9, c10, c11, c12⟩ := catch_session x app hss false msg2
    exact ⟨c9.trans hxs, c11, c10, c2, by simp, fun _ => ⟨_, c12⟩, hno2⟩
  · have hno2 := hno hg
    rw [hb] at hno2 ⊢
    obtain ⟨-, c2, -, -, -, -, -, -, c9, c10, c11, c12⟩ := catch_session x app hss false msg2
    exact ⟨c9.trans hxs, c11, c10, c2, by simp, fun _ => ⟨_, c12⟩, hno2⟩
  · exfalso
    rcases hreq with ⟨-, -, ht⟩ | ⟨hm2, -⟩ | ⟨hm2, -⟩ | ⟨hm2, -⟩
    · rw [ht] at hs
      obtain ⟨msg, hmsg⟩ := saveEditContent_empty_title h app.state ce
        (h.trim app.editor.body) (if app.editor.topic = "" then .null else .str app.editor.topic)
      rw [hmsg] at hs
      cases hs
    · rw [hm] at hm2
      exact absurd hm2 (by decide)
    · rw [hm] at hm2
      exact absurd hm2 (by decide)
    · rw [hm] at hm2
      exact absurd hm2 (by decide)
  · exfalso
    rcases hreq with ⟨hm2, hc2, -⟩ | ⟨hm2, ht⟩ | ⟨hm2, ht⟩ | ⟨hm2, ht, hbd⟩
    · rw [hm hm2] at hc2
      simp at hc2
    · obtain ⟨msg, hmsg⟩ := saveNewContent_required_empty h app.tick app.mode app.state
        (h.trim app.editor.title) (h.trim app.editor.body)
        (if app.editor.topic = "" then .null else .str app.editor.topic) (Or.inl ⟨hm2, ht⟩)
      rw [hmsg] at hs
      cases hs
    · obtain ⟨msg, hmsg⟩ := saveNewContent_required_empty h app.tick app.mode app.state
        (h.trim app.editor.title) (h.trim app.editor.body)
        (if app.editor.topic = "" then .null else .str app.editor.topic)
        (Or.inr (Or.inl ⟨hm2, ht⟩))
      rw [hmsg] at hs
      cases hs
    · obtain ⟨msg, hmsg⟩ := saveNewContent_required_empty h app.tick app.mode app.state
        (h.trim app.editor.title) (h.trim app.editor.body)
        (if app.editor.topic = "" then .null else .str app.editor.topic)
        (Or.inr (Or.inr ⟨hm2, ht, hbd⟩))
      rw [hmsg] at hs
      cases hs

/-- C20, at a new task with an empty title and at an edit whose title was
emptied. -/
theorem manual_validation_failure_leaves_state_witness :
    ((performSave demoHost addingEmptyTask false true true).1.state = addingEmptyTask.state ∧
     (performSave demoHost addingEmptyTask false true true).1.saveCalls = 0 ∧
     (performSave demoHost addingEmptyTask false true true).1.messages =
       ["保存失败: 请输入任务标题"]) ∧
    (performSave demoHost emptiedTitle false true true).1.state = emptiedTitle.state :=
  have h1 := manual_validation_failure_leaves_state demoHost addingEmptyTask true true
    (Or.inr (Or.inl ⟨rfl, rfl⟩))
  have h2 := manual_validation_failure_leaves_state demoHost emptiedTitle true true
    (Or.inl ⟨rfl, rfl, rfl⟩)
  ⟨⟨h1.1, h1.2.1, by decide⟩, h2.1⟩

/-! ## The timer invariant holds in every reachable state -/

theorem timerInv_cancel (app : App) (hinv : TimerInv app) : TimerInv (cancelAutoSaveTimer app) := by
  intro p hp
  rw [cancelAutoSaveTimer_timers app hinv] at hp
  simp at hp

theorem timerInv_resetAutoSaveTimer (app : App) (t : Nat) (hinv : TimerInv app) :
    TimerInv (resetAutoSaveTimer app t) := by
  have hc := cancelAutoSaveTimer_timers app hinv
  unfold resetAutoSaveTimer
  simp only
  split
  · intro p hp
    simp only [hc, List.nil_append, List.mem_singleton] at hp
    rw [hp]
  · exact timerInv_cancel app hinv

theorem timerInv_clearEditor (app : App) (hinv : TimerInv app) : TimerInv (clearEditor app) := by
  unfold clearEditor
  apply timerInv_cancel
  exact hinv

theorem timerInv_timerFires (app : App) (id : Nat) (hinv : TimerInv app) :
    TimerInv { app with timers := app.timers.filter (fun p => p.1 != id) } := by
  intro p hp
  exact hinv p (List.mem_filter.mp hp).1

/-! ## The frame of the reordering operations -/

theorem spliceInsert_shape (arr : List Obj) (i : Nat) (item : Obj) :
    ∃ us ds, spliceInsert arr i item = us ++ item :: ds ∧ us ++ ds = arr :=
  ⟨arr.take i, arr.drop i, rfl, List.take_append_drop i arr⟩

theorem insertItemInOrder_shape (arr : List Obj) (item : Obj) :
    ∃ us ds, insertItemInOrder arr item = us ++ item :: ds ∧ us ++ ds = arr := by
  unfold insertItemInOrder
  split
  · exact spliceInsert_shape _ _ _
  · exact spliceInsert_shape _ _ _

theorem reorderArr_shape (id checked : JVal) (pre : List Obj) (item : Obj) (post : List Obj)
    (hid : item.get "id" = id) (hpre : ∀ x ∈ pre, x.get "id" ≠ id) :
    ∃ us ds, reorderArr (pre ++ item :: post) id checked =
        some (us ++ item.set "done" (.bool checked.truthy) :: ds) ∧ us ++ ds = pre ++ post := by
  obtain ⟨us, ds, h1, h2⟩ :=
    insertItemInOrder_shape (pre ++ post) (item.set "done" (.bool checked.truthy))
  exact ⟨us, ds, by rw [reorderArr_split id checked pre item post hid hpre, h1], h2⟩

theorem moveToTopArr_shape (id : JVal) (pre : List Obj) (item : Obj) (post : List Obj)
    (hid : item.get "id" = id) (hpre : ∀ x ∈ pre, x.get "id" ≠ id) :
    ∃ us ds, moveToTopArr (pre ++ item :: post) id = some (us ++ coerceDone item :: ds) ∧
      us ++ ds = pre ++ post := by
  obtain ⟨us, ds, h1, h2⟩ := insertItemInOrder_shape (pre ++ post) (coerceDone item)
  exact ⟨us, ds, by rw [moveToTopArr_split id pre item post hid hpre, h1], h2⟩

theorem moveToBottomArr_shape (id : JVal) (pre : List Obj) (item : Obj) (post : List Obj)
    (hid : item.get "id" = id) (hpre : ∀ x ∈ pre, x.get "id" ≠ id) :
    ∃ us ds, moveToBottomArr (pre ++ item :: post) id = some (us ++ coerceDone item :: ds) ∧
      us ++ ds = pre ++ post := by
  rw [moveToBottomArr_split id pre item post hid hpre]
  split
  · exact ⟨pre ++ post, [], rfl, by simp⟩
  · obtain ⟨us, ds, h1, h2⟩ := spliceInsert_shape (pre ++ post)
      (match findIndex isDone (pre ++ post) with
        | none => (pre ++ post).length
        | some firstChecked => firstChecked) (coerceDone item)
    exact ⟨us, ds, by rw [h1], h2⟩

theorem setList_frame (st : State) (ln : ListName) (arr : List Obj) :
    (st.setList ln arr).events = st.events ∧
      ∀ other, other ≠ ln → (st.setList ln arr).list other = st.list other := by
  cases ln
  · refine ⟨rfl, ?_⟩
    intro other ho
    cases other
    · exact absurd rfl ho
    · rfl
  · refine ⟨rfl, ?_⟩
    intro other ho
    cases other
    · rfl
    · exact absurd rfl ho

/-- A list obtained from `rest` by inserting one item is one longer. -/
theorem shape_length (us ds rest : List Obj) (moved : Obj) (h : us ++ ds = rest) :
    (us ++ moved :: ds).length = rest.length + 1 := by
  rw [← h]
  simp only [List.length_append, List.length_cons]
  omega

/-- C28: for every list of the state and every id present in it, with `item`
the first item carrying the id and `pre`, `post` the items before and after it,
the list after `reorderListByCheck`, `moveToTop` and `moveToBottom` is
`us ++ item2 :: ds` with `us ++ ds = pre ++ post` (removing the target from the
result gives the input without the target, every other item unaltered and in
its order), so it has the length of the input; the moved item differs from the
target in its `done` field only, which for `moveToTop` and `moveToBottom` keeps
its truth value; the events and the other list are unchanged. -/
theorem reorder_keeps_other_items (st : State) (ln : ListName) (id checked : JVal)
    (h : ∃ x ∈ st.list ln, x.get "id" = id) :
    ∃ pre item post, st.list ln = pre ++ item :: post ∧ item.get "id" = id ∧
      (∀ x ∈ pre, x.get "id" ≠ id) ∧
      (∃ us ds, (reorderListByCheck st ln id checked).state.list ln =
          us ++ item.set "done" (.bool checked.truthy) :: ds ∧ us ++ ds = pre ++ post) ∧
      (∃ us ds, (moveToTop st ln id).state.list ln = us ++ coerceDone item :: ds ∧
          us ++ ds = pre ++ post) ∧
      (∃ us ds, (moveToBottom st ln id).state.list ln = us ++ coerceDone item :: ds ∧
          us ++ ds = pre ++ post) ∧
      ((reorderListByCheck st ln id checked).state.list ln).length = (st.list ln).length ∧
      ((moveToTop st ln id).state.list ln).length = (st.list ln).length ∧
      ((moveToBottom st ln id).state.list ln).length = (st.list ln).length ∧
      isDone (coerceDone item) = isDone item ∧
      (∀ k, k ≠ "done" → (coerceDone item).get k = item.get k ∧
        (item.set "done" (.bool checked.truthy)).get k = item.get k) ∧
      (∀ o, o = reorderListByCheck st ln id checked ∨ o = moveToTop st ln id ∨
          o = moveToBottom st ln id →
        o.state.events = st.events ∧
          ∀ other, other ≠ ln → o.state.list other = st.list other) := by
  obtain ⟨pre, item, post, harr, hid, hpre⟩ := id_split_of_mem id (st.list ln) h
  obtain ⟨u1, d1, hr, hr2⟩ := reorderArr_shape id checked pre item post hid hpre
  obtain ⟨u2, d2, ht, ht2⟩ := moveToTopArr_shape id pre item post hid hpre
  obtain ⟨u3, d3, hb, hb2⟩ := moveToBottomArr_shape id pre item post hid hpre
  have e1 : (reorderListByCheck st ln id checked).state =
      st.setList ln (u1 ++ item.set "done" (.bool checked.truthy) :: d1) := by
    simp only [reorderListByCheck, harr, hr]
  have e2 : (moveToTop st ln id).state = st.setList ln (u2 ++ coerceDone item :: d2) := by
    simp only [moveToTop, harr, ht]
  have e3 : (moveToBottom st ln id).state = st.setList ln (u3 ++ coerceDone item :: d3) := by
    simp only [moveToBottom, harr, hb]
  have hlen : (st.list ln).length = (pre ++ post).length + 1 := by
    rw [harr]
    simp only [List.length_append, List.length_cons]
    omega
  refine ⟨pre, item, post, harr, hid, hpre, ⟨u1, d1, ?_, hr2⟩, ⟨u2, d2, ?_, ht2⟩,
    ⟨u3, d3, ?_, hb2⟩, ?_, ?_, ?_, isDone_coerce item, ?_, ?_⟩
  · rw [e1, list_setList_same]
  · rw [e2, list_setList_same]
  · rw [e3, list_setList_same]
  · rw [e1, list_setList_same, hlen, shape_length u1 d1 _ _ hr2]
  · rw [e2, list_setList_same, hlen, shape_length u2 d2 _ _ ht2]
  · rw [e3, list_setList_same, hlen, shape_length u3 d3 _ _ hb2]
  · intro k hk
    exact ⟨get_set_other item "done" k _ hk, get_set_other item "done" k _ hk⟩
  · intro o ho
    rcases ho with ho | ho | ho
    · rw [ho, e1]
      exact setList_frame st ln _
    · rw [ho, e2]
      exact setList_frame st ln _
    · rw [ho, e3]
      exact setList_frame st ln _

theorem reorder_keeps_other_items_witness :
    (∃ x ∈ scenarioA.list .tasks, x.get "id" = .str "U2") ∧
    ∃ pre item post, scenarioA.list .tasks = pre ++ item :: post ∧
      item.get "id" = .str "U2" ∧
      (∀ x ∈ pre, x.get "id" ≠ .str "U2") ∧
      (∃ us ds, (reorderListByCheck scenarioA .tasks (.str "U2") (.bool true)).state.list .tasks =
          us ++ item.set "done" (.bool (JVal.bool true).truthy) :: ds ∧
          us ++ ds = pre ++ post) ∧
      (∃ us ds, (moveToTop scenarioA .tasks (.str "U2")).state.list .tasks =
          us ++ coerceDone item :: ds ∧ us ++ ds = pre ++ post) ∧
      (∃ us ds, (moveToBottom scenarioA .tasks (.str "U2")).state.list .tasks =
          us ++ coerceDone item :: ds ∧ us ++ ds = pre ++ post) ∧
      ((reorderListByCheck scenarioA .tasks (.str "U2") (.bool true)).state.list .tasks).length =
        (scenarioA.list .tasks).length ∧
      ((moveToTop scenarioA .tasks (.str "U2")).state.list .tasks).length =
        (scenarioA.list .tasks).length ∧
      ((moveToBottom scenarioA .tasks (.str "U2")).state.list .tasks).length =
        (scenarioA.list .tasks).length ∧
      isDone (coerceDone item) = isDone item ∧
      (∀ k, k ≠ "done" → (coerceDone item).get k = item.get k ∧
        (item.set "done" (.bool (JVal.bool true).truthy)).get k = item.get k) ∧
      (∀ o, o = reorderListByCheck scenarioA .tasks (.str "U2") (.bool true) ∨
          o = moveToTop scenarioA .tasks (.str "U2") ∨
          o = moveToBottom scenarioA .tasks (.str "U2") →
        o.state.events = scenarioA.events ∧
          ∀ other, other ≠ ListName.tasks → o.state.list other = scenarioA.list other) :=
  ⟨⟨mkItem "U2" false, by decide, by decide⟩,
    reorder_keeps_other_items scenarioA .tasks (.str "U2") (.bool true)
      ⟨mkItem "U2" false, by decide, by decide⟩⟩

/-! ## Duplicate topic names -/

theorem findTopicByName_of_match (h : Host) (name : String) (topics : List Obj)
    (hm : ∃ t ∈ topics, ∃ s, t.get "name" = .str s ∧
      h.toLowerCase (h.trim s) = h.toLowerCase (h.trim name)) :
    findTopicByName h name topics ≠ some none := by
  induction topics with
  | nil =>
    obtain ⟨t, ht, -⟩ := hm
    cases ht
  | cons x xs ih =>
    unfold findTopicByName
    cases hx : x.get "name" with
    | str s0 =>
      simp only
      by_cases hs : h.toLowerCase (h.trim s0) = h.toLowerCase (h.trim name)
      · rw [if_pos hs]
        simp
      · rw [if_neg hs]
        apply ih
        obtain ⟨t, ht, s, hts, hsn⟩ := hm
        rcases List.mem_cons.mp ht with rfl | ht2
        · rw [hx] at hts
          cases hts
          exact absurd hsn hs
        · exact ⟨t, ht2, s, hts, hsn⟩
    | undefined => simp
    | null => simp
    | bool b => simp
    | num k => simp
    | ref k => simp

theorem findTopicByName_strings (h : Host) (name : String) (topics : List Obj)
    (hs : ∀ t ∈ topics, ∃ s, t.get "name" = .str s) :
    findTopicByName h name topics ≠ none := by
  induction topics with
  | nil => simp [findTopicByName]
  | cons x xs ih =>
    obtain ⟨s, hx⟩ := hs x (List.mem_cons_self x xs)
    unfold findTopicByName
    rw [hx]
    simp only
    split
    · simp
    · exact ih (fun t ht => hs t (List.mem_cons_of_mem x ht))

theorem findOtherTopicByName_of_match (h : Host) (selfId : JVal) (title : String)
    (topics : List Obj)
    (hm : ∃ x ∈ topics, x.get "id" ≠ selfId ∧ ∃ s, x.get "name" = .str s ∧
      h.toLowerCase (h.trim s) = h.toLowerCase title) :
    findOtherTopicByName h selfId title topics ≠ some none := by
  induction topics with
  | nil =>
    obtain ⟨t, ht, -⟩ := hm
    cases ht
  | cons x xs ih =>
    have hrest : (x.get "id" = selfId ∨ ∀ s, x.get "name" = .str s →
        h.toLowerCase (h.trim s) ≠ h.toLowerCase title) →
        ∃ y ∈ xs, y.get "id" ≠ selfId ∧ ∃ s, y.get "name" = .str s ∧
          h.toLowerCase (h.trim s) = h.toLowerCase title := by
      intro hx
      obtain ⟨t, ht, hid, s, hts, hsn⟩ := hm
      rcases List.mem_cons.mp ht with rfl | ht2
      · rcases hx with hx | hx
        · exact absurd hx hid
        · exact absurd hsn (hx s hts)
      · exact ⟨t, ht2, hid, s, hts, hsn⟩
    unfold findOtherTopicByName
    by_cases hid : x.get "id" = selfId
    · rw [if_pos hid]
      exact ih (hrest (Or.inl hid))
    · rw [if_neg hid]
      cases hx : x.get "name" with
      | str s0 =>
        simp only
        by_cases hs : h.toLowerCase (h.trim s0) = h.toLowerCase title
        · rw [if_pos hs]
          simp
        · rw [if_neg hs]
          apply ih
          apply hrest
          right
          intro s hs2
          rw [hx] at hs2
          cases hs2
          exact hs
      | undefined => simp
      | null => simp
      | bool b => simp
      | num k => simp
      | ref k => simp

theorem addTopic_not_ok_state (h : Host) (n : Nat) (st : State) (name : String)
    (hno : ∀ t, (addTopic h n st name).2 ≠ .ok t) : (addTopic h n st name).1 = st := by
  unfold addTopic at hno ⊢
  by_cases hn : name = ""
  · rw [if_pos hn]
  · rw [if_neg hn] at hno ⊢
    cases hf : findTopicByName h name st.topics with
    | none => rfl
    | some r =>
      cases r with
      | some t => rfl
      | none =>
        rw [hf] at hno
        exact absurd rfl (hno _)

theorem addTopic_duplicate (h : Host) (n : Nat) (st : State) (name : String)
    (hm : ∃ t ∈ st.topics, ∃ s, t.get "name" = .str s ∧
      h.toLowerCase (h.trim s) = h.toLowerCase (h.trim name)) :
    (∀ t, (addTopic h n st name).2 ≠ .ok t) ∧
    ((∀ t ∈ st.topics, ∃ s, t.get "name" = .str s) →
      (addTopic h n st name).2 = .fail "名称为空" ∨
      (addTopic h n st name).2 = .fail "主题已存在") := by
  have h1 := findTopicByName_of_match h name st.topics hm
  unfold addTopic
  by_cases hn : name = ""
  · rw [if_pos hn]
    exact ⟨fun t => by simp, fun _ => Or.inl rfl⟩
  · rw [if_neg hn]
    cases hf : findTopicByName h name st.topics with
    | none =>
      exact ⟨fun t => by simp, fun hs => absurd hf (findTopicByName_strings h name st.topics hs)⟩
    | some r =>
      cases r with
      | some t => exact ⟨fun t => by simp, fun _ => Or.inr rfl⟩
      | none => exact absurd hf h1

theorem saveEditContent_duplicate (h : Host) (st : State) (ce : CurrentEdit)
    (title body : String) (topicId : JVal) (isAutoSave : Bool) (t : Obj)
    (hty : ce.type = .topic)
    (hfind : st.topics.find? (fun x => decide (x.get "id" = ce.id)) = some t)
    (hren : ∀ nm, t.get "name" = .str nm → h.toLowerCase title ≠ h.toLowerCase (h.trim nm))
    (hm : ∃ x ∈ st.topics, x.get "id" ≠ t.get "id" ∧ ∃ s, x.get "name" = .str s ∧
      h.toLowerCase (h.trim s) = h.toLowerCase title) :
    (∀ st2, saveEditContent h st ce title body topicId isAutoSave = .ok st2 → st2 = st) ∧
    (title ≠ "" → ∃ msg, saveEditContent h st ce title body topicId isAutoSave = .error msg) := by
  have h1 := findOtherTopicByName_of_match h (t.get "id") title st.topics hm
  unfold saveEditContent
  rw [hty]
  simp only [hfind]
  by_cases ht : title = ""
  · rw [if_pos ht]
    cases isAutoSave
    · exact ⟨fun st2 h2 => by simp at h2, fun hne => absurd ht hne⟩
    · refine ⟨fun st2 h2 => ?_, fun hne => absurd ht hne⟩
      simp only [if_true] at h2
      cases h2
      rfl
  · rw [if_neg ht]
    cases hnm : t.get "name" with
    | str nm =>
      simp only
      rw [if_pos (hren nm hnm)]
      cases hf : findOtherTopicByName h (t.get "id") title st.topics with
      | none => exact ⟨fun st2 h2 => by simp at h2, fun _ => ⟨_, rfl⟩⟩
      | some r =>
        cases r with
        | some x => exact ⟨fun st2 h2 => by simp at h2, fun _ => ⟨_, rfl⟩⟩
        | none => exact absurd hf h1
    | undefined => exact ⟨fun st2 h2 => by simp at h2, fun _ => ⟨_, rfl⟩⟩
    | null => exact ⟨fun st2 h2 => by simp at h2, fun _ => ⟨_, rfl⟩⟩
    | bool b => exact ⟨fun st2 h2 => by simp at h2, fun _ => ⟨_, rfl⟩⟩
    | num k => exact ⟨fun st2 h2 => by simp at h2, fun _ => ⟨_, rfl⟩⟩
    | ref k => exact ⟨fun st2 h2 => by simp at h2, fun _ => ⟨_, rfl⟩⟩

theorem performSaveFinish_state (y : App) (b ro : Bool) :
    (performSaveFinish y b ro).state = y.state := by
  have hc : ∀ z : App, (clearEditor z).state = z.state := by
    intro z
    unfold clearEditor
    rw [(cancelAutoSaveTimer_fields _).2.2.2.2.2.2]
    rfl
  unfold performSaveFinish
  cases b <;> cases ro <;> by_cases hm : y.mode = "edit" <;>
    simp [updateOriginalContent, renderAll, hm, hc]

theorem performSaveRest_state (x : App) (b lw ro : Bool) :
    (performSaveRest x b lw ro).1.state = x.state := by
  rcases performSaveRest_cases x b lw ro with ⟨-, hr⟩ | ⟨-, hr⟩
  · rw [hr]
    cases b <;> simp [performSaveCatch, showMessage]
  · rw [hr, performSaveFinish_state]
    exact (storedApp_fields x).2.2.2.1

/-- C21: a topic name that is already taken is rejected without changing the
state.  (1) When the trimmed, lower-cased `name` equals that of an existing
topic, `addTopic` leaves the state as it was and does not return a topic; when
all topic names are strings (the data model) the result is one of the two
failure results.  (2) In an edit session on topic `t`, a title whose lower-cased
form differs from that of the own name and equals the trimmed, lower-cased name
of a topic with another id makes `saveEditContent` end without a changed state:
every state it returns is the input state, and a non-empty title makes it throw.
(3) `performSave` in that session leaves the state as it was. -/
theorem duplicate_topic_name_rejected (h : Host) :
    (∀ (n : Nat) (st : State) (name : String),
      (∃ t ∈ st.topics, ∃ s, t.get "name" = .str s ∧
        h.toLowerCase (h.trim s) = h.toLowerCase (h.trim name)) →
      (addTopic h n st name).1 = st ∧
      (∀ t, (addTopic h n st name).2 ≠ .ok t) ∧
      ((∀ t ∈ st.topics, ∃ s, t.get "name" = .str s) →
        (addTopic h n st name).2 = .fail "名称为空" ∨
        (addTopic h n st name).2 = .fail "主题已存在")) ∧
    (∀ (st : State) (ce : CurrentEdit) (title body : String) (topicId : JVal)
      (isAutoSave : Bool) (t : Obj),
      ce.type = .topic →
      st.topics.find? (fun x => decide (x.get "id" = ce.id)) = some t →
      (∀ nm, t.get "name" = .str nm → h.toLowerCase title ≠ h.toLowerCase (h.trim nm)) →
      (∃ x ∈ st.topics, x.get "id" ≠ t.get "id" ∧ ∃ s, x.get "name" = .str s ∧
        h.toLowerCase (h.trim s) = h.toLowerCase title) →
      (∀ st2, saveEditContent h st ce title body topicId isAutoSave = .ok st2 → st2 = st) ∧
      (title ≠ "" →
        ∃ msg, saveEditContent h st ce title body topicId isAutoSave = .error msg)) ∧
    (∀ (app : App) (ce : CurrentEdit) (t : Obj) (b lw ro : Bool),
      app.mode = "edit" → app.currentEdit = some ce → ce.type = .topic →
      app.state.topics.find? (fun x => decide (x.get "id" = ce.id)) = some t →
      (∀ nm, t.get "name" = .str nm →
        h.toLowerCase (h.trim app.editor.title) ≠ h.toLowerCase (h.trim nm)) →
      (∃ x ∈ app.state.topics, x.get "id" ≠ t.get "id" ∧ ∃ s, x.get "name" = .str s ∧
        h.toLowerCase (h.trim s) = h.toLowerCase (h.trim app.editor.title)) →
      (performSave h app b lw ro).1.state = app.state) := by
  refine ⟨?_, ?_, ?_⟩
  · intro n st name hm
    obtain ⟨h1, h2⟩ := addTopic_duplicate h n st name hm
    exact ⟨addTopic_not_ok_state h n st name h1, h1, h2⟩
  · intro st ce title body topicId isAutoSave t hty hfind hren hm
    exact saveEditContent_duplicate h st ce title body topicId isAutoSave t hty hfind hren hm
  · intro app ce t b lw ro hmode hce hty hfind hren hm
    rcases performSave_cases h app b lw ro with
      ⟨-, hp⟩ | ⟨-, -, -, -, -, x, hss, hx, hp⟩ | ⟨-, ce2, msg, -, -, -, x, hss, hx, hp⟩ |
      ⟨-, msg, hno, -⟩ | ⟨-, ce2, st1, -, hc2, -, hs, x, hss, hx, hp⟩ | ⟨-, st1, hno, -⟩
    · rw [hp]
    · rw [hp]
      simp only
      rw [(empty_session x app hss b).2.2.2.2.1, hx]
    · rw [hp]
      simp only
      rw [(catch_session x app hss b msg).2.2.2.2.2.2.2.2.1, hx]
    · rw [hno hmode] at hce
      cases hce
    · rw [hce] at hc2
      cases hc2
      have := (saveEditContent_duplicate h app.state ce (h.trim app.editor.title)
        (h.trim app.editor.body) (if app.editor.topic = "" then .null else .str app.editor.topic)
        b t hty hfind hren hm).1 st1 hs
      rw [hp, performSaveRest_state, hx, this]
    · rw [hno hmode] at hce
      cases hce

theorem duplicate_topic_name_rejected_witness :
    workState.topics.length = 1 ∧
    (addTopic asciiHost 1 workState "work").1 = workState ∧
    (addTopic asciiHost 1 workState "work").2 = .fail "主题已存在" ∧
    (∀ st2, saveEditContent asciiHost twoTopics ⟨.topic, .str "p2"⟩ "WORK" "x" .null false =
        .ok st2 → st2 = twoTopics) ∧
    (∃ msg, saveEditContent asciiHost twoTopics ⟨.topic, .str "p2"⟩ "WORK" "x" .null false =
        .error msg) :=
  have hadd := (duplicate_topic_name_rejected asciiHost).1 1 workState "work"
    ⟨[("id", .str "u"), ("name", .str "Work"), ("notes", .str ""), ("done", .bool false),
      ("createdAt", .str "1970-01-01T00:00:00.000Z")], by decide, "Work", by decide, by decide⟩
  have hren := (duplicate_topic_name_rejected asciiHost).2.1 twoTopics ⟨.topic, .str "p2"⟩
    "WORK" "x" .null false
    [("id", .str "p2"), ("name", .str "Home"), ("notes", .str "h"), ("done", .bool false)]
    rfl (by decide)
    (fun nm hnm => by
      have : nm = "Home" := by
        have h2 : (JVal.str "Home") = JVal.str nm := hnm
        cases h2
        rfl
      subst this
      decide)
    ⟨[("id", .str "p1"), ("name", .str "Work"), ("notes", .str ""), ("done", .bool false)],
      by decide, by decide, "Work", by decide, by decide⟩
  ⟨by decide, hadd.1,
    (hadd.2.2 (fun t ht => by
      have h1 : workState.topics =
          [[("id", .str "u"), ("name", .str "Work"), ("notes", .str ""), ("done", .bool false),
            ("createdAt", .str "1970-01-01T00:00:00.000Z")]] := by decide
      rw [h1] at ht
      rw [List.mem_singleton.mp ht]
      exact ⟨"Work", by decide⟩)).resolve_left (by decide),
    hren.1, hren.2 (by decide)⟩

/-! ## Deleting a topic -/

theorem clearEditor_state (z : App) : (clearEditor z).state = z.state := by
  unfold clearEditor
  rw [(cancelAutoSaveTimer_fields _).2.2.2.2.2.2]
  rfl

/-- C22: deleting the topic with id `id`, by the menu action or by
`deleteCurrentEditItem` in an edit session on that topic, gives the same data
state in both ways; in it no topic carries `id` and the topics are the other
topics in their order, the tasks are unchanged, and the events are as many as
before and in the same positions: an event that referenced `id` has its topic
set to `null` and every other field as before, every other event is unchanged.
Declining the confirmation changes nothing. -/
theorem topic_deletion_delinks_events (st : State) (id : JVal) :
    (∀ x ∈ (deleteTopicAction st id true).state.topics, x.get "id" ≠ id) ∧
    (deleteTopicAction st id true).state.topics =
      st.topics.filter (fun x => decide (x.get "id" ≠ id)) ∧
    (deleteTopicAction st id true).state.tasks = st.tasks ∧
    (deleteTopicAction st id true).state.events.length = st.events.length ∧
    (∀ i ev, st.events.get? i = some ev →
      ∃ ev2, (deleteTopicAction st id true).state.events.get? i = some ev2 ∧
        (ev.get "topic" = id → ev2.get "topic" = .null) ∧
        (ev.get "topic" ≠ id → ev2 = ev) ∧
        ∀ k, k ≠ "topic" → ev2.get k = ev.get k) ∧
    (deleteTopicAction st id false).state = st ∧
    (∀ (app : App) (t : Obj) (lw ro : Bool), app.state = st → t.get "id" = id →
      (deleteTopicMenuAction app t true lw ro).state = (deleteTopicAction st id true).state ∧
      (deleteTopicMenuAction app t false lw ro) = app) ∧
    (∀ (app : App) (lw ro : Bool), app.state = st →
      app.currentEdit = some { type := .topic, id := id } →
      (deleteCurrentEditItem app true lw ro).state = (deleteTopicAction st id true).state ∧
      (deleteCurrentEditItem app false lw ro) = app) := by
  refine ⟨?_, ?_, rfl, ?_, ?_, rfl, ?_, ?_⟩
  · intro x hx
    simp only [deleteTopicAction, if_true, List.mem_filter] at hx
    simpa using hx.2
  · simp only [deleteTopicAction, if_true]
    congr 1
    funext x
    simp
  · simp [deleteTopicAction]
  · intro i ev hev
    refine ⟨if ev.get "topic" = id then ev.set "topic" .null else ev, ?_, ?_, ?_, ?_⟩
    · simp only [deleteTopicAction, if_true]
      rw [List.get?_eq_getElem?, List.getElem?_map]
      rw [List.get?_eq_getElem?] at hev
      rw [hev]
      rfl
    · intro ht
      rw [if_pos ht]
      exact get_set_same ev "topic" .null
    · intro ht
      rw [if_neg ht]
    · intro k hk
      split
      · exact get_set_other ev "topic" k .null hk
      · rfl
  · intro app t lw ro hst hid
    refine ⟨?_, ?_⟩
    · have hr : ∀ (z : App) (sto : Store) (k : Nat),
          (if lw = true then renderAll { z with store := sto, saveCalls := k }
            else { z with store := sto, saveCalls := k }).state = z.state := by
        intro z sto k
        cases lw <;> rfl
      simp only [deleteTopicMenuAction, if_true, hst, hid]
      rw [hr]
      cases hce : app.currentEdit with
      | none => rfl
      | some ce =>
        simp only
        split
        · rw [clearEditor_state]
        · rfl
    · simp [deleteTopicMenuAction]
  · intro app lw ro hst hce
    refine ⟨?_, ?_⟩
    · have hr : ∀ (z : App) (sto : Store) (k : Nat),
          (if lw = true then renderAll { z with store := sto, saveCalls := k }
            else { z with store := sto, saveCalls := k }).state = z.state := by
        intro z sto k
        cases lw <;> rfl
      simp only [deleteCurrentEditItem, hce, if_true, hst]
      rw [hr, clearEditor_state]
      rfl
    · simp [deleteCurrentEditItem, hce]

theorem topic_deletion_delinks_events_witness :
    (deleteCurrentEditItem editingTopic true true true).state =
      (deleteTopicAction linkedState (.str "p1") true).state ∧
    (deleteTopicAction linkedState (.str "p1") true).state.events.map (fun ev => ev.get "topic") =
      [.null, .str "p2", .null] ∧
    (deleteTopicAction linkedState (.str "p1") true).state.topics.map (fun t => t.get "id") =
      [.str "p2"] :=
  ⟨((topic_deletion_delinks_events linkedState (.str "p1")).2.2.2.2.2.2.2
      editingTopic true true rfl rfl).1,
    by decide, by decide⟩

/-! ## The invariants of an imported state -/

theorem partitioned_iff_map (l : List Obj) :
    partitioned l ↔ (l.map isDone).Pairwise (fun a b => a = true → b = true) := by
  unfold partitioned
  rw [List.pairwise_map]

theorem fillItem_isDone (h : Host) (tsKey : String) (hk : tsKey ≠ "id") (hd : tsKey ≠ "done")
    (item : Obj) (n : Nat) : isDone (fillItem h tsKey item n).1 = isDone item := by
  have := (fillItem_filled h tsKey hk item n).1 "done" (by decide) (Ne.symm hd)
  simp only [isDone, this]

theorem fillItems_isDone (h : Host) (tsKey : String) (hk : tsKey ≠ "id") (hd : tsKey ≠ "done") :
    ∀ (xs : List (Option Obj)) (n : Nat) (out : List Obj) (m : Nat),
      fillItems h tsKey xs n = some (out, m) →
      out.map isDone = (xs.filterMap id).map isDone := by
  intro xs
  induction xs with
  | nil =>
    intro n out m hf
    simp only [fillItems, Option.some.injEq, Prod.mk.injEq] at hf
    rw [← hf.1]
    rfl
  | cons y rest ih =>
    intro n out m hf
    cases y with
    | none => simp [fillItems] at hf
    | some item =>
      simp only [fillItems] at hf
      cases hr : fillItems h tsKey rest (fillItem h tsKey item n).2 with
      | none => simp [hr] at hf
      | some p =>
        obtain ⟨out2, m2⟩ := p
        simp only [hr, Option.some.injEq, Prod.mk.injEq] at hf
        rw [← hf.1]
        simp only [List.map_cons, List.filterMap_cons_some (id_eq _), fillItem_isDone h tsKey hk hd,
          ih _ out2 m2 hr]

theorem fillItems_mem (h : Host) (tsKey : String) (hk : tsKey ≠ "id") :
    ∀ (xs : List (Option Obj)) (n : Nat) (out : List Obj) (m : Nat),
      fillItems h tsKey xs n = some (out, m) →
      (∀ o ∈ out, ∃ item, some item ∈ xs ∧ FilledFrom h tsKey item o) ∧
      (∀ item, some item ∈ xs → ∃ o ∈ out, FilledFrom h tsKey item o) := by
  intro xs
  induction xs with
  | nil =>
    intro n out m hf
    simp only [fillItems, Option.some.injEq, Prod.mk.injEq] at hf
    rw [← hf.1]
    exact ⟨fun o ho => (by cases ho), fun item hi => (by cases hi)⟩
  | cons y rest ih =>
    intro n out m hf
    cases y with
    | none => simp [fillItems] at hf
    | some item0 =>
      simp only [fillItems] at hf
      cases hr : fillItems h tsKey rest (fillItem h tsKey item0 n).2 with
      | none => simp [hr] at hf
      | some p =>
        obtain ⟨out2, m2⟩ := p
        simp only [hr, Option.some.injEq, Prod.mk.injEq] at hf
        obtain ⟨ih1, ih2⟩ := ih _ out2 m2 hr
        rw [← hf.1]
        constructor
        · intro o ho
          rcases List.mem_cons.mp ho with rfl | ho2
          · exact ⟨item0, List.mem_cons_self _ _, fillItem_filled h tsKey hk item0 n⟩
          · obtain ⟨item, hi, hfl⟩ := ih1 o ho2
            exact ⟨item, List.mem_cons_of_mem _ hi, hfl⟩
        · intro item hi
          rcases List.mem_cons.mp hi with heq | hi2
          · cases heq
            exact ⟨_, List.mem_cons_self _ _, fillItem_filled h tsKey hk item0 n⟩
          · obtain ⟨o, ho, hfl⟩ := ih2 item hi2
            exact ⟨o, List.mem_cons_of_mem _ ho, hfl⟩

theorem mem_importedItems (xs : Option (List (Option Obj))) (item : Obj) :
    item ∈ importedItems xs ↔ some item ∈ arrayOrEmpty xs := by
  simp [importedItems, List.mem_filterMap]

/-- C26, the claim as stated fails: the bundle `looseBundle` is imported as it
is, with the done task in front of the undone one and with the event that
references the missing topic `ghost`. -/
theorem import_keeps_broken_invariants :
    ∃ out, processImportedDataStructure demoHost 0 looseBundle = some out ∧
      (processImportedData demoHost { editingTask with state := emptyState }
        (.value looseBundle) true true).state = out ∧
      out.tasks.map (fun t => (t.get "id", isDone t)) =
        [(.str "D", true), (.str "U", false)] ∧
      ¬ partitioned out.tasks ∧
      out.topics = [] ∧
      out.events.map (fun ev => ev.get "topic") = [.str "ghost"] ∧
      ¬ (∀ ev ∈ out.events, ev.get "topic" = .null ∨
          ∃ t ∈ out.topics, t.get "id" = ev.get "topic") :=
  ⟨_, rfl, by decide, by decide, by decide, by decide, by decide, by decide⟩

/-- C26, amended: the normaliser adds missing ids and timestamps and sorts the
events, and leaves the order of tasks and topics, their done flags and the topic
references as they were imported.  So the imported state has the invariants
exactly as far as the bundle has them: its tasks (topics) are partitioned if and
only if the imported tasks (topics) are, and if every imported event has an
empty topic reference or references an imported topic, so has every event of
the result; `processImportedData` installs that state. -/
theorem import_preserves_invariants (h : Host) (n : Nat) (b : Bundle) (out : State)
    (hout : processImportedDataStructure h n b = some out) :
    (partitioned out.tasks ↔ partitioned (importedItems b.tasks)) ∧
    (partitioned out.topics ↔ partitioned (importedItems b.topics)) ∧
    ((∀ ev ∈ importedItems b.events, TopicRefOk (importedItems b.topics) ev) →
      ∀ ev ∈ out.events, TopicRefOk out.topics ev) ∧
    (∀ (app : App) (lw ro : Bool), app.tick = n →
      (processImportedData h app (.value b) lw ro).state = out) := by
  obtain ⟨ev, n1, tp, n2, tk, n3, hev, htp, htk, ho⟩ :=
    processImportedDataStructure_some h n b out hout
  have hkd := fillItems_isDone h "createdAt" (by decide) (by decide) _ _ _ _ htk
  have hpd := fillItems_isDone h "createdAt" (by decide) (by decide) _ _ _ _ htp
  refine ⟨?_, ?_, ?_, ?_⟩
  · rw [partitioned_iff_map, partitioned_iff_map, ho]
    simp only [importedItems]
    rw [hkd]
  · rw [partitioned_iff_map, partitioned_iff_map, ho]
    simp only [importedItems]
    rw [hpd]
  · intro hrefs e2 he2
    rw [ho] at he2 ⊢
    simp only at he2 ⊢
    have he3 : e2 ∈ ev := (sortEvents_perm h ev).mem_iff.mp he2
    obtain ⟨item, hi, hfl⟩ := (fillItems_mem h "ts" (by decide) _ _ _ _ hev).1 e2 he3
    have htopic : e2.get "topic" = item.get "topic" := hfl.1 "topic" (by decide) (by decide)
    unfold TopicRefOk
    rw [htopic]
    by_cases htr : (item.get "topic").truthy = true
    · right
      rcases hrefs item ((mem_importedItems _ _).mpr hi) with hf | ⟨t, ht, hid⟩
      · rw [hf] at htr
        cases htr
      · obtain ⟨t2, ht2, hfl2⟩ :=
          (fillItems_mem h "createdAt" (by decide) _ _ _ _ htp).2 t ((mem_importedItems _ _).mp ht)
        refine ⟨t2, ht2, ?_⟩
        have := hfl2.2.1
        rw [hid, if_pos htr] at this
        exact this
    · left
      simpa using htr
  · intro app lw ro htick
    simp only [processImportedData, htick, hout]
    cases lw <;> cases app.hasLocalServer <;> simp [showMessage, renderAll]

theorem import_preserves_invariants_witness :
    ∃ out, processImportedDataStructure demoHost 0 tidyBundle = some out ∧
      partitioned out.tasks ∧ partitioned out.topics ∧
      ∀ ev ∈ out.events, TopicRefOk out.topics ev :=
  ⟨_, rfl,
    (import_preserves_invariants demoHost 0 tidyBundle _ rfl).1.mpr (by decide),
    (import_preserves_invariants demoHost 0 tidyBundle _ rfl).2.1.mpr (by decide),
    (import_preserves_invariants demoHost 0 tidyBundle _ rfl).2.2.1 (by
      intro ev hev
      have h1 : importedItems tidyBundle.events =
          [[("ts", .str "1970-01-01T00:00:00.001Z"), ("topic", .str "p")],
           [("id", .str "e"), ("ts", .str "1970-01-01T00:00:00.000Z"), ("topic", .null)]] := by
        decide
      rw [h1] at hev
      simp only [List.mem_cons, List.mem_singleton, List.not_mem_nil, or_false] at hev
      rcases hev with rfl | rfl
      · exact Or.inr ⟨[("id", .str "p"), ("name", .str "work")], by decide, by decide⟩
      · exact Or.inl (by decide))⟩

/-! ## Backup file names -/

theorem listedDateArg_no_dash (file : String) : '-' ∉ (listedDateArg file).data := by
  intro hmem
  simp only [listedDateArg, replaceAllChar, List.mem_map] at hmem
  obtain ⟨c, -, hc⟩ := hmem
  by_cases h : c = '-'
  · rw [if_pos h] at hc
    exact absurd hc (by decide)
  · rw [if_neg h] at hc
    exact h hc

theorem listedDateArg_ne_of_dash (s : String) (hs : '-' ∈ s.data) :
    listedDateArg (backupFileName s) ≠ s := by
  intro heq
  have := listedDateArg_no_dash (backupFileName s)
  rw [heq] at this
  exact this hs

/-- C29, where the code departs from the claim: for the instant
`2025-01-02T03:04:05.678Z` the function `createBackup` writes the file
`backup_2025-01-02T03-04-05.678Z.json`; the backup list strips the prefix and
the suffix and then replaces every `-` by `:`, the dashes of the date included,
so the string it hands to `new Date` is `2025:01:02T03:04:05.678Z`, which is
not the instant the name was built from. -/
theorem backup_name_round_trip_fails :
    backupFileName "2025-01-02T03:04:05.678Z" = "backup_2025-01-02T03-04-05.678Z.json" ∧
    isBackupName (backupFileName "2025-01-02T03:04:05.678Z") = true ∧
    listedTimestamp (backupFileName "2025-01-02T03:04:05.678Z") = "2025-01-02T03-04-05.678Z" ∧
    listedDateArg (backupFileName "2025-01-02T03:04:05.678Z") = "2025:01:02T03:04:05.678Z" ∧
    listedDateArg (backupFileName "2025-01-02T03:04:05.678Z") ≠ "2025-01-02T03:04:05.678Z" := by
  decide

/-! ## Backup retention -/

theorem insertByName_perm (cmp : String → String → Int) (x : String) :
    ∀ l : List String, (insertByName cmp x l).Perm (x :: l) := by
  intro l
  induction l with
  | nil => exact List.Perm.refl _
  | cons y ys ih =>
    unfold insertByName
    split
    · exact List.Perm.refl _
    · exact (List.Perm.cons y ih).trans (List.Perm.swap x y ys)

theorem sortByName_perm (cmp : String → String → Int) :
    ∀ l : List String, (sortByName cmp l).Perm l := by
  intro l
  induction l with
  | nil => exact List.Perm.refl _
  | cons x xs ih =>
    simp only [sortByName]
    exact (insertByName_perm cmp x _).trans (List.Perm.cons x ih)

theorem insertByName_sorted (cmp : String → String → Int)
    (htot : ∀ a b, cmp a b ≤ 0 ∨ cmp b a ≤ 0)
    (htr : ∀ a b c, cmp a b ≤ 0 → cmp b c ≤ 0 → cmp a c ≤ 0) (x : String) :
    ∀ l : List String, l.Pairwise (fun a b => cmp a b ≤ 0) →
      (insertByName cmp x l).Pairwise (fun a b => cmp a b ≤ 0) := by
  intro l
  induction l with
  | nil =>
    intro _
    simp [insertByName]
  | cons y ys ih =>
    intro hs
    have hc := List.pairwise_cons.mp hs
    unfold insertByName
    by_cases hxy : cmp x y ≤ 0
    · rw [if_pos hxy]
      refine List.pairwise_cons.mpr ⟨?_, hs⟩
      intro z hz
      rcases List.mem_cons.mp hz with rfl | hz2
      · exact hxy
      · exact htr x y z hxy (hc.1 z hz2)
    · rw [if_neg hxy]
      have hyx : cmp y x ≤ 0 := (htot x y).resolve_left hxy
      refine List.pairwise_cons.mpr ⟨?_, ih hc.2⟩
      intro z hz
      rcases List.mem_cons.mp ((insertByName_perm cmp x ys).mem_iff.mp hz) with rfl | hz2
      · exact hyx
      · exact hc.1 z hz2

theorem sortByName_sorted (cmp : String → String → Int)
    (htot : ∀ a b, cmp a b ≤ 0 ∨ cmp b a ≤ 0)
    (htr : ∀ a b c, cmp a b ≤ 0 → cmp b c ≤ 0 → cmp a c ≤ 0) :
    ∀ l : List String, (sortByName cmp l).Pairwise (fun a b => cmp a b ≤ 0) := by
  intro l
  induction l with
  | nil => exact List.Pairwise.nil
  | cons x xs ih =>
    simp only [sortByName]
    exact insertByName_sorted cmp htot htr x _ ih

theorem foldl_erase_eq_filter :
    ∀ (del files : List String), files.Nodup →
      del.foldl (fun dir file => dir.erase file) files =
        files.filter (fun f => decide (f ∉ del)) := by
  intro del
  induction del with
  | nil =>
    intro files _
    simp
  | cons d ds ih =>
    intro files hnd
    simp only [List.foldl_cons]
    rw [ih (files.erase d) (hnd.erase d), hnd.erase_eq_filter d, List.filter_filter]
    apply List.filter_congr
    intro f _
    by_cases h1 : f = d
    · simp [h1]
    · by_cases h2 : f ∈ ds
      · simp [h1, h2]
      · simp [h1, h2]

theorem cleanOldBackups_of_few (cmp : String → String → Int) (files : List String)
    (hlen : ¬ (files.filter isBackupName).length > 30) : cleanOldBackups cmp files = files := by
  simp only [cleanOldBackups]
  rw [if_neg hlen]

theorem cleanOldBackups_of_many (cmp : String → String → Int) (files : List String)
    (hnd : files.Nodup) (hlen : (files.filter isBackupName).length > 30) :
    cleanOldBackups cmp files =
      files.filter (fun f => decide (f ∉ (sortByName cmp (files.filter isBackupName)).take
        ((files.filter isBackupName).length - 30))) := by
  simp only [cleanOldBackups]
  rw [if_pos hlen]
  exact foldl_erase_eq_filter _ _ hnd

/-- C25: for a backup directory with the distinct file names `files`, and a
comparator that is total and transitive, `cleanOldBackups` leaves a sub-list of
the names; the files that are not backup files are all left; of the n backup
files min(n, 30) are left and n - 30 are deleted; and every deleted backup file
comes, in the comparator's order, before or with every backup file that is
left. -/
theorem cleanOldBackups_keeps_greatest (cmp : String → String → Int) (files : List String)
    (hnd : files.Nodup)
    (htot : ∀ a b, cmp a b ≤ 0 ∨ cmp b a ≤ 0)
    (htr : ∀ a b c, cmp a b ≤ 0 → cmp b c ≤ 0 → cmp a c ≤ 0) :
    (cleanOldBackups cmp files).Sublist files ∧
    (cleanOldBackups cmp files).filter (fun f => !isBackupName f) =
      files.filter (fun f => !isBackupName f) ∧
    ((cleanOldBackups cmp files).filter isBackupName).length =
      min (files.filter isBackupName).length 30 ∧
    (cleanOldBackups cmp files).length + ((files.filter isBackupName).length - 30) =
      files.length ∧
    (∀ d ∈ files, isBackupName d = true → d ∉ cleanOldBackups cmp files →
      ∀ r ∈ cleanOldBackups cmp files, isBackupName r = true → cmp d r ≤ 0) := by
  by_cases hlen : (files.filter isBackupName).length > 30
  · have hR := cleanOldBackups_of_many cmp files hnd hlen
    generalize hB : files.filter isBackupName = B at hR hlen
    generalize hS : sortByName cmp B = sorted at hR
    have hperm : sorted.Perm B := hS ▸ sortByName_perm cmp B
    have hsorted : sorted.Pairwise (fun a b => cmp a b ≤ 0) :=
      hS ▸ sortByName_sorted cmp htot htr B
    have hBnd : B.Nodup := hB ▸ hnd.filter _
    have hsnd : sorted.Nodup := hperm.nodup_iff.mpr hBnd
    have hsplit : sorted.take (B.length - 30) ++ sorted.drop (B.length - 30) = sorted :=
      List.take_append_drop _ _
    generalize hdel : sorted.take (B.length - 30) = del at hR hsplit
    generalize hkeep : sorted.drop (B.length - 30) = keep at hsplit
    have hkl : keep.length = 30 := by
      rw [← hkeep, List.length_drop, hperm.length_eq]
      omega
    have hmemB : ∀ x, x ∈ B ↔ x ∈ files ∧ isBackupName x = true := by
      intro x
      rw [← hB, List.mem_filter]
    have hdk : ∀ x, x ∈ B ↔ x ∈ del ∨ x ∈ keep := by
      intro x
      rw [← hperm.mem_iff, ← hsplit, List.mem_append]
    have hdisj : ∀ x ∈ keep, x ∉ del := by
      intro x hk hd
      rw [← hsplit] at hsnd
      exact (List.disjoint_of_nodup_append hsnd) hd hk
    have hord : ∀ a ∈ del, ∀ b ∈ keep, cmp a b ≤ 0 := by
      rw [← hsplit] at hsorted
      exact (List.pairwise_append.mp hsorted).2.2
    have hnb : (cleanOldBackups cmp files).filter (fun f => !isBackupName f) =
        files.filter (fun f => !isBackupName f) := by
      rw [hR, List.filter_filter]
      apply List.filter_congr
      intro f _
      by_cases hb : isBackupName f = true
      · simp [hb]
      · have hfd : f ∉ del := fun hd => hb ((hmemB f).mp ((hdk f).mpr (Or.inl hd))).2
        simp [hb, hfd]
    have hbk : ((cleanOldBackups cmp files).filter isBackupName).length = 30 := by
      have e1 : (cleanOldBackups cmp files).filter isBackupName =
          B.filter (fun f => decide (f ∉ del)) := by
        rw [hR, ← hB, List.filter_filter, List.filter_filter]
        apply List.filter_congr
        intro f _
        exact Bool.and_comm _ _
      rw [e1, ← (hperm.filter _).length_eq, ← hsplit, List.filter_append]
      have e2 : del.filter (fun f => decide (f ∉ del)) = [] := by
        rw [List.filter_eq_nil_iff]
        intro a ha
        simp [ha]
      have e3 : keep.filter (fun f => decide (f ∉ del)) = keep := by
        rw [List.filter_eq_self]
        intro a ha
        simpa using hdisj a ha
      rw [e2, e3, List.nil_append, hkl]
    refine ⟨?_, hnb, ?_, ?_, ?_⟩
    · rw [hR]
      exact List.filter_sublist _
    · rw [hbk]
      omega
    · have l1 := List.length_eq_length_filter_add (l := cleanOldBackups cmp files) isBackupName
      have l2 := List.length_eq_length_filter_add (l := files) isBackupName
      rw [hnb, hbk] at l1
      rw [hB] at l2
      omega
    · intro d hd hdb hdR r hr hrb
      have hd2 : d ∈ del := by
        by_contra hnot
        apply hdR
        rw [hR, List.mem_filter]
        exact ⟨hd, by simpa using hnot⟩
      rw [hR, List.mem_filter] at hr
      have hr2 : r ∉ del := by simpa using hr.2
      have hr3 : r ∈ keep := ((hdk r).mp ((hmemB r).mpr ⟨hr.1, hrb⟩)).resolve_left hr2
      exact hord d hd2 r hr3
  · rw [cleanOldBackups_of_few cmp files hlen]
    refine ⟨List.Sublist.refl _, rfl, ?_, ?_, ?_⟩
    · omega
    · omega
    · intro d hd _ hdR
      exact absurd hd hdR

theorem compareNames_le (a b : String) : compareNames a b ≤ 0 ↔ a ≤ b := by
  unfold compareNames
  by_cases h1 : a < b
  · rw [if_pos h1]
    exact ⟨fun _ => le_of_lt h1, fun _ => by decide⟩
  · rw [if_neg h1]
    by_cases h2 : a = b
    · rw [if_pos h2]
      exact ⟨fun _ => le_of_eq h2, fun _ => le_refl _⟩
    · rw [if_neg h2]
      constructor
      · intro h3
        exact absurd h3 (by decide)
      · intro h3
        exact absurd (lt_of_le_of_ne h3 h2) h1

theorem cleanOldBackups_keeps_greatest_witness :
    fullBackupDir.Nodup ∧
    ((cleanOldBackups compareNames fullBackupDir).filter isBackupName).length =
      min (fullBackupDir.filter isBackupName).length 30 ∧
    (cleanOldBackups compareNames fullBackupDir).filter (fun f => !isBackupName f) =
      fullBackupDir.filter (fun f => !isBackupName f) :=
  have h := cleanOldBackups_keeps_greatest compareNames fullBackupDir (by decide)
    (fun a b => by
      rw [compareNames_le, compareNames_le]
      exact le_total a b)
    (fun a b c h1 h2 => by
      rw [compareNames_le] at h1 h2 ⊢
      exact le_trans h1 h2)
  ⟨by decide, h.2.2.1, h.2.1⟩

/-! ## The server's data file -/

theorem createBackup_dataFile (h : Host) (cmp : String → String → Int) (srv : Server)
    (data : StoredDoc) (backupOk : Bool) :
    (createBackup h cmp srv data backupOk).dataFile = srv.dataFile := by
  cases backupOk <;> simp [createBackup]

theorem writeDataFile_cases (h : Host) (cmp : String → String → Int) (srv : Server)
    (data : StoredDoc) (backupOk writeOk : Bool) :
    (writeOk = true ∧ (writeDataFile h cmp srv data backupOk writeOk).2 = true ∧
      (writeDataFile h cmp srv data backupOk writeOk).1.dataFile = .doc data) ∨
    (writeOk = false ∧ (writeDataFile h cmp srv data backupOk writeOk).2 = false ∧
      (writeDataFile h cmp srv data backupOk writeOk).1.dataFile = srv.dataFile) := by
  cases writeOk
  · right
    refine ⟨rfl, by simp [writeDataFile], ?_⟩
    simp only [writeDataFile]
    cases readDataFile srv.dataFile with
    | none => simp
    | some cur => simp [createBackup_dataFile]
  · left
    exact ⟨rfl, by simp [writeDataFile], by simp [writeDataFile]⟩

theorem postData_cases (h : Host) (cmp : String → String → Int) (srv : Server) (b : Bundle)
    (backupOk writeOk : Bool) :
    (processImportData h srv.tick b = none ∧
      (postData h cmp srv (some b) backupOk writeOk).2 = 500 ∧
      (postData h cmp srv (some b) backupOk writeOk).1.dataFile = srv.dataFile) ∨
    (∃ out, processImportData h srv.tick b = some out ∧ writeOk = false ∧
      (postData h cmp srv (some b) backupOk writeOk).2 = 500 ∧
      (postData h cmp srv (some b) backupOk writeOk).1.dataFile = srv.dataFile) ∨
    (∃ out, processImportData h srv.tick b = some out ∧ writeOk = true ∧
      (postData h cmp srv (some b) backupOk writeOk).2 = 200 ∧
      (postData h cmp srv (some b) backupOk writeOk).1.dataFile = .doc (jsonOfState out)) := by
  cases hp : processImportData h srv.tick b with
  | none =>
    left
    simp [postData, hp]
  | some out =>
    right
    generalize hs1 : ({ srv with tick := importEndTick h srv.tick b } : Server) = srv1
    have hd1 : srv1.dataFile = srv.dataFile := by rw [← hs1]
    rcases writeDataFile_cases h cmp srv1 (jsonOfState out) backupOk writeOk with
      ⟨hw, hr, hf⟩ | ⟨hw, hr, hf⟩
    · right
      refine ⟨out, rfl, hw, ?_, ?_⟩
      · simp only [postData, hp, hs1]
        generalize writeDataFile h cmp srv1 (jsonOfState out) backupOk writeOk = r at hr hf
        obtain ⟨s2, ok⟩ := r
        simp only at hr
        rw [hr]
      · simp only [postData, hp, hs1]
        generalize writeDataFile h cmp srv1 (jsonOfState out) backupOk writeOk = r at hr hf
        obtain ⟨s2, ok⟩ := r
        simp only at hr hf
        rw [hr]
        exact hf
    · left
      refine ⟨out, rfl, hw, ?_, ?_⟩
      · simp only [postData, hp, hs1]
        generalize writeDataFile h cmp srv1 (jsonOfState out) backupOk writeOk = r at hr hf
        obtain ⟨s2, ok⟩ := r
        simp only at hr
        rw [hr]
      · simp only [postData, hp, hs1]
        generalize writeDataFile h cmp srv1 (jsonOfState out) backupOk writeOk = r at hr hf
        obtain ⟨s2, ok⟩ := r
        simp only at hr hf
        rw [hr]
        exact hf.trans hd1

theorem hasIdAnd_json (tsKey : String) (x : Obj) (hx : HasIdAnd tsKey x) :
    HasIdAnd tsKey (jsonOfObj x) := by
  unfold HasIdAnd at hx ⊢
  simp only [get_jsonOfObj]
  exact hx

theorem processImportData_of_lists (h : Host) (n : Nat) (ev tp tk : List Obj)
    (hev : ∀ x ∈ ev, HasIdAnd "ts" x) (htp : ∀ x ∈ tp, HasIdAnd "createdAt" x)
    (htk : ∀ x ∈ tk, HasIdAnd "createdAt" x) :
    processImportData h n
        { events := some (ev.map some), topics := some (tp.map some),
          tasks := some (tk.map some) } =
      some { events := sortEvents h ev, topics := tp, tasks := tk } := by
  simp only [processImportData, arrayOrEmpty, fillItems_of_hasIdAnd h "ts" ev n hev,
    fillItems_of_hasIdAnd h "createdAt" tp n htp, fillItems_of_hasIdAnd h "createdAt" tk n htk]

theorem processImportData_of_state (h : Host) (n : Nat) (st : State)
    (hev : ∀ x ∈ st.events, HasIdAnd "ts" x) (htp : ∀ x ∈ st.topics, HasIdAnd "createdAt" x)
    (htk : ∀ x ∈ st.tasks, HasIdAnd "createdAt" x) :
    processImportData h n (bundleOfDoc (jsonOfState st)) =
      some { events := sortEvents h (st.events.map jsonOfObj),
             topics := st.topics.map jsonOfObj, tasks := st.tasks.map jsonOfObj } := by
  have := processImportData_of_lists h n (st.events.map jsonOfObj) (st.topics.map jsonOfObj)
    (st.tasks.map jsonOfObj)
    (by
      intro x hx
      obtain ⟨a, ha, rfl⟩ := List.mem_map.mp hx
      exact hasIdAnd_json _ a (hev a ha))
    (by
      intro x hx
      obtain ⟨a, ha, rfl⟩ := List.mem_map.mp hx
      exact hasIdAnd_json _ a (htp a ha))
    (by
      intro x hx
      obtain ⟨a, ha, rfl⟩ := List.mem_map.mp hx
      exact hasIdAnd_json _ a (htk a ha))
  simpa [bundleOfDoc, jsonOfState] using this

/-- The handler of `POST /api/data` followed by `GET /api/data`, for a value of
`req.body` that is an object. -/
theorem postData_then_get (h : Host) (cmp : String → String → Int)
    (srv : Server) (backupOk writeOk : Bool) :
    postData h cmp srv none backupOk writeOk = (srv, 400) ∧
    ∀ b : Bundle,
      ((postData h cmp srv (some b) backupOk writeOk).2 = 200 ↔
        (NoNull b ∧ writeOk = true)) ∧
      ((postData h cmp srv (some b) backupOk writeOk).2 = 200 →
        ∃ out, processImportData h srv.tick b = some out ∧
          getData (postData h cmp srv (some b) backupOk writeOk).1 =
            some (jsonOfState out)) ∧
      ((postData h cmp srv (some b) backupOk writeOk).2 ≠ 200 →
        (postData h cmp srv (some b) backupOk writeOk).1.dataFile = srv.dataFile) ∧
      (∀ ev tp tk : List Obj,
        b = { events := some (ev.map some), topics := some (tp.map some),
              tasks := some (tk.map some) } →
        (∀ x ∈ ev, HasIdAnd "ts" x) → (∀ x ∈ tp, HasIdAnd "createdAt" x) →
        (∀ x ∈ tk, HasIdAnd "createdAt" x) →
        (postData h cmp srv (some b) backupOk writeOk).2 = 200 →
        getData (postData h cmp srv (some b) backupOk writeOk).1 =
          some { events := some ((sortEvents h ev).map jsonOfObj),
                 topics := some (tp.map jsonOfObj), tasks := some (tk.map jsonOfObj) } ∧
        (sortEvents h ev).Perm ev ∧ (sortEvents h ev).length = ev.length ∧
        ((∀ e ∈ ev, (tsMs h e).isSome = true) → (sortEvents h ev).Pairwise (tsLe h)) ∧
        ((∀ x ∈ ev, JsonClean x) → (sortEvents h ev).map jsonOfObj = sortEvents h ev) ∧
        ((∀ x ∈ tp, JsonClean x) → tp.map jsonOfObj = tp) ∧
        ((∀ x ∈ tk, JsonClean x) → tk.map jsonOfObj = tk)) := by
  refine ⟨rfl, ?_⟩
  intro b
  have hret := processImportedDataStructure_returns_iff h srv.tick b
  rw [← processImportData_eq] at hret
  have hcases := postData_cases h cmp srv b backupOk writeOk
  have hget : (postData h cmp srv (some b) backupOk writeOk).2 = 200 →
      ∃ out, processImportData h srv.tick b = some out ∧
        getData (postData h cmp srv (some b) backupOk writeOk).1 =
          some (jsonOfState out) := by
    intro h200
    rcases hcases with ⟨-, hs, -⟩ | ⟨out, -, -, hs, -⟩ | ⟨out, hp, -, -, hf⟩
    · rw [hs] at h200
      cases h200
    · rw [hs] at h200
      cases h200
    · exact ⟨out, hp, by simp only [getData, hf, readDataFile]⟩
  refine ⟨?_, hget, ?_, ?_⟩
  · constructor
    · intro h200
      rcases hcases with ⟨-, hs, -⟩ | ⟨out, -, -, hs, -⟩ | ⟨out, hp, hw, -, -⟩
      · rw [hs] at h200
        cases h200
      · rw [hs] at h200
        cases h200
      · exact ⟨hret.mp ⟨out, hp⟩, hw⟩
    · rintro ⟨hnn, hw⟩
      obtain ⟨out, hp⟩ := hret.mpr hnn
      rcases hcases with ⟨hp2, -, -⟩ | ⟨out2, -, hw2, -, -⟩ | ⟨out2, -, -, hs, -⟩
      · rw [hp] at hp2
        cases hp2
      · rw [hw] at hw2
        cases hw2
      · exact hs
  · intro hne
    rcases hcases with ⟨-, -, hf⟩ | ⟨out, -, -, -, hf⟩ | ⟨out, -, -, hs, -⟩
    · exact hf
    · exact hf
    · exact absurd hs hne
  · intro ev tp tk hb hev htp htk h200
    obtain ⟨out, hp, hg⟩ := hget h200
    rw [hb, processImportData_of_lists h srv.tick ev tp tk hev htp htk] at hp
    cases hp
    refine ⟨?_, sortEvents_perm h ev, (sortEvents_perm h ev).length_eq,
      fun hv => sortEvents_sorted h ev hv, ?_, fun hc => map_json_of_clean tp hc,
      fun hc => map_json_of_clean tk hc⟩
    · rw [hg]
      rfl
    · intro hc
      apply map_json_of_clean
      intro x hx
      exact hc x ((sortEvents_perm h ev).mem_iff.mp hx)

/-- C24, the claim as stated fails: a request whose body is not a JSON object or
array does not reach the handler; `express.json()` refuses it and the error
middleware answers with status 500, not 400.  The stored data is unchanged. -/
theorem non_object_body_gets_500 :
    (postDataRoute demoHost compareNames servingOneTask .refused true true).2 = 500 ∧
    (postDataRoute demoHost compareNames servingOneTask .refused true true).2 ≠ 400 ∧
    (postDataRoute demoHost compareNames servingOneTask .refused true true).1 = servingOneTask ∧
    getData (postDataRoute demoHost compareNames servingOneTask .refused true true).1 =
      getData servingOneTask := by
  decide

/-- C24, amended: a `POST /api/data` request whose body `express.json()` refuses
(a text that is not a JSON object or array) is answered with status 500 and
leaves the files as they were.  For an accepted body `b` the answer is 200
exactly when no array element of `b` is `null` and the data file can be written;
then the normaliser returned a state `out` for `b` and a following
`GET /api/data` sends the document of `out`; with any other status the data
file is as before.  When the collections of `b` are arrays whose items all
carry an id and a timestamp, the document sent has the topics and the tasks of
`b` and the events of `b` sorted: a permutation of them, ascending when their
timestamps are valid (items that JSON denotes are sent unchanged). -/
theorem post_then_get_returns_normalised (h : Host) (cmp : String → String → Int)
    (srv : Server) (backupOk writeOk : Bool) :
    postDataRoute h cmp srv .refused backupOk writeOk = (srv, 500) ∧
    ∀ b : Bundle,
      ((postDataRoute h cmp srv (.accepted b) backupOk writeOk).2 = 200 ↔
        (NoNull b ∧ writeOk = true)) ∧
      ((postDataRoute h cmp srv (.accepted b) backupOk writeOk).2 = 200 →
        ∃ out, processImportData h srv.tick b = some out ∧
          getData (postDataRoute h cmp srv (.accepted b) backupOk writeOk).1 =
            some (jsonOfState out)) ∧
      ((postDataRoute h cmp srv (.accepted b) backupOk writeOk).2 ≠ 200 →
        (postDataRoute h cmp srv (.accepted b) backupOk writeOk).1.dataFile = srv.dataFile) ∧
      (∀ ev tp tk : List Obj,
        b = { events := some (ev.map some), topics := some (tp.map some),
              tasks := some (tk.map some) } →
        (∀ x ∈ ev, HasIdAnd "ts" x) → (∀ x ∈ tp, HasIdAnd "createdAt" x) →
        (∀ x ∈ tk, HasIdAnd "createdAt" x) →
        (postDataRoute h cmp srv (.accepted b) backupOk writeOk).2 = 200 →
        getData (postDataRoute h cmp srv (.accepted b) backupOk writeOk).1 =
          some { events := some ((sortEvents h ev).map jsonOfObj),
                 topics := some (tp.map jsonOfObj), tasks := some (tk.map jsonOfObj) } ∧
        (sortEvents h ev).Perm ev ∧ (sortEvents h ev).length = ev.length ∧
        ((∀ e ∈ ev, (tsMs h e).isSome = true) → (sortEvents h ev).Pairwise (tsLe h)) ∧
        ((∀ x ∈ ev, JsonClean x) → (sortEvents h ev).map jsonOfObj = sortEvents h ev) ∧
        ((∀ x ∈ tp, JsonClean x) → tp.map jsonOfObj = tp) ∧
        ((∀ x ∈ tk, JsonClean x) → tk.map jsonOfObj = tk)) := by
  refine ⟨rfl, ?_⟩
  intro b
  have hroute : postDataRoute h cmp srv (.accepted b) backupOk writeOk =
      postData h cmp srv (some b) backupOk writeOk := rfl
  rw [hroute]
  exact (postData_then_get h cmp srv backupOk writeOk).2 b

theorem post_then_get_returns_normalised_witness :
    (postDataRoute demoHost compareNames freshServer (.accepted testBody) true true).2 = 200 ∧
    getData (postDataRoute demoHost compareNames freshServer (.accepted testBody) true true).1 =
      some { events := testBody.events.map (fun xs => xs.filterMap id),
             topics := testBody.topics.map (fun xs => xs.filterMap id),
             tasks := testBody.tasks.map (fun xs => xs.filterMap id) } ∧
    postDataRoute demoHost compareNames freshServer .refused true true = (freshServer, 500) :=
  have h := post_then_get_returns_normalised demoHost compareNames freshServer true true
  have h200 :
      (postDataRoute demoHost compareNames freshServer (.accepted testBody) true true).2 = 200 :=
    ((h.2 testBody).1).mpr ⟨by decide, rfl⟩
  have hg := ((h.2 testBody).2.2.2
    [[("id", .str "test-event-1"), ("ts", .str "1970-01-01T00:00:00.000Z"),
      ("text", .str "x"), ("topic", .null)]]
    [[("id", .str "test-topic-1"), ("name", .str "n"), ("notes", .str ""),
      ("done", .bool false), ("createdAt", .str "1970-01-01T00:00:00.000Z")]]
    [[("id", .str "test-task-1"), ("text", .str "t"), ("done", .bool false),
      ("notes", .str ""), ("createdAt", .str "1970-01-01T00:00:00.000Z")]]
    rfl (by decide) (by decide) (by decide) h200).1
  ⟨h200, hg.trans (by decide), h.1⟩

/-! ## Saving twice -/

theorem saveToServer_mirror (h : Host) (cmp : String → String → Int) (st : State)
    (sto : Store) (srv : Server) (lw bk w : Bool) :
    (saveToServer h cmp st sto srv lw bk w).1.mirror =
      if lw then .doc (jsonOfState st) else sto.mirror := by
  cases lw
  · rfl
  · simp only [saveToServer, if_true, saveData]
    split <;> rfl

theorem saveToServer_dataFile (h : Host) (cmp : String → String → Int) (st : State)
    (sto : Store) (srv : Server) (lw bk w : Bool) (out : State)
    (hp : processImportData h srv.tick (bundleOfDoc (jsonOfState st)) = some out) :
    (saveToServer h cmp st sto srv lw bk w).2.dataFile =
      if lw && w then .doc (jsonOfState out) else srv.dataFile := by
  cases lw
  · rfl
  · simp only [saveToServer, if_true, Bool.true_and]
    rcases postData_cases h cmp srv (bundleOfDoc (jsonOfState st)) bk w with
      ⟨hn, -, -⟩ | ⟨out2, -, hw, -, hf⟩ | ⟨out2, hp2, hw, -, hf⟩
    · rw [hp] at hn
      cases hn
    · rw [hf, hw]
      rfl
    · rw [hp] at hp2
      cases hp2
      rw [hf, hw]
      rfl

/-- C23, the claim as stated fails: the state `idlessState` has a task without
an id.  Saved twice in a row against a server that stored nothing yet, the
mirror holds the same text after both saves, and the data file holds a task with
the generated id `u` after the first save and `uuuu` after the second: the
server generates the missing id anew for each request. -/
theorem second_save_rewrites_generated_ids :
    (saveToServer demoHost compareNames idlessState blankStore freshServer
      true true true).2.dataFile =
      .doc { events := some [], topics := some [],
             tasks := some [[("text", .str "x"), ("done", .bool false),
                             ("createdAt", .str "c"), ("id", .str "u")]] } ∧
    (saveToServer demoHost compareNames idlessState
      (saveToServer demoHost compareNames idlessState blankStore freshServer true true true).1
      (saveToServer demoHost compareNames idlessState blankStore freshServer true true true).2
      true true true).2.dataFile =
      .doc { events := some [], topics := some [],
             tasks := some [[("text", .str "x"), ("done", .bool false),
                             ("createdAt", .str "c"), ("id", .str "uuuu")]] } ∧
    (saveToServer demoHost compareNames idlessState
      (saveToServer demoHost compareNames idlessState blankStore freshServer true true true).1
      (saveToServer demoHost compareNames idlessState blankStore freshServer true true true).2
      true true true).2.dataFile ≠
    (saveToServer demoHost compareNames idlessState blankStore freshServer
      true true true).2.dataFile ∧
    (saveToServer demoHost compareNames idlessState
      (saveToServer demoHost compareNames idlessState blankStore freshServer true true true).1
      (saveToServer demoHost compareNames idlessState blankStore freshServer true true true).2
      true true true).1.mirror =
    (saveToServer demoHost compareNames idlessState blankStore freshServer
      true true true).1.mirror := by
  decide

/-- C23, amended: a save whose local write succeeds leaves the serialised state
in the local mirror, and a second save of the same state leaves the mirror as it
is, whatever its outcome.  When every item of the state has an id and a
timestamp, a save that reaches the server and is written to the data file leaves
there the document of the normalised state, and a second save of the same state
leaves the data file as it is, whatever its outcome. -/
theorem save_twice_same_content (h : Host) (cmp : String → String → Int) (st : State)
    (sto : Store) (srv : Server) (bk1 lw2 bk2 w2 : Bool) :
    (∀ w1 : Bool,
      (saveToServer h cmp st sto srv true bk1 w1).1.mirror = .doc (jsonOfState st) ∧
      (saveToServer h cmp st (saveToServer h cmp st sto srv true bk1 w1).1
        (saveToServer h cmp st sto srv true bk1 w1).2 lw2 bk2 w2).1.mirror =
        (saveToServer h cmp st sto srv true bk1 w1).1.mirror) ∧
    ((∀ x ∈ st.events, HasIdAnd "ts" x) → (∀ x ∈ st.topics, HasIdAnd "createdAt" x) →
      (∀ x ∈ st.tasks, HasIdAnd "createdAt" x) →
      (saveToServer h cmp st sto srv true bk1 true).2.dataFile =
        .doc (jsonOfState { events := sortEvents h (st.events.map jsonOfObj),
                            topics := st.topics.map jsonOfObj,
                            tasks := st.tasks.map jsonOfObj }) ∧
      (saveToServer h cmp st (saveToServer h cmp st sto srv true bk1 true).1
        (saveToServer h cmp st sto srv true bk1 true).2 lw2 bk2 w2).2.dataFile =
        (saveToServer h cmp st sto srv true bk1 true).2.dataFile) := by
  constructor
  · intro w1
    have h1 := saveToServer_mirror h cmp st sto srv true bk1 w1
    rw [if_pos rfl] at h1
    refine ⟨h1, ?_⟩
    rw [saveToServer_mirror, h1]
    cases lw2 <;> rfl
  · intro hev htp htk
    have h1 := saveToServer_dataFile h cmp st sto srv true bk1 true _
      (processImportData_of_state h srv.tick st hev htp htk)
    simp only [Bool.and_self, if_true] at h1
    refine ⟨h1, ?_⟩
    rw [saveToServer_dataFile h cmp st _ _ lw2 bk2 w2 _
      (processImportData_of_state h _ st hev htp htk), h1]
    split <;> rfl

theorem save_twice_same_content_witness :
    (saveToServer demoHost compareNames canonicalState
      (saveToServer demoHost compareNames canonicalState blankStore freshServer
        true true true).1
      (saveToServer demoHost compareNames canonicalState blankStore freshServer
        true true true).2 true true true).2.dataFile =
    (saveToServer demoHost compareNames canonicalState blankStore freshServer
      true true true).2.dataFile ∧
    (saveToServer demoHost compareNames canonicalState
      (saveToServer demoHost compareNames canonicalState blankStore freshServer
        true true true).1
      (saveToServer demoHost compareNames canonicalState blankStore freshServer
        true true true).2 true true true).1.mirror =
    (saveToServer demoHost compareNames canonicalState blankStore freshServer
      true true true).1.mirror :=
  have h := save_twice_same_content demoHost compareNames canonicalState blankStore
    freshServer true true true true
  ⟨(h.2 (by decide) (by decide) (by decide)).2, (h.1 true).2⟩

/-! ## Switching the edit session -/

/-- C27, where the code departs from the claim.  (1) In the session
`renamingTopic` the save of the edited topic fails (its new name is taken), so
the session stays dirty; the click on the task `t1` then sets `currentEdit` to
`t1`, and the `saveBeforeSwitch()` at the head of `loadIntoEditor` saves the
editor, which still holds the topic's title and notes, into `t1`: its text
becomes `Work` and its notes `h2`, in the state and in the mirror.
(2) In the session `retitlingTask` the local write of the first save fails;
after the click on the task `b` that task has the title typed for the task
`a`. -/
theorem session_switch_overwrites_new_entity :
    (performSave demoHost renamingTopic true true true).2 = .failed "存在同名主题" ∧
    (saveBeforeSwitchDone demoHost renamingTopic true true).state = renamingTopic.state ∧
    (saveBeforeSwitchDone demoHost renamingTopic true true).hasUnsavedChanges = true ∧
    renamingTopic.state.tasks.map (fun t => (t.get "id", t.get "text", t.get "notes")) =
      [(.str "t1", .str "buy milk", .str "n")] ∧
    (clickToEdit demoHost demoDom [""] renamingTopic .task (.str "t1")
        true true true true).state.tasks.map
        (fun t => (t.get "id", t.get "text", t.get "notes")) =
      [(.str "t1", .str "Work", .str "h2")] ∧
    (clickToEdit demoHost demoDom [""] renamingTopic .task (.str "t1")
        true true true true).store.mirror =
      .doc (jsonOfState (clickToEdit demoHost demoDom [""] renamingTopic .task (.str "t1")
        true true true true).state) ∧
    (clickToEdit demoHost demoDom [""] renamingTopic .task (.str "t1")
        true true true true).currentEdit = some { type := .task, id := .str "t1" } ∧
    retitlingTask.state.tasks.map (fun t => (t.get "id", t.get "text")) =
      [(.str "a", .str "old"), (.str "b", .str "other")] ∧
    (clickToEdit demoHost demoDom [""] retitlingTask .task (.str "b")
        false true true true).state.tasks.map (fun t => (t.get "id", t.get "text")) =
      [(.str "a", .str "new"), (.str "b", .str "new")] := by
  decide

end LLog
